import Mathlib

/-!
Zephyr `cryptonote_tx_utils.cpp`: asset-type resolution, transaction-type classification,
reserve-ratio guard and pricing arithmetic.

Shallow embedding of `src/cryptonote_core/cryptonote_tx_utils.cpp`.

Conventions of the embedding.
* `uint64_t` and `boost::multiprecision::uint128_t` values are natural numbers; every operation
  that can leave the range carries its reduction `% 2^64` resp. `% 2^128` explicitly.
* `int64_t` values are integers in `[-2^63, 2^63)`.
* `get_tx_type` and `get_tx_asset_types` return `bool` and fill reference parameters; they are
  rendered with an `Option`: `none` is `return false`, `some v` is `return true` with the
  reference parameters set to `v`.
* `std::stoull` and the `uint128_t` division by zero throw; the functions that can reach them
  (the guard and the pricing functions) are rendered with an `Option` whose `none` is the thrown
  exception. `reserve_ratio_satisfied` then returns its `bool` paired with `error_reason`.
* The quotient of two `cpp_dec_float_100` values is `+inf` or NaN when the denominator is zero;
  with a non-zero denominator it is computed by the Boost library, which is outside this file:
  the finite quotient is a parameter `quot` of the functions that divide, and the theorems that
  depend on its value assume `quotient_accurate quot`, a bound on its relative error. The
  conversion of a finite `cpp_dec_float_100` to `double` is likewise a parameter `to_double`.
-/

namespace Zephyr

/-! ## Asset types and transaction types -/

/-- Modelled from the spec: `oracle::ASSET_TYPES` is declared outside this file. The spec fixes the
closed asset set PRIMARY, STABLE, RESERVE; their names in the code are the string literals
`"ZEPH"`, `"ZEPHUSD"`, `"ZEPHRSV"` that `get_tx_type` compares against. -/
def ASSET_TYPES : List String := ["ZEPH", "ZEPHUSD", "ZEPHRSV"]

/-- Modelled from the spec: the enum `transaction_type` is declared outside this file. The spec
lists the seven tags; `UNSET` is the value of a tag that was never assigned. -/
inductive transaction_type
  | UNSET
  | TRANSFER
  | STABLE_TRANSFER
  | RESERVE_TRANSFER
  | MINT_STABLE
  | REDEEM_STABLE
  | MINT_RESERVE
  | REDEEM_RESERVE
  deriving DecidableEq, Repr

/-- Embedding of `get_tx_type` (lines 429-470). `none` is `return false` (the reference parameter
`type` is left untouched), `some t` is `return true` after `type = t`. -/
def get_tx_type (source destination : String) : Option transaction_type :=
  -- check both source and destination are supported
  if source ∉ ASSET_TYPES then none
  else if destination ∉ ASSET_TYPES then none
  -- find the tx type
  else if source = destination then
    if source = "ZEPH" then some transaction_type.TRANSFER
    else if source = "ZEPHUSD" then some transaction_type.STABLE_TRANSFER
    else if source = "ZEPHRSV" then some transaction_type.RESERVE_TRANSFER
    else none
  else
    if source = "ZEPH" ∧ destination = "ZEPHUSD" then some transaction_type.MINT_STABLE
    else if source = "ZEPHUSD" ∧ destination = "ZEPH" then some transaction_type.REDEEM_STABLE
    else if source = "ZEPH" ∧ destination = "ZEPHRSV" then some transaction_type.MINT_RESERVE
    else if source = "ZEPHRSV" ∧ destination = "ZEPH" then some transaction_type.REDEEM_RESERVE
    else none

/-- The seven supported (source, destination) pairs with their transaction type, in the order in
which the classifier is described. -/
def supported_pairs : List (String × String × transaction_type) :=
  [("ZEPH", "ZEPH", transaction_type.TRANSFER),
   ("ZEPHUSD", "ZEPHUSD", transaction_type.STABLE_TRANSFER),
   ("ZEPHRSV", "ZEPHRSV", transaction_type.RESERVE_TRANSFER),
   ("ZEPH", "ZEPHUSD", transaction_type.MINT_STABLE),
   ("ZEPHUSD", "ZEPH", transaction_type.REDEEM_STABLE),
   ("ZEPH", "ZEPHRSV", transaction_type.MINT_RESERVE),
   ("ZEPHRSV", "ZEPH", transaction_type.REDEEM_RESERVE)]

/-! ## `std::set<std::string>` -/

/-- Comparison of `std::string` contents: lexicographic, character by character, a proper prefix
being smaller than its extensions. -/
def lex_less : List Char → List Char → Bool
  | [], [] => false
  | [], _ :: _ => true
  | _ :: _, [] => false
  | a :: as, b :: bs =>
    if a < b then true else if b < a then false else lex_less as bs

/-- The operator `std::string::operator<`, which orders a `std::set<std::string>`. -/
def string_less (a b : String) : Bool := lex_less a.data b.data

/-- Insertion `std::set<std::string>::insert`. The set is kept as the ascending list of its distinct
elements, which is the order in which `std::copy(begin(), end(), ...)` reads it out. -/
def set_insert (x : String) : List String → List String
  | [] => [x]
  | y :: ys =>
    if string_less x y then x :: y :: ys
    else if string_less y x then y :: set_insert x ys
    else y :: ys

/-! ## Transactions -/

/-- The input variant `txin_v`. Only the alternative held and, for a `txin_zephyr_key`, its fields
are recorded. -/
inductive txin_v
  | txin_gen (height : Nat)
  | txin_to_script
  | txin_to_scripthash
  | txin_zephyr_key (amount : Nat) (asset_type : String) (key_offsets : List Nat)
      (k_image : List Nat)
  deriving DecidableEq, Repr

/-- A transaction prefix as far as asset-type resolution reads it: the inputs `vin` and the
outputs `vout`. The output type `Out` is a parameter: outputs are only ever passed to
`cryptonote::get_output_asset_type`, which is declared outside this file. -/
structure transaction (Out : Type) where
  vin : List txin_v
  vout : List Out

/-- The loop over `tx.vin` of `get_tx_asset_types` (lines 318-333), started with the set `acc`.
`none` is one of the two `return false` of the loop. -/
def source_asset_types (is_miner_tx : Bool) : List txin_v → List String → Option (List String)
  | [], acc => some acc
  | txin_v.txin_gen _ :: rest, acc =>
    if !is_miner_tx then none
    else source_asset_types is_miner_tx rest (set_insert "ZEPH" acc)
  | txin_v.txin_zephyr_key _ asset_type _ _ :: rest, acc =>
    source_asset_types is_miner_tx rest (set_insert asset_type acc)
  | _ :: _, _ => none

/-- The loop over `tx.vout` of `get_tx_asset_types` (lines 357-367). The helper
`cryptonote::get_output_asset_type` is not part of this file and is a parameter: it yields
`some a` when it returns `true` with `output_asset_type = a`, and `none` when it returns `false`. -/
def destination_asset_types {Out : Type} (get_output_asset_type : Out → Option String) :
    List Out → List String → Option (List String)
  | [], acc => some acc
  | out :: rest, acc =>
    match get_output_asset_type out with
    | none => none
    | some output_asset_type =>
      destination_asset_types get_output_asset_type rest (set_insert output_asset_type acc)

/-- Lines 335-354 of `get_tx_asset_types`: the source resolved from the vector `sat` of distinct
input asset types. -/
def resolve_source (sat : List String) : Option String :=
  if sat.length = 2 then
    if (sat.getD 0 "" = "ZEPH" ∧ sat.getD 1 "" = "ZEPHUSD")
        ∨ (sat.getD 0 "" = "ZEPHUSD" ∧ sat.getD 1 "" = "ZEPH") then some "ZEPHUSD"
    else none
  else if sat.length ≠ 1 then none
  else some (sat.getD 0 "")

/-- Lines 369-414 of `get_tx_asset_types`: the destination resolved from the vector `dat` of
distinct output asset types. -/
def resolve_destination (is_miner_tx : Bool) (sat : List String) (source : String)
    (dat : List String) : Option String :=
  if dat.length = 0 then none
  else if is_miner_tx then some "ZEPH"
  else if dat.length > 2 then none
  else if dat.length = 1 then
    if sat.length ≠ 1 then none
    else if dat.getD 0 "" ≠ source then none
    else some (dat.getD 0 "")
  else
    if sat.length = 2 ∧ ¬ ((dat.getD 0 "" = "ZEPH" ∧ dat.getD 1 "" = "ZEPHUSD")
        ∨ (dat.getD 0 "" = "ZEPHUSD" ∧ dat.getD 1 "" = "ZEPH")) then none
    else if dat.getD 0 "" = source then some (dat.getD 1 "")
    else if dat.getD 1 "" = source then some (dat.getD 0 "")
    else none

/-- Embedding of `get_tx_asset_types` (lines 315-427). The parameter `txid` of the source is never
read and is dropped. `none` is `return false`; `some (source, destination)` is `return true` with
the two reference parameters set. -/
def get_tx_asset_types {Out : Type} (get_output_asset_type : Out → Option String)
    (tx : transaction Out) (is_miner_tx : Bool) : Option (String × String) :=
  match source_asset_types is_miner_tx tx.vin [] with
  | none => none
  | some sat =>
    match resolve_source sat with
    | none => none
    | some source =>
      match destination_asset_types get_output_asset_type tx.vout [] with
      | none => none
      | some dat =>
        match resolve_destination is_miner_tx sat source dat with
        | none => none
        | some destination =>
          if source ∉ ASSET_TYPES then none
          else if destination ∉ ASSET_TYPES then none
          else some (source, destination)


/-! ## Machine arithmetic -/

/-- Conversion of an integer to `uint64_t`: reduction modulo `2^64`. The sum of a `uint64_t` and
an `int64_t` is computed in `uint64_t`, so `wrap64 (a + t)` is the value of `a + t` in the code. -/
def wrap64 (z : Int) : Nat := (z % 2 ^ 64).toNat

/-- Multiplication of `boost::multiprecision::uint128_t` (unchecked, fixed width): modulo
`2^128`. -/
def mul128 (a b : Nat) : Nat := (a * b) % 2 ^ 128

/-- Subtraction of `uint128_t`: modulo `2^128`. -/
def sub128 (a b : Nat) : Nat := (a + 2 ^ 128 - b % 2 ^ 128) % 2 ^ 128

/-- Division of `uint128_t`. A zero divisor throws `std::overflow_error`, rendered as `none`. -/
def div128 (a b : Nat) : Option Nat := if b = 0 then none else some (a / b)

/-- The cast `(uint64_t)` of a `uint128_t`: the low 64 bits. -/
def to_uint64 (a : Nat) : Nat := a % 2 ^ 64

/-- Values of `boost::multiprecision::cpp_dec_float_100` that arise as a quotient of two
non-negative integers: a finite value, `+inf` (non-zero divided by zero) or NaN (zero divided by
zero). A finite value is a decimal fraction, hence a rational. The same three kinds of value
render a `double`. -/
inductive dec_float
  | nan
  | inf
  | finite (q : ℚ)
  deriving DecidableEq

/-- The quotient `cpp_dec_float_100(a) / cpp_dec_float_100(l)` of two unsigned integers. Division
by zero does not throw for this type. With a non-zero divisor the library computes the quotient
in its 100-digit decimal arithmetic (the numerator times a reciprocal of the divisor), which need
not be the exact rational: `quot a l` is the value it returns. -/
def dec_div (quot : Nat → Nat → ℚ) (a l : Nat) : dec_float :=
  if l = 0 then (if a = 0 then dec_float.nan else dec_float.inf)
  else dec_float.finite (quot a l)

/-- What the proofs assume of the library quotient of two `uint128_t` values with a non-zero
divisor: its relative error is at most `10^-50`. The type carries 100 decimal digits. -/
def quotient_accurate (quot : Nat → Nat → ℚ) : Prop :=
  ∀ a l : Nat, 0 < l → a < 2 ^ 128 → l < 2 ^ 128 →
    |quot a l - (a : ℚ) / (l : ℚ)| * 10 ^ 50 ≤ (a : ℚ) / (l : ℚ)

/-- A quotient that is accurate without being exact: the numerator times the reciprocal of the
divisor truncated to 128 decimal places. It is exact when the reciprocal has at most 128 decimal
places and falls below the exact quotient otherwise. -/
def truncated_quotient (a l : Nat) : ℚ :=
  (a : ℚ) * ((10 ^ 128 / l : Nat) : ℚ) / 10 ^ 128

/-- The conversion `convert_to<double>()` resp. `(double)` of a `cpp_dec_float_100` value: NaN and
`+inf` are kept, and a finite value `q` is rounded by the library to the double `to_double q`. -/
def convert_to_double (to_double : ℚ → ℚ) (r : dec_float) : dec_float :=
  match r with
  | dec_float.nan => dec_float.nan
  | dec_float.inf => dec_float.inf
  | dec_float.finite q => dec_float.finite (to_double q)

/-- What the proofs assume of the conversion to `double` of a finite value between `2^-129` and
`2^65`: its relative error is at most `2^-52`. A `double` carries 53 bits. -/
def double_accurate (to_double : ℚ → ℚ) : Prop :=
  ∀ q : ℚ, 1 / 2 ^ 129 ≤ q → q ≤ 2 ^ 65 → |to_double q - q| * 2 ^ 52 ≤ q

/-- The comparison `r < c` with a finite constant `c`; false when `r` is NaN. -/
def dec_lt (r : dec_float) (c : ℚ) : Bool :=
  match r with
  | dec_float.nan => false
  | dec_float.inf => false
  | dec_float.finite q => decide (q < c)

/-- The comparison `r >= c` with a finite constant `c`; false when `r` is NaN. -/
def dec_ge (r : dec_float) (c : ℚ) : Bool :=
  match r with
  | dec_float.nan => false
  | dec_float.inf => true
  | dec_float.finite q => decide (c ≤ q)

/-! ## Configuration and records -/

/-- Modelled from the spec: the macro `COIN` is defined outside this file. It is the fixed decimal
scale of the conversions, `10^12` (the literal `1000000000000` that `get_stable_amount` and
`get_zeph_amount_from_reserve` divide by). -/
def COIN : Nat := 1000000000000

/-- Modelled from the spec: `oracle::pricing_record` is declared outside this file. The oracle
snapshot carries the rate ZEPH to ZEPHUSD and the rate ZEPH to ZEPHRSV, both `uint64_t`; no other
field is read here. -/
structure pricing_record where
  zEPHUSD : Nat
  zEPHRSV : Nat
  deriving DecidableEq, Repr

/-! ## Circulating supply -/

/-- The characters `std::isspace` accepts in the C locale. -/
def is_space (c : Char) : Bool :=
  c.toNat = 32 || (9 ≤ c.toNat && c.toNat ≤ 13)

/-- The characters `0` to `9`. -/
def is_digit (c : Char) : Bool := 48 ≤ c.toNat && c.toNat ≤ 57

/-- The value of a run of decimal digits. -/
def digits_value (ds : List Char) : Nat := ds.foldl (fun n c => 10 * n + (c.toNat - 48)) 0

/-- The call `std::stoull(str)`, base 10: leading white space is skipped, an optional sign is read, then
the longest run of digits. `none` is the exception thrown when there is no digit
(`std::invalid_argument`) or the number does not fit (`std::out_of_range`). A minus sign negates
the value in `unsigned long long`. Characters after the digits are ignored. -/
def stoull (str : String) : Option Nat :=
  let cs := str.data.dropWhile is_space
  let negative : Bool := match cs with
    | c :: _ => c.toNat = 45
    | [] => false
  let rest := match cs with
    | c :: r => if c.toNat = 45 || c.toNat = 43 then r else cs
    | [] => cs
  let ds := rest.takeWhile is_digit
  if ds = [] then none
  else if 2 ^ 64 ≤ digits_value ds then none
  else if negative then some ((2 ^ 64 - digits_value ds) % 2 ^ 64)
  else some (digits_value ds)

/-- The lookup loops over `circ_amounts` (e.g. lines 639-645): the amount of the first entry whose
key is `asset`, parsed by `std::stoull`, and `0` when there is no such entry. `none` is the
exception of `std::stoull`. -/
def circ_lookup (circ_amounts : List (String × String)) (asset : String) : Option Nat :=
  match circ_amounts.find? (fun circ_amount => circ_amount.1 = asset) with
  | none => some 0
  | some circ_amount => stoull circ_amount.2

/-! ## Reserve state and the reserve-ratio guard -/

/-- The values the reference parameters of `get_reserve_info` hold on return. The field
`reserve_ratio` is a `double`. -/
structure reserve_info where
  zeph_reserve : Nat
  num_stables : Nat
  num_reserves : Nat
  assets : Nat
  liabilities : Nat
  equity : Nat
  reserve_ratio : dec_float
  deriving DecidableEq

/-- Embedding of `get_reserve_info` (lines 531-587). `none` is a thrown exception
(`std::stoull`, or the `uint128_t` division by a zero exchange rate). -/
def get_reserve_info (quot : Nat → Nat → ℚ) (to_double : ℚ → ℚ)
    (circ_amounts : List (String × String)) (pr : pricing_record) : Option reserve_info :=
  match circ_lookup circ_amounts "ZEPH", circ_lookup circ_amounts "ZEPHRSV",
      circ_lookup circ_amounts "ZEPHUSD" with
  | some zeph_reserve, some num_reserves, some num_stables =>
    if num_reserves = 0 ∨ zeph_reserve = 0 then
      some ⟨zeph_reserve, num_stables, num_reserves, 0, 0, 0, dec_float.finite 0⟩
    else
      let exchange_128 := pr.zEPHUSD
      let assets_128 := zeph_reserve
      match div128 (mul128 num_stables COIN) exchange_128 with
      | none => none
      | some liabilities_128 =>
        -- use boost floating point to calculate the ratio
        let reserve_ratio_128 := dec_div quot assets_128 liabilities_128
        let assets := to_uint64 assets_128
        let liabilities := to_uint64 liabilities_128
        let equity := wrap64 ((assets : Int) - (liabilities : Int))
        let reserve_ratio := convert_to_double to_double reserve_ratio_128
        some ⟨zeph_reserve, num_stables, num_reserves, assets, liabilities, equity,
          reserve_ratio⟩
  | _, _, _ => none

/-- Embedding of `get_reserve_ratio` (lines 588-628). The result is a `double`. `none` is a
thrown exception. -/
def get_reserve_ratio (quot : Nat → Nat → ℚ) (to_double : ℚ → ℚ)
    (circ_amounts : List (String × String)) (pr : pricing_record) : Option dec_float :=
  match circ_lookup circ_amounts "ZEPH", circ_lookup circ_amounts "ZEPHRSV",
      circ_lookup circ_amounts "ZEPHUSD" with
  | some zeph_reserve, some num_reserve, some num_stable =>
    if num_reserve = 0 ∨ zeph_reserve = 0 then some (dec_float.finite 0)
    else
      let exchange_128 := pr.zEPHUSD
      let assets := zeph_reserve
      match div128 (mul128 num_stable COIN) exchange_128 with
      | none => none
      | some liabilities =>
        -- use boost floating point to calculate the ratio
        let reserve_ratio := dec_div quot assets liabilities
        some (convert_to_double to_double reserve_ratio)
  | _, _, _ => none

/-- Lines 674-686 of `reserve_ratio_satisfied`: the locals `assets`, `liabilities` and
`reserve_ratio` after the ratio has been computed from the post-transaction totals. `none` is the
exception of the `uint128_t` division by a zero exchange rate. -/
def post_transaction_ratio (quot : Nat → Nat → ℚ) (zeph_reserve num_stable num_reserve : Nat)
    (pr : pricing_record) (tally_zeph tally_stables tally_reserves : Int) :
    Option (Nat × Nat × dec_float) :=
  let new_zeph_reserve := wrap64 ((zeph_reserve : Int) + tally_zeph)
  let new_num_stable := wrap64 ((num_stable : Int) + tally_stables)
  let _new_num_reserve := wrap64 ((num_reserve : Int) + tally_reserves)
  let exchange_128 := pr.zEPHUSD
  let assets := new_zeph_reserve
  match div128 (mul128 new_num_stable COIN) exchange_128 with
  | none => none
  | some liabilities => some (assets, liabilities, dec_div quot assets liabilities)

/-- Lines 690-728 of `reserve_ratio_satisfied`: the policy by transaction type. The result is the
returned `bool` and the final value of `error_reason`. `to_string` renders
`std::to_string((double)reserve_ratio)`. -/
def ratio_policy (to_string : dec_float → String) (tx_type : transaction_type)
    (reserve_ratio : dec_float) (error_reason : String) : Bool × String :=
  if tx_type = transaction_type.MINT_STABLE then
    -- make sure the reserve ratio is at least 4.0
    if dec_lt reserve_ratio 4 then
      (false, "Reserve ratio not satisfied. " ++ to_string reserve_ratio ++ " is less than 4.0")
    else (true, error_reason)
  else if tx_type = transaction_type.REDEEM_STABLE then
    (true, error_reason)
  else if tx_type = transaction_type.MINT_RESERVE then
    -- make sure the reserve ratio has not exceeded max of 8.0
    if dec_ge reserve_ratio 8 then
      (false, "Reserve ratio not satisfied. " ++ to_string reserve_ratio ++ " is above max 8.0")
    else (true, error_reason)
  else if tx_type = transaction_type.REDEEM_RESERVE then
    -- make sure the reserve ratio is at least 4.0
    if dec_lt reserve_ratio 4 then
      (false, "Reserve ratio not satisfied. " ++ to_string reserve_ratio ++ " is less than 4.0")
    else (true, error_reason)
  else
    (false, "Reserve ratio not satisfied. " ++ to_string reserve_ratio)

/-- Embedding of `reserve_ratio_satisfied` (lines 637-729). `error_reason` is the value of the
reference parameter on entry; the result is the returned `bool` with the value of `error_reason`
on return. `none` is a thrown exception (`std::stoull`, or the division by a zero exchange
rate). -/
def reserve_ratio_satisfied (quot : Nat → Nat → ℚ) (to_string : dec_float → String)
    (circ_amounts : List (String × String)) (pr : pricing_record) (tx_type : transaction_type)
    (tally_zeph tally_stables tally_reserves : Int) (error_reason : String) :
    Option (Bool × String) :=
  match circ_lookup circ_amounts "ZEPH", circ_lookup circ_amounts "ZEPHRSV",
      circ_lookup circ_amounts "ZEPHUSD" with
  | some zeph_reserve, some num_reserve, some num_stable =>
    if num_reserve = 0 then
      -- make sure no stables are minted if there are no reserve coins
      if tally_stables = 0 then some (true, error_reason)
      else some (false, "Reserve ratio not satisfied. No reserve coins in circulation.")
    else
      match post_transaction_ratio quot zeph_reserve num_stable num_reserve pr
          tally_zeph tally_stables tally_reserves with
      | none => none
      | some (_, _, reserve_ratio) =>
        some (ratio_policy to_string tx_type reserve_ratio error_reason)
  | _, _, _ => none

/-! ## Pricing -/

/-- Embedding of `get_stable_coin_price` (lines 731-763). `none` is a thrown exception. -/
def get_stable_coin_price (circ_amounts : List (String × String)) (oracle_price : Nat) :
    Option Nat :=
  match circ_lookup circ_amounts "ZEPH", circ_lookup circ_amounts "ZEPHUSD" with
  | some zeph_reserve, some num_stable =>
    if num_stable = 0 then some oracle_price
    else
      -- calculate the worst case stable price
      let assets := mul128 zeph_reserve COIN
      match div128 assets num_stable with
      | none => none
      | some worst_case_stable_price =>
        let worst_case_stable_price :=
          sub128 worst_case_stable_price (worst_case_stable_price % 10000)
        some (min oracle_price (to_uint64 worst_case_stable_price))
  | _, _ => none

/-- Embedding of `get_reserve_coin_price` (lines 765-821). `none` is a thrown exception. -/
def get_reserve_coin_price (circ_amounts : List (String × String)) (pr : pricing_record) :
    Option Nat :=
  match circ_lookup circ_amounts "ZEPH", circ_lookup circ_amounts "ZEPHRSV",
      circ_lookup circ_amounts "ZEPHUSD" with
  | some zeph_reserve, some num_reserve, some num_stable =>
    let price_r_min := 500000000000
    if num_reserve = 0 then some (to_uint64 price_r_min)
    else if pr.zEPHUSD = 0 then some 0
    else
      let exchange_128 := pr.zEPHUSD
      let assets := zeph_reserve
      match div128 (mul128 num_stable COIN) exchange_128 with
      | none => none
      | some liabilities =>
        let equity := sub128 assets liabilities
        let equity := mul128 equity COIN
        match div128 equity num_reserve with
        | none => none
        | some reserve_coin_price =>
          let reserve_coin_price := sub128 reserve_coin_price (reserve_coin_price % 10000)
          some (max (to_uint64 reserve_coin_price) (to_uint64 price_r_min))
  | _, _, _ => none

/-- Embedding of `get_stable_amount` (lines 852-860). -/
def get_stable_amount (amount : Nat) (pr : pricing_record) : Nat :=
  let amount_128 := amount
  let stable_128 := mul128 amount_128 pr.zEPHUSD
  let stable_128 := stable_128 / 1000000000000
  to_uint64 stable_128

/-- Embedding of `get_zeph_amount` (lines 862-881). `none` is the exception of the division by a
zero exchange rate. -/
def get_zeph_amount (amount : Nat) (pr : pricing_record) : Option Nat :=
  let stable_128 := amount
  let exchange_128 := pr.zEPHUSD
  -- for rct precision
  let rate_128 := COIN
  let rate_128 := mul128 rate_128 COIN
  match div128 rate_128 exchange_128 with
  | none => none
  | some rate_128 =>
    let rate_128 := sub128 rate_128 (rate_128 % 100000000)
    let zeph_128 := mul128 stable_128 rate_128
    match div128 zeph_128 COIN with
    | none => none
    | some zeph_128 => some (to_uint64 zeph_128)

/-- Embedding of `tx_pr_height_valid` (lines 883-891). The macro `PRICING_RECORD_VALID_BLOCKS` is
defined outside this file and is a parameter; the parameter `tx_hash` of the source is never read
and is dropped. The subtraction is the `uint64_t` one. -/
def tx_pr_height_valid (PRICING_RECORD_VALID_BLOCKS : Nat) (current_height pr_height : Nat) :
    Bool :=
  if pr_height ≥ current_height then false
  else if wrap64 ((current_height : Int) - (PRICING_RECORD_VALID_BLOCKS : Int)) > pr_height then
    false
  else true

/-- The asset type an input adds to the set of source asset types in the loop over `tx.vin`
(lines 320-333): ZEPH for a generation input, its `asset_type` for a `txin_zephyr_key`, and none
for the other alternatives, on which the loop returns `false`. -/
def input_asset_type : txin_v → Option String
  | txin_v.txin_gen _ => some "ZEPH"
  | txin_v.txin_zephyr_key _ asset_type _ _ => some asset_type
  | _ => none

/-- The list is strictly ascending for `std::string::operator<`. -/
def ascending (l : List String) : Prop := l.Pairwise (fun a b => string_less a b = true)

/-! ## Governance keys -/

/-- Lines 104-115 of `get_deterministic_keypair_from_height`: the 32 bytes written to `sec.data`
before `generate_keys` is called. Byte `i < 8` is `height & (0xFF << 8i)`, shifted right by `8i`
and stored in a `uint8_t`; bytes 8 to 31 are zero. -/
def sec_data (height : Nat) : List Nat :=
  (List.range 8).map
      (fun i => ((height &&& ((0xFF <<< (i * 8)) % 2 ^ 64)) >>> (i * 8)) % 2 ^ 8)
    ++ List.replicate 24 0

/-- The number a byte string encodes when it is read as a little-endian integer. -/
def little_endian : List Nat → Nat
  | [] => 0
  | b :: bs => b + 256 * little_endian bs

/-- An `account_public_address`: the spend and the view public key. -/
structure account_public_address (PK : Type) where
  m_spend_public_key : PK
  m_view_public_key : PK
  deriving DecidableEq

/-- A `keypair`: public and secret key. -/
structure keypair (PK SK : Type) where
  pub : PK
  sec : SK
  deriving DecidableEq

/-- The primitives of `crypto/crypto.h` called by the functions embedded here. They are declared
outside this file and are parameters, over abstract types of public keys `PK`, secret keys `SK`
and key derivations `KD`. `generate_keys seed` is the call
`generate_keys(pub, sec, recovery_key, true)` with `recovery_key = seed`; the two derivation
functions yield `none` when they return `false`. -/
structure crypto_ops (PK SK KD : Type) where
  generate_keys : List Nat → keypair PK SK
  generate_key_derivation : PK → SK → Option KD
  derive_public_key : KD → Nat → PK → Option PK
  derive_view_tag : KD → Nat → Nat

/-- The enumerators of `network_type` that this file names. -/
inductive network_type
  | MAINNET
  | TESTNET
  | STAGENET
  deriving DecidableEq, Repr

/-- The three constants `GOVERNANCE_WALLET_ADDRESS` of the namespaces `::config`,
`::config::testnet` and `::config::stagenet`, defined outside this file. -/
structure governance_config where
  mainnet : String
  testnet : String
  stagenet : String

/-- Embedding of `get_governance_address` (lines 305-313). -/
def get_governance_address (config : governance_config) (nettype : network_type) : String :=
  if nettype = network_type.TESTNET then config.testnet
  else if nettype = network_type.STAGENET then config.stagenet
  else config.mainnet

/-- Embedding of `get_deterministic_output_key` (lines 87-98). `none` is `return false`; on
success the result is the output key together with the derivation written to the reference
parameter. -/
def get_deterministic_output_key {PK SK KD : Type} (ops : crypto_ops PK SK KD)
    (address : account_public_address PK) (tx_key : keypair PK SK) (output_index : Nat) :
    Option (PK × KD) :=
  match ops.generate_key_derivation address.m_view_public_key tx_key.sec with
  | none => none
  | some derivation =>
    match ops.derive_public_key derivation output_index address.m_spend_public_key with
    | none => none
    | some output_key => some (output_key, derivation)

/-- Embedding of `get_deterministic_keypair_from_height` (lines 100-120): the keypair generated
from the seed `sec_data height`. -/
def get_deterministic_keypair_from_height {PK SK KD : Type} (ops : crypto_ops PK SK KD)
    (height : Nat) : keypair PK SK :=
  ops.generate_keys (sec_data height)

/-- Embedding of `get_governance_reward` (lines 283-286). -/
def get_governance_reward (_height : Nat) (base_reward : Nat) : Nat :=
  base_reward / 20

/-- Embedding of `validate_governance_reward_key` (lines 288-303). The parser
`get_account_address_from_str` is declared outside this file and is a parameter: it gives the
address left in `governance_wallet_address`; its return value is not read by the code. -/
def validate_governance_reward_key {PK SK KD : Type} [DecidableEq PK] (ops : crypto_ops PK SK KD)
    (get_account_address_from_str : network_type → String → account_public_address PK)
    (height : Nat) (governance_wallet_address_str : String) (output_index : Nat)
    (output_key : PK) (nettype : network_type) : Bool :=
  let gov_key := get_deterministic_keypair_from_height ops height
  let governance_wallet_address :=
    get_account_address_from_str nettype governance_wallet_address_str
  match get_deterministic_output_key ops governance_wallet_address gov_key output_index with
  | none => false
  | some (correct_key, _) => decide (correct_key = output_key)

/-! ## The miner transaction -/

/-- The output `cryptonote::set_tx_out` builds, recorded by the arguments it is built from:
amount, asset type, one-time key and view tag. -/
structure tx_out (PK : Type) where
  amount : Nat
  asset_type : String
  key : PK
  use_view_tags : Bool
  view_tag : Nat
  deriving DecidableEq

/-- The fields of a `transaction` that the construction functions write. -/
structure transaction_prefix (PK Extra : Type) where
  version : Nat
  unlock_time : Nat
  vin : List txin_v
  vout : List (tx_out PK)
  extra : Extra
  pricing_record_height : Nat
  amount_burnt : Nat
  amount_minted : Nat
  deriving DecidableEq

/-- The functions on the extra field (`cryptonote_format_utils`) called by `construct_miner_tx`.
They are declared outside this file and are parameters over an abstract type `Extra` of extra
blobs; `none` is a returned `false`. The return value of `add_tx_pub_key_to_extra` is not read by
the code. -/
structure extra_ops (PK Extra : Type) where
  empty : Extra
  add_tx_pub_key_to_extra : Extra → PK → Extra
  add_extra_nonce_to_tx_extra : Extra → List Nat → Option Extra
  sort_tx_extra : Extra → Option Extra

/-- What `construct_miner_tx` takes from outside this file: the crypto primitives, the extra-field
functions, the emission curve `get_block_reward` (`none` when it returns `false`), the address
parser, the governance addresses, and the constants `HF_VERSION_DJED` and
`CRYPTONOTE_MINED_MONEY_UNLOCK_WINDOW`. -/
structure miner_env (PK SK KD Extra : Type) where
  ops : crypto_ops PK SK KD
  eops : extra_ops PK Extra
  get_block_reward : Nat → Nat → Nat → Nat → Option Nat
  get_account_address_from_str : network_type → String → account_public_address PK
  config : governance_config
  HF_VERSION_DJED : Nat
  CRYPTONOTE_MINED_MONEY_UNLOCK_WINDOW : Nat

/-- The value `fee_map[key]` of a `std::map<std::string, uint64_t>`, kept as the list of its
entries in ascending key order: the mapped value, and `0` when the key is absent. -/
def map_at (fee_map : List (String × Nat)) (key : String) : Nat :=
  match fee_map.find? (fun e => e.1 = key) with
  | some e => e.2
  | none => 0

/-- The map after `fee_map[key]` has been evaluated: `operator[]` inserts the entry `(key, 0)`
when the key is absent. -/
def map_insert_default (key : String) : List (String × Nat) → List (String × Nat)
  | [] => [(key, 0)]
  | e :: es =>
    if string_less key e.1 then (key, 0) :: e :: es
    else if string_less e.1 key then e :: map_insert_default key es
    else e :: es

/-- The loop over `fee_map` of `construct_miner_tx` (lines 215-239), started at output index
`idx`: the outputs it appends, or `none` when it returns `false`. -/
def fee_outputs {PK SK KD : Type} (ops : crypto_ops PK SK KD)
    (miner_address : account_public_address PK) (txkey : keypair PK SK) :
    List (String × Nat) → Nat → Option (List (tx_out PK))
  | [], _ => some []
  | fee_map_entry :: rest, idx =>
    if fee_map_entry.1 = "ZEPH" ∨ fee_map_entry.2 = 0 then
      fee_outputs ops miner_address txkey rest idx
    else
      match ops.generate_key_derivation miner_address.m_view_public_key txkey.sec with
      | none => none
      | some derivation =>
        match ops.derive_public_key derivation idx miner_address.m_spend_public_key with
        | none => none
        | some out_eph_public_key =>
          match fee_outputs ops miner_address txkey rest (idx + 1) with
          | none => none
          | some outs =>
            some (⟨fee_map_entry.2, fee_map_entry.1, out_eph_public_key, true,
              ops.derive_view_tag derivation idx⟩ :: outs)

/-- Embedding of `construct_miner_tx` (lines 122-259). `txkey` is the keypair drawn by
`keypair::generate`. `none` is `return false`; `some tx` is `return true` with the transaction
left in `tx`. The arithmetic on `block_reward`, `summary_amounts` and `unlock_time` is the
`uint64_t` one. -/
def construct_miner_tx {PK SK KD Extra : Type} (env : miner_env PK SK KD Extra)
    (txkey : keypair PK SK) (height median_weight already_generated_coins
      current_block_weight : Nat) (fee_map : List (String × Nat))
    (miner_address : account_public_address PK) (tx : transaction_prefix PK Extra)
    (extra_nonce : List Nat) (max_outs hard_fork_version : Nat) :
    Option ( transaction_prefix PK Extra) :=
  let extra := env.eops.add_tx_pub_key_to_extra env.eops.empty txkey.pub
  match (if extra_nonce ≠ [] then env.eops.add_extra_nonce_to_tx_extra extra extra_nonce
      else some extra) with
  | none => none
  | some extra =>
  match env.eops.sort_tx_extra extra with
  | none => none
  | some extra =>
  let gov_key := get_deterministic_keypair_from_height env.ops height
  let input := txin_v.txin_gen height
  match env.get_block_reward median_weight current_block_weight already_generated_coins
      hard_fork_version with
  | none => none
  | some block_reward =>
  let governance_reward :=
    if already_generated_coins ≠ 0 then get_governance_reward height block_reward else 0
  let block_reward :=
    if already_generated_coins ≠ 0 then
      wrap64 ((block_reward : Int) - (governance_reward : Int))
    else block_reward
  let block_reward := (block_reward + map_at fee_map "ZEPH") % 2 ^ 64
  let fee_map := map_insert_default "ZEPH" fee_map
  let summary_amounts := 0
  if ¬ (1 ≤ max_outs) then none
  else
  match env.ops.generate_key_derivation miner_address.m_view_public_key txkey.sec with
  | none => none
  | some derivation =>
  match env.ops.derive_public_key derivation 0 miner_address.m_spend_public_key with
  | none => none
  | some out_eph_public_key =>
  let amount := block_reward
  let summary_amounts := (summary_amounts + amount) % 2 ^ 64
  let use_view_tags := true
  let out : tx_out PK :=
    ⟨amount, "ZEPH", out_eph_public_key, use_view_tags, env.ops.derive_view_tag derivation 0⟩
  let vout := [out]
  -- the governance output
  let governance_step : Option (Extra × List (tx_out PK)) :=
    if already_generated_coins ≠ 0 then
      let nettype := network_type.MAINNET
      let extra := env.eops.add_tx_pub_key_to_extra extra gov_key.pub
      let governance_wallet_address :=
        env.get_account_address_from_str nettype (get_governance_address env.config nettype)
      match get_deterministic_output_key env.ops governance_wallet_address gov_key 1 with
      | none => none
      | some (out_eph_public_key, derivation) =>
        let out : tx_out PK :=
          ⟨governance_reward, "ZEPH", out_eph_public_key, use_view_tags,
            env.ops.derive_view_tag derivation 1⟩
        let summary_amounts := (summary_amounts + governance_reward) % 2 ^ 64
        if ¬ (summary_amounts = (block_reward + governance_reward) % 2 ^ 64) then none
        else some (extra, vout ++ [out])
    else some (extra, vout)
  match governance_step with
  | none => none
  | some (extra, vout) =>
  match (if hard_fork_version ≥ env.HF_VERSION_DJED then
      fee_outputs env.ops miner_address txkey fee_map 2 else some []) with
  | none => none
  | some outs =>
  let version := if hard_fork_version ≥ env.HF_VERSION_DJED then 3 else 2
  some { tx with
    version := version
    unlock_time := (height + env.CRYPTONOTE_MINED_MONEY_UNLOCK_WINDOW) % 2 ^ 64
    vin := [input]
    vout := vout ++ outs
    extra := extra }

/-- A toy instance of the primitives over natural numbers, used to evaluate the embedding on
concrete inputs: keys, secrets and derivations are numbers and every derivation is injective. -/
def toy_ops : crypto_ops Nat Nat Nat where
  generate_keys := fun seed => ⟨little_endian seed + 1000, little_endian seed⟩
  generate_key_derivation := fun view sec => some (view + 1000000 * sec)
  derive_public_key := fun derivation index base => some (derivation + 7 * index + 13 * base)
  derive_view_tag := fun derivation index => (derivation + index) % 256

/-- A toy environment for `construct_miner_tx`: the extra field is the list of the keys and
nonces added to it, and the emission curve pays `1000`. -/
def toy_env : miner_env Nat Nat Nat (List Nat) where
  ops := toy_ops
  eops :=
    { empty := []
      add_tx_pub_key_to_extra := fun extra pub => extra ++ [pub]
      add_extra_nonce_to_tx_extra := fun extra nonce => some (extra ++ nonce)
      sort_tx_extra := fun extra => some extra }
  get_block_reward := fun _ _ _ _ => some 1000
  get_account_address_from_str := fun _ str => ⟨str.length, str.length + 1⟩
  config := ⟨"ZEPHYR-GOV", "TEST-GOV", "STAGE-GOV"⟩
  HF_VERSION_DJED := 3
  CRYPTONOTE_MINED_MONEY_UNLOCK_WINDOW := 60

/-- An empty transaction to start a construction from. -/
def null_tx : transaction_prefix Nat (List Nat) := ⟨0, 0, [], [], [], 0, 0, 0⟩

/-! ## The transaction builder: outputs and conversion guard -/

/-- The fields of `tx_destination_entry` (declared in the header) that the output loop of
`construct_tx_with_tx_key` reads for the amounts. -/
structure tx_destination_entry where
  amount : Nat
  dest_amount : Nat
  dest_asset_type : String
  deriving DecidableEq, Repr

/-- The variables the output loop of `construct_tx_with_tx_key` writes. -/
structure outputs_state (PK : Type) where
  vout : List (tx_out PK)
  summary_outs_money : Nat
  amount_minted : Nat
  amount_burnt : Nat
  deriving DecidableEq

/-- The body of the output loop of `construct_tx_with_tx_key` after the amount check (lines
1148-1169): the state after the destination `dst_entr` has been handled at `output_index`.
`generate_output_ephemeral_keys` is the device call, declared outside this file: a parameter that
gives the one-time key and the view tag of a destination. -/
def fill_output {PK : Type}
    (generate_output_ephemeral_keys : tx_destination_entry → Nat → PK × Nat)
    (source_asset dest_asset : String) (use_view_tags : Bool)
    (dst_entr : tx_destination_entry) (output_index : Nat) (st : outputs_state PK) :
    outputs_state PK :=
  let keys := generate_output_ephemeral_keys dst_entr output_index
  let out : tx_out PK :=
    ⟨dst_entr.amount, dst_entr.dest_asset_type, keys.1, use_view_tags, keys.2⟩
  let st := { st with
    vout := st.vout ++ [out]
    summary_outs_money := (st.summary_outs_money + dst_entr.amount) % 2 ^ 64 }
  if source_asset ≠ dest_asset then
    if dst_entr.dest_asset_type = dest_asset then
      { st with
        amount_minted := (st.amount_minted + dst_entr.dest_amount) % 2 ^ 64
        amount_burnt := (st.amount_burnt + dst_entr.amount) % 2 ^ 64 }
    else st
  else st

/-- The output loop of `construct_tx_with_tx_key` (lines 1145-1170), started at `output_index`.
`none` is the `return false` of the amount check. -/
def fill_outputs {PK : Type}
    (generate_output_ephemeral_keys : tx_destination_entry → Nat → PK × Nat)
    (version : Nat) (source_asset dest_asset : String) (use_view_tags : Bool) :
    List tx_destination_entry → Nat → outputs_state PK → Option (outputs_state PK)
  | [], _, st => some st
  | dst_entr :: rest, output_index, st =>
    if ¬ (dst_entr.dest_amount > 0 ∨ version > 1) then none
    else
      fill_outputs generate_output_ephemeral_keys version source_asset dest_asset use_view_tags
        rest (output_index + 1)
        (fill_output generate_output_ephemeral_keys source_asset dest_asset use_view_tags
          dst_entr output_index st)

/-- Lines 1140-1170 of `construct_tx_with_tx_key`: the tallies are reset and the output loop
runs over `destinations` from output index 0, appending to the outputs `vout` of the
transaction. -/
def fill_outputs_step {PK : Type}
    (generate_output_ephemeral_keys : tx_destination_entry → Nat → PK × Nat)
    (version : Nat) (source_asset dest_asset : String) (use_view_tags : Bool)
    (vout : List (tx_out PK)) (destinations : List tx_destination_entry) :
    Option (outputs_state PK) :=
  fill_outputs generate_output_ephemeral_keys version source_asset dest_asset use_view_tags
    destinations 0 ⟨vout, 0, 0, 0⟩

/-- The conversion of a `uint64_t` value to `int64_t` (two's complement). -/
def to_int64 (n : Nat) : Int :=
  if n % 2 ^ 64 < 2 ^ 63 then ((n % 2 ^ 64 : Nat) : Int)
  else ((n % 2 ^ 64 : Nat) : Int) - 2 ^ 64

/-- Lines 1173-1192 of `construct_tx_with_tx_key`: the three `int64_t` deltas
`(conversion_this_tx_zeph, conversion_this_tx_stables, conversion_this_tx_reserves)` after the
four tests on `tx_type`. -/
def conversion_deltas (tx_type : transaction_type) (amount_burnt amount_minted : Nat) :
    Int × Int × Int :=
  let conversion_this_tx_zeph : Int := 0
  let conversion_this_tx_stables : Int := 0
  let conversion_this_tx_reserves : Int := 0
  let (conversion_this_tx_zeph, conversion_this_tx_stables) :=
    if tx_type = transaction_type.MINT_STABLE then
      (to_int64 amount_burnt, to_int64 amount_minted) -- added to the reserve
    else (conversion_this_tx_zeph, conversion_this_tx_stables)
  let (conversion_this_tx_stables, conversion_this_tx_zeph) :=
    if tx_type = transaction_type.REDEEM_STABLE then
      (to_int64 amount_burnt, to_int64 amount_minted) -- deducted from the reserve
    else (conversion_this_tx_stables, conversion_this_tx_zeph)
  let (conversion_this_tx_zeph, conversion_this_tx_reserves) :=
    if tx_type = transaction_type.MINT_RESERVE then
      (to_int64 amount_burnt, to_int64 amount_minted)
    else (conversion_this_tx_zeph, conversion_this_tx_reserves)
  let (conversion_this_tx_reserves, conversion_this_tx_zeph) :=
    if tx_type = transaction_type.REDEEM_RESERVE then
      (to_int64 amount_burnt, to_int64 amount_minted)
    else (conversion_this_tx_reserves, conversion_this_tx_zeph)
  (conversion_this_tx_zeph, conversion_this_tx_stables, conversion_this_tx_reserves)

/-- Lines 1172-1198 of `construct_tx_with_tx_key`: the reserve-ratio guard of a conversion.
`some false` is the `return false` of line 1196, `some true` lets the construction go on, and
`none` is an exception thrown by the guard. The six-argument overload of
`reserve_ratio_satisfied` (lines 630-634) passes an empty `error_reason`. -/
def conversion_guard_step (quot : Nat → Nat → ℚ) (to_string : dec_float → String)
    (circ_amounts : List (String × String)) (pr : pricing_record)
    (source_asset dest_asset : String) (tx_type : transaction_type)
    (amount_burnt amount_minted : Nat) : Option Bool :=
  if source_asset ≠ dest_asset then
    let deltas := conversion_deltas tx_type amount_burnt amount_minted
    match reserve_ratio_satisfied quot to_string circ_amounts pr tx_type deltas.1 deltas.2.1
        deltas.2.2 "" with
    | none => none
    | some (satisfied, _) => if ¬ satisfied then some false else some true
  else some true

/-! ## The transaction builder: ordering of the inputs -/

/-- The C library function `memcmp` on two byte strings, restricted to its sign: the comparison
of the first `n` bytes, decided at the first byte that differs, and `0` when there is none. The
strings compared here hold `n` bytes; on shorter ones the comparison stops at the end. -/
def memcmp : List Nat → List Nat → Nat → Int
  | a :: as, b :: bs, n + 1 =>
    if a < b then -1 else if b < a then 1 else memcmp as bs n
  | _, _, _ => 0

/-- The key image of an input; the input loop of `construct_tx_with_tx_key` builds
`txin_zephyr_key` inputs only, the alternative on which `boost::get<txin_zephyr_key>`
succeeds. -/
def k_image_of : txin_v → List Nat
  | txin_v.txin_zephyr_key _ _ _ k_image => k_image
  | _ => []

/-- The comparator handed to `std::sort` (lines 1102-1106): input `i0` comes before input `i1`
when `memcmp` of their key images, over the 32 bytes of a key image, is positive. -/
def ins_less (vin : List txin_v) (i0 i1 : Nat) : Bool :=
  match vin[i0]?, vin[i1]? with
  | some tk0, some tk1 => decide (memcmp (k_image_of tk0) (k_image_of tk1) 32 > 0)
  | _, _ => false

/-- Modelled from the spec: `tools::apply_permutation` is defined outside this file. The
permutation vector is applied uniformly: element `i` of the result is element `permutation[i]`
of the vector. -/
def apply_permutation {α : Type} (permutation : List Nat) (xs : List α) : List α :=
  permutation.filterMap (fun i => xs[i]?)

/-- The three parallel vectors of the input step of `construct_tx_with_tx_key`. -/
structure inputs_state (Ctx Src : Type) where
  vin : List txin_v
  in_contexts : List Ctx
  sources : List Src
  deriving DecidableEq

/-- What the C++ standard guarantees of `std::sort(first, last, comp)`: the result is a
permutation of the range and no element is ordered by `comp` before an earlier one. -/
def sort_contract (sort : (Nat → Nat → Bool) → List Nat → List Nat)
    (comp : Nat → Nat → Bool) (range : List Nat) : Prop :=
  (sort comp range).Perm range ∧ (sort comp range).Pairwise (fun a b => comp b a = false)

/-- The input-ordering step of `construct_tx_with_tx_key` (lines 1098-1111). `sort` is
`std::sort`; the callback of `apply_permutation` swaps the same two positions of `tx.vin`,
`in_contexts` and `sources`, so the permutation is applied to the three vectors. -/
def sort_inputs {Ctx Src : Type} (sort : (Nat → Nat → Bool) → List Nat → List Nat)
    (st : inputs_state Ctx Src) : inputs_state Ctx Src :=
  let ins_order := List.range st.sources.length
  let ins_order := sort (ins_less st.vin) ins_order
  ⟨apply_permutation ins_order st.vin, apply_permutation ins_order st.in_contexts,
    apply_permutation ins_order st.sources⟩

/-- A sorting function that meets the contract of `std::sort`, used to evaluate the embedding on
concrete inputs. -/
def insertion_sort (comp : Nat → Nat → Bool) (l : List Nat) : List Nat :=
  l.insertionSort (fun a b => comp a b = true)

/-! ## The transaction builder: destinations -/

/-- A `tx_destination_entry` with the address fields that `classify_addresses` and
`get_destination_view_key_pub` read: the address `addr` and the flag `is_subaddress`. -/
structure tx_destination (PK : Type) extends tx_destination_entry where
  addr : account_public_address PK
  is_subaddress : Bool
  deriving DecidableEq

/-- The loop of `get_destination_view_key_pub` (lines 265-277), from the values `addr` and
`count` of the two locals. `none` is the `return null_pkey` inside the loop; `some` gives the
locals when the loop completes. -/
def get_destination_view_key_pub_loop {PK : Type} [DecidableEq PK]
    (change_addr : Option (account_public_address PK)) :
    List (tx_destination PK) → account_public_address PK → Nat →
      Option (account_public_address PK × Nat)
  | [], addr, count => some (addr, count)
  | i :: rest, addr, count =>
    if i.amount = 0 then get_destination_view_key_pub_loop change_addr rest addr count
    else if change_addr = some i.addr then
      get_destination_view_key_pub_loop change_addr rest addr count
    else if i.addr = addr then get_destination_view_key_pub_loop change_addr rest addr count
    else if count > 0 then none
    else get_destination_view_key_pub_loop change_addr rest i.addr (count + 1)

/-- Embedding of `get_destination_view_key_pub` (lines 261-281). The constant `null_pkey` is
defined outside this file and is a parameter. -/
def get_destination_view_key_pub {PK : Type} [DecidableEq PK] (null_pkey : PK)
    (destinations : List (tx_destination PK))
    (change_addr : Option (account_public_address PK)) : PK :=
  match get_destination_view_key_pub_loop change_addr destinations ⟨null_pkey, null_pkey⟩ 0 with
  | none => null_pkey
  | some (addr, count) =>
    match change_addr with
    | some change => if count = 0 then change.m_view_public_key else addr.m_view_public_key
    | none => addr.m_view_public_key

/-- The loop of `classify_addresses` (lines 60-77), from the values of `num_stdaddresses`,
`num_subaddresses`, `single_dest_subaddress` (`none` while it has not been assigned) and the set
`unique_dst_addresses`, kept as the list of its members. -/
def classify_addresses_loop {PK : Type} [DecidableEq PK]
    (change_addr : Option (account_public_address PK)) :
    List (tx_destination PK) → Nat → Nat → Option (account_public_address PK) →
      List (account_public_address PK) → Nat × Nat × Option (account_public_address PK)
  | [], num_stdaddresses, num_subaddresses, single_dest_subaddress, _ =>
    (num_stdaddresses, num_subaddresses, single_dest_subaddress)
  | dst_entr :: rest, num_stdaddresses, num_subaddresses, single_dest_subaddress,
      unique_dst_addresses =>
    if change_addr = some dst_entr.addr then
      classify_addresses_loop change_addr rest num_stdaddresses num_subaddresses
        single_dest_subaddress unique_dst_addresses
    else if dst_entr.addr ∉ unique_dst_addresses then
      if dst_entr.is_subaddress then
        classify_addresses_loop change_addr rest num_stdaddresses (num_subaddresses + 1)
          (some dst_entr.addr) (dst_entr.addr :: unique_dst_addresses)
      else
        classify_addresses_loop change_addr rest (num_stdaddresses + 1) num_subaddresses
          single_dest_subaddress (dst_entr.addr :: unique_dst_addresses)
    else
      classify_addresses_loop change_addr rest num_stdaddresses num_subaddresses
        single_dest_subaddress unique_dst_addresses

/-- Embedding of `classify_addresses` (lines 55-79): the values of `num_stdaddresses`,
`num_subaddresses` and `single_dest_subaddress` on return. -/
def classify_addresses {PK : Type} [DecidableEq PK] (destinations : List (tx_destination PK))
    (change_addr : Option (account_public_address PK)) :
    Nat × Nat × Option (account_public_address PK) :=
  classify_addresses_loop change_addr destinations 0 0 none []

/-! ## The transaction builder: `construct_tx_with_tx_key` -/

/-- The fields of `tx_source_entry` (declared in the header) read by
`construct_tx_with_tx_key`: the ring members `outputs` as pairs of a global output index and the
one-time key `second.dest`, the position `real_output` of the spent output in the ring, the
amount, the asset type and the flag `rct`. -/
structure tx_source_entry (PK : Type) where
  outputs : List (Nat × PK)
  real_output : Nat
  amount : Nat
  asset_type : String
  rct : Bool
  deriving DecidableEq

/-- The amounts handed to the confidential signer: `simple` tells whether `rct::genRctSimple`
or `rct::genRct` is called, the other fields are the values of the locals `inamounts`,
`outamounts`, `outamounts_features`, `fee` and `index` at the call. -/
structure rct_call where
  simple : Bool
  inamounts : List Nat
  outamounts : List Nat
  outamounts_features : List String
  fee : Nat
  index : List Nat
  deriving DecidableEq, Repr

/-- The transaction under construction: the prefix fields, the ring signatures of the legacy
layout, and `rct_signatures`, recorded by the call that produces them. -/
structure tx_draft (PK Extra Sig : Type) where
  tx : transaction_prefix PK Extra
  signatures : List Sig
  rct_signatures : Option rct_call
  deriving DecidableEq

/-- The ways a stage of `construct_tx_with_tx_key` ends: `returned_false tx` is `return false`
with the transaction as it then stands in the reference parameter, `threw` is an exception
leaving the function, `done s` is completion of the stage with the state `s`. -/
inductive stage_result (T S : Type) where
  | returned_false (tx : T)
  | threw
  | done (s : S)
  deriving DecidableEq

/-- Sequencing of two stages. -/
def stage_result.next {T S S' : Type} (r : stage_result T S) (f : S → stage_result T S') :
    stage_result T S' :=
  match r with
  | stage_result.returned_false tx => stage_result.returned_false tx
  | stage_result.threw => stage_result.threw
  | stage_result.done s => f s

/-- What `construct_tx_with_tx_key` takes from outside this file, over abstract types of public
keys, secret keys, extra blobs and signatures. A result `none` is a returned `false`.
`shuffle` is the order `std::shuffle` leaves and `sort` is `std::sort`;
`generate_key_image_helper` gives the ephemeral keypair and the key image of a source;
`generate_output_ephemeral_keys` gives the one-time key and view tag of a destination at an
output index and `additional_tx_public_keys` the vector of additional keys the device has
collected after the output loop; `generate_ring_signatures` is the legacy signing loop;
`outSk_size` is the size of `outSk` after the signer has run; `dec_quot` is the quotient of two
`cpp_dec_float_100` values with a non-zero divisor and `to_string` renders the ratio in an error
message. -/
structure tx_env (PK SK Extra Sig : Type) where
  HF_VERSION_DJED : Nat
  MAX_TX_EXTRA_SIZE : Nat
  null_pkey : PK
  null_hash8 : List Nat
  eops : extra_ops PK Extra
  parse_tx_extra : Extra → Bool
  find_extra_nonce : Extra → Option (List Nat)
  get_encrypted_payment_id_from_tx_extra_nonce : List Nat → Option (List Nat)
  get_payment_id_from_tx_extra_nonce : List Nat → Bool
  encrypt_payment_id : List Nat → PK → Option (List Nat)
  set_encrypted_payment_id_to_tx_extra_nonce : List Nat → List Nat
  remove_extra_nonce : Extra → Extra
  generate_key_image_helper : tx_source_entry PK → Option (keypair PK SK × List Nat)
  absolute_output_offsets_to_relative : List Nat → List Nat
  shuffle : List (tx_destination PK) → List (tx_destination PK)
  sort : (Nat → Nat → Bool) → List Nat → List Nat
  scalarmultKey : PK → PK
  scalarmultBase : PK
  remove_tx_pub_key : Extra → Extra
  generate_output_ephemeral_keys : tx_destination PK → Nat → PK × Nat
  additional_tx_public_keys : Bool → List (tx_destination PK) → List PK
  dec_quot : Nat → Nat → ℚ
  to_string : dec_float → String
  remove_additional_tx_pub_keys : Extra → Extra
  add_additional_tx_pub_keys_to_extra : Extra → List PK → Extra
  extra_size : Extra → Nat
  generate_ring_signatures :
    Bool → transaction_prefix PK Extra → List (tx_source_entry PK) → List (keypair PK SK) →
      List Sig
  get_output_asset_type : tx_out PK → Option String
  outSk_size : rct_call → Nat

/-- Modelled from the spec: `transaction::set_null` is defined outside this file. It resets the
transaction: version 1, unlock time 0, no inputs, no outputs, an empty extra field, zero pricing
record height and tallies, no signatures. -/
def set_null {PK SK Extra Sig : Type} (env : tx_env PK SK Extra Sig) : tx_draft PK Extra Sig :=
  ⟨⟨1, 0, [], [], env.eops.empty, 0, 0, 0⟩, [], none⟩

/-- The state `construct_tx_with_tx_key` carries from stage to stage: the transaction, the
vectors `sources`, `destinations` and `in_contexts`, the two money totals, the transaction type
and the flag `need_additional_txkeys`. -/
structure build_state (PK SK Extra Sig : Type) where
  draft : tx_draft PK Extra Sig
  sources : List (tx_source_entry PK)
  destinations : List (tx_destination PK)
  in_contexts : List (keypair PK SK)
  summary_inputs_money : Nat
  summary_outs_money : Nat
  tx_type : transaction_type
  need_additional_txkeys : Bool
  deriving DecidableEq

/-- Lines 918-953: the check on `sources`, `set_null`, the version, the unlock time, the extra
field, the two checks on the asset types and the pricing record height. With no sources the
function returns before `set_null`, leaving the transaction of the caller as it was. -/
def init_stage {PK SK Extra Sig : Type} (env : tx_env PK SK Extra Sig)
    (sources : List (tx_source_entry PK)) (destinations : List (tx_destination PK))
    (extra : Extra) (tx : tx_draft PK Extra Sig) (source_asset dest_asset : String)
    (current_height hf_version unlock_time : Nat) :
    stage_result (tx_draft PK Extra Sig) (build_state PK SK Extra Sig) :=
  if sources.isEmpty then stage_result.returned_false tx
  else
    let tx := set_null env
    let tx := { tx with tx := { tx.tx with
      version := if hf_version ≥ env.HF_VERSION_DJED then 3 else 2 } }
    let tx := { tx with tx := { tx.tx with unlock_time := unlock_time } }
    let tx := { tx with tx := { tx.tx with extra := extra } }
    -- check both strSource and strDest are supported
    if source_asset ∉ ASSET_TYPES then stage_result.returned_false tx
    else if dest_asset ∉ ASSET_TYPES then stage_result.returned_false tx
    else
      let tx := { tx with tx := { tx.tx with
        pricing_record_height := if source_asset ≠ dest_asset then current_height else 0 } }
      stage_result.done
        ⟨tx, sources, destinations, [], 0, 0, transaction_type.UNSET, false⟩

/-- Lines 955-1029: the payment id. An encrypted payment id found in the extra field is
encrypted for the view key `get_destination_view_key_pub` resolves, and the function returns
false when that key is null; without any payment id, and with at most two destinations, a dummy
one is added when a view key is resolved. The stage completes with the new extra field. -/
def payment_id_stage {PK SK Extra Sig : Type} [DecidableEq PK] (env : tx_env PK SK Extra Sig)
    (change_addr : Option (account_public_address PK)) (st : build_state PK SK Extra Sig) :
    stage_result (tx_draft PK Extra Sig) Extra :=
  let tx := st.draft
  if env.parse_tx_extra tx.tx.extra then
    let add_dummy_payment_id := true
    let found : stage_result (tx_draft PK Extra Sig) (Extra × Bool) :=
      match env.find_extra_nonce tx.tx.extra with
      | some extra_nonce =>
        match env.get_encrypted_payment_id_from_tx_extra_nonce extra_nonce with
        | some payment_id8 =>
          let view_key_pub :=
            get_destination_view_key_pub env.null_pkey st.destinations change_addr
          if view_key_pub = env.null_pkey then stage_result.returned_false tx
          else
            match env.encrypt_payment_id payment_id8 view_key_pub with
            | none => stage_result.returned_false tx
            | some payment_id8 =>
              let extra_nonce := env.set_encrypted_payment_id_to_tx_extra_nonce payment_id8
              let extra := env.remove_extra_nonce tx.tx.extra
              match env.eops.add_extra_nonce_to_tx_extra extra extra_nonce with
              | none =>
                stage_result.returned_false { tx with tx := { tx.tx with extra := extra } }
              | some extra => stage_result.done (extra, false)
        | none =>
          if env.get_payment_id_from_tx_extra_nonce extra_nonce then
            stage_result.done (tx.tx.extra, false)
          else stage_result.done (tx.tx.extra, add_dummy_payment_id)
      | none => stage_result.done (tx.tx.extra, add_dummy_payment_id)
    found.next fun r =>
      let extra := r.1
      -- we don't add one if we've got more than the usual 1 destination plus change
      let add_dummy_payment_id := if st.destinations.length > 2 then false else r.2
      if add_dummy_payment_id then
        let view_key_pub :=
          get_destination_view_key_pub env.null_pkey st.destinations change_addr
        if view_key_pub = env.null_pkey then stage_result.done extra
        else
          let payment_id8 :=
            match env.encrypt_payment_id env.null_hash8 view_key_pub with
            | some p => p
            | none => env.null_hash8
          let extra_nonce := env.set_encrypted_payment_id_to_tx_extra_nonce payment_id8
          match env.eops.add_extra_nonce_to_tx_extra extra extra_nonce with
          | none => stage_result.done extra -- continue anyway
          | some extra => stage_result.done extra
      else stage_result.done extra
  else stage_result.done tx.tx.extra

/-- The input loop (lines 1040-1085), from the transaction, `in_contexts` and
`summary_inputs_money` reached so far. -/
def fill_inputs {PK SK Extra Sig : Type} [DecidableEq PK] (env : tx_env PK SK Extra Sig) :
    List (tx_source_entry PK) → tx_draft PK Extra Sig → List (keypair PK SK) → Nat →
      stage_result (tx_draft PK Extra Sig) (tx_draft PK Extra Sig × List (keypair PK SK) × Nat)
  | [], tx, in_contexts, summary_inputs_money =>
    stage_result.done (tx, in_contexts, summary_inputs_money)
  | src_entr :: rest, tx, in_contexts, summary_inputs_money =>
    if src_entr.real_output ≥ src_entr.outputs.length then stage_result.returned_false tx
    else
      let summary_inputs_money := (summary_inputs_money + src_entr.amount) % 2 ^ 64
      match env.generate_key_image_helper src_entr with
      | none => stage_result.returned_false tx
      | some (in_ephemeral, img) =>
        -- check that derivated key is equal with real output key
        if ¬ (some in_ephemeral.pub
            = (src_entr.outputs[src_entr.real_output]?).map Prod.snd) then
          stage_result.returned_false tx
        else
          -- put key image into tx input
          let input_to_key := txin_v.txin_zephyr_key src_entr.amount src_entr.asset_type
            (env.absolute_output_offsets_to_relative (src_entr.outputs.map Prod.fst)) img
          fill_inputs env rest { tx with tx := { tx.tx with vin := tx.tx.vin ++ [input_to_key] } }
            (in_contexts ++ [in_ephemeral]) summary_inputs_money

/-- Lines 1087-1111: the transaction type, the shuffle of the destinations and the ordering of
the inputs by key image. -/
def order_stage {PK SK Extra Sig : Type} (env : tx_env PK SK Extra Sig)
    (source_asset dest_asset : String) (shuffle_outs : Bool)
    (st : build_state PK SK Extra Sig) :
    stage_result (tx_draft PK Extra Sig) (build_state PK SK Extra Sig) :=
  match get_tx_type source_asset dest_asset with
  | none => stage_result.returned_false st.draft
  | some tx_type =>
    let destinations := if shuffle_outs then env.shuffle st.destinations else st.destinations
    -- sort ins by their key image
    let sorted := sort_inputs env.sort ⟨st.draft.tx.vin, st.in_contexts, st.sources⟩
    stage_result.done { st with
      draft := { st.draft with tx := { st.draft.tx with vin := sorted.vin } }
      in_contexts := sorted.in_contexts
      sources := sorted.sources
      destinations := destinations
      tx_type := tx_type }

/-- Lines 1113-1138: the transaction public key and the check on the additional keys. The
stage completes with the new extra field and the flag `need_additional_txkeys`. -/
def tx_key_stage {PK SK Extra Sig : Type} [DecidableEq PK] (env : tx_env PK SK Extra Sig)
    (change_addr : Option (account_public_address PK)) (additional_tx_keys : List SK)
    (st : build_state PK SK Extra Sig) :
    stage_result (tx_draft PK Extra Sig) (Extra × Bool) :=
  let classified := classify_addresses st.destinations change_addr
  let num_stdaddresses := classified.1
  let num_subaddresses := classified.2.1
  let single_dest_subaddress := classified.2.2
  -- if this is a single-destination transfer to a subaddress, we set the tx pubkey to R=s*D
  let txkey_pub :=
    if num_stdaddresses = 0 ∧ num_subaddresses = 1 then
      match single_dest_subaddress with
      | some a => env.scalarmultKey a.m_spend_public_key
      | none => env.scalarmultKey env.null_pkey
    else env.scalarmultBase
  let extra := env.remove_tx_pub_key st.draft.tx.extra
  let extra := env.eops.add_tx_pub_key_to_extra extra txkey_pub
  let need_additional_txkeys :=
    decide (num_subaddresses > 0 ∧ (num_stdaddresses > 0 ∨ num_subaddresses > 1))
  if need_additional_txkeys ∧ ¬ (st.destinations.length = additional_tx_keys.length) then
    stage_result.returned_false { st.draft with tx := { st.draft.tx with extra := extra } }
  else stage_result.done (extra, need_additional_txkeys)

/-- The device call of the output loop at output index `i`: the destination handled there is
`destinations[i]`. -/
def output_keys {PK SK Extra Sig : Type} (env : tx_env PK SK Extra Sig)
    (destinations : List (tx_destination PK)) (_dst_entr : tx_destination_entry) (i : Nat) :
    PK × Nat :=
  match destinations[i]? with
  | some d => env.generate_output_ephemeral_keys d i
  | none => (env.null_pkey, 0)

/-- The transaction with the outputs and the tallies the output loop has reached. -/
def commit_outputs {PK Extra Sig : Type} (tx : tx_draft PK Extra Sig) (o : outputs_state PK) :
    tx_draft PK Extra Sig :=
  { tx with tx := { tx.tx with
    vout := o.vout, amount_minted := o.amount_minted, amount_burnt := o.amount_burnt } }

/-- Lines 1140-1170: the output stage. When the amount check fails the function returns with
the outputs of the destinations before the failing one. The stage completes with what the
output loop has written. -/
def outputs_stage {PK SK Extra Sig : Type} (env : tx_env PK SK Extra Sig)
    (source_asset dest_asset : String) (use_view_tags : Bool)
    (st : build_state PK SK Extra Sig) :
    stage_result (tx_draft PK Extra Sig) (outputs_state PK) :=
  let entries := st.destinations.map (fun d => d.totx_destination_entry)
  let version := st.draft.tx.version
  match fill_outputs_step (output_keys env st.destinations) version source_asset dest_asset
      use_view_tags st.draft.tx.vout entries with
  | some o => stage_result.done o
  | none =>
    match fill_outputs_step (output_keys env st.destinations) version source_asset dest_asset
        use_view_tags st.draft.tx.vout
        (entries.takeWhile (fun d => decide (d.dest_amount > 0 ∨ version > 1))) with
    | some o => stage_result.returned_false (commit_outputs st.draft o)
    | none => stage_result.returned_false st.draft

/-- Lines 1172-1198: the reserve-ratio guard of a conversion. -/
def guard_stage {PK SK Extra Sig : Type} (env : tx_env PK SK Extra Sig)
    (source_asset dest_asset : String) (pr : pricing_record)
    (circ_amounts : List (String × String)) (st : build_state PK SK Extra Sig) :
    stage_result (tx_draft PK Extra Sig) Unit :=
  match conversion_guard_step env.dec_quot env.to_string circ_amounts pr source_asset dest_asset
      st.tx_type
      st.draft.tx.amount_burnt st.draft.tx.amount_minted with
  | none => stage_result.threw
  | some false => stage_result.returned_false st.draft
  | some true => stage_result.done ()

/-- Lines 1200-1216: the additional public keys and the final form of the extra field. The
stage completes with the new extra field. -/
def extra_stage {PK SK Extra Sig : Type} (env : tx_env PK SK Extra Sig)
    (additional_tx_keys : List SK) (st : build_state PK SK Extra Sig) :
    stage_result (tx_draft PK Extra Sig) Extra :=
  let additional_tx_public_keys :=
    env.additional_tx_public_keys st.need_additional_txkeys st.destinations
  if ¬ (additional_tx_public_keys.length = additional_tx_keys.length) then
    stage_result.returned_false st.draft
  else
    let extra := env.remove_additional_tx_pub_keys st.draft.tx.extra
    let extra :=
      if st.need_additional_txkeys then
        env.add_additional_tx_pub_keys_to_extra extra additional_tx_public_keys
      else extra
    match env.eops.sort_tx_extra extra with
    | none =>
      stage_result.returned_false { st.draft with tx := { st.draft.tx with extra := extra } }
    | some extra =>
      if ¬ (env.extra_size extra ≤ env.MAX_TX_EXTRA_SIZE) then
        stage_result.returned_false { st.draft with tx := { st.draft.tx with extra := extra } }
      else stage_result.done extra

/-- Lines 1218-1223: the money check. -/
def money_stage {PK SK Extra Sig : Type} (st : build_state PK SK Extra Sig) :
    stage_result (tx_draft PK Extra Sig) Unit :=
  if st.summary_outs_money > st.summary_inputs_money then stage_result.returned_false st.draft
  else stage_result.done ()

/-- Line 1275: the choice of the layout. `borromean` tells whether
`rct_config.range_proof_type` is `rct::RangeProofBorromean`. -/
def use_simple_rct {PK : Type} (sources : List (tx_source_entry PK)) (borromean : Bool) : Bool :=
  decide (sources.length > 1) || !borromean

/-- Lines 1280-1295: the two checks of the non-simple layout; `false` is a `return false`. -/
def non_simple_checks {PK : Type} (sources : List (tx_source_entry PK)) : Bool :=
  let n_total_outs := (sources.head?.map (fun s => s.outputs.length)).getD 0
  -- non simple ringct requires all real inputs to be at the same index for all inputs
  sources.all (fun src_entr =>
      decide (some src_entr.real_output = sources.head?.map (fun s => s.real_output)))
    -- enforce same mixin for all outputs
    && (sources.drop 1).all (fun src => decide (n_total_outs = src.outputs.length))

/-- Lines 1298-1368: the amounts of the confidential layout. `none` is the `return false` on an
output without asset type. -/
def rct_amounts {PK SK Extra Sig : Type} (env : tx_env PK SK Extra Sig) (simple : Bool)
    (sources : List (tx_source_entry PK)) (vout : List (tx_out PK))
    (summary_inputs_money summary_outs_money : Nat) : Option rct_call :=
  let amount_in := sources.foldl (fun (acc : Nat) s => (acc + s.amount) % 2 ^ 64) 0
  let inamounts := sources.map (fun s => s.amount)
  let index := sources.map (fun s => s.real_output)
  match vout.mapM env.get_output_asset_type with
  | none => none
  | some outamounts_features =>
    let outamounts := vout.map (fun o => o.amount)
    let amount_out := vout.foldl (fun (acc : Nat) o => (acc + o.amount) % 2 ^ 64) 0
    -- fee
    if ¬ simple ∧ amount_in > amount_out then
      some ⟨simple, inamounts,
        outamounts ++ [wrap64 ((amount_in : Int) - (amount_out : Int))],
        outamounts_features, 0, index⟩
    else
      some ⟨simple, inamounts, outamounts, outamounts_features,
        wrap64 ((summary_inputs_money : Int) - (summary_outs_money : Int)), index⟩

/-- Lines 1370-1377: the amounts of the inputs with `rct` set, and of all outputs, are zeroed. -/
def zero_amounts {PK Extra : Type} (sources_rct : List Bool) (tx : transaction_prefix PK Extra) :
    transaction_prefix PK Extra :=
  { tx with
    vin := (tx.vin.zip (sources_rct ++ List.replicate tx.vin.length false)).map (fun p =>
      match p.1 with
      | txin_v.txin_zephyr_key amount asset_type key_offsets k_image =>
        if p.2 then txin_v.txin_zephyr_key 0 asset_type key_offsets k_image
        else txin_v.txin_zephyr_key amount asset_type key_offsets k_image
      | other => other)
    vout := tx.vout.map (fun o => { o with amount := 0 }) }

/-- Lines 1225-1417: the signatures. With `tx.version == 1` the ring signatures of the legacy
layout are generated; otherwise the confidential layout is signed, simple or not. -/
def sign_stage {PK SK Extra Sig : Type} (env : tx_env PK SK Extra Sig)
    (zero_secret_key borromean : Bool) (st : build_state PK SK Extra Sig) :
    stage_result (tx_draft PK Extra Sig) (tx_draft PK Extra Sig) :=
  let tx := st.draft
  if tx.tx.version = 1 then
    stage_result.done { tx with
      signatures := tx.signatures
        ++ env.generate_ring_signatures zero_secret_key tx.tx st.sources st.in_contexts }
  else
    let simple := use_simple_rct st.sources borromean
    if ¬ simple ∧ ¬ non_simple_checks st.sources then stage_result.returned_false tx
    else
      match rct_amounts env simple st.sources tx.tx.vout st.summary_inputs_money
          st.summary_outs_money with
      | none => stage_result.returned_false tx
      | some call =>
        -- zero out all amounts to mask rct outputs, real amounts are now encrypted
        let tx := { tx with tx := zero_amounts (st.sources.map (fun (s : tx_source_entry PK) => s.rct)) tx.tx }
        let tx := { tx with rct_signatures := some call }
        if ¬ (tx.tx.vout.length = env.outSk_size call) then stage_result.returned_false tx
        else stage_result.done tx

/-- Lines 916-1138 of `construct_tx_with_tx_key`: the stages before the output loop, completed
with the state they leave. -/
def input_stages {PK SK Extra Sig : Type} [DecidableEq PK]
    (env : tx_env PK SK Extra Sig)
    (sources : List (tx_source_entry PK)) (destinations : List (tx_destination PK))
    (change_addr : Option (account_public_address PK)) (extra : Extra)
    (tx : tx_draft PK Extra Sig) (source_asset dest_asset : String)
    (current_height hf_version : Nat) (unlock_time : Nat)
    (additional_tx_keys : List SK) (shuffle_outs : Bool) :
    stage_result (tx_draft PK Extra Sig) (build_state PK SK Extra Sig) :=
  (init_stage env sources destinations extra tx source_asset dest_asset current_height
    hf_version unlock_time).next fun st =>
  (payment_id_stage env change_addr st).next fun extra =>
  (fill_inputs env st.sources { st.draft with tx := { st.draft.tx with extra := extra } }
    [] 0).next fun r =>
  (order_stage env source_asset dest_asset shuffle_outs
    { st with draft := r.1, in_contexts := r.2.1, summary_inputs_money := r.2.2 }).next fun st =>
  (tx_key_stage env change_addr additional_tx_keys st).next fun k =>
  stage_result.done { st with
    draft := { st.draft with tx := { st.draft.tx with extra := k.1 } }
    need_additional_txkeys := k.2 }

/-- Lines 916-1170 of `construct_tx_with_tx_key`: the stages that build the inputs and the
outputs, completed with the state they leave. -/
def build_stages {PK SK Extra Sig : Type} [DecidableEq PK]
    (env : tx_env PK SK Extra Sig)
    (sources : List (tx_source_entry PK)) (destinations : List (tx_destination PK))
    (change_addr : Option (account_public_address PK)) (extra : Extra)
    (tx : tx_draft PK Extra Sig) (source_asset dest_asset : String)
    (current_height hf_version : Nat) (unlock_time : Nat)
    (additional_tx_keys : List SK) (shuffle_outs use_view_tags : Bool) :
    stage_result (tx_draft PK Extra Sig) (build_state PK SK Extra Sig) :=
  (input_stages env sources destinations change_addr extra tx source_asset dest_asset
    current_height hf_version unlock_time additional_tx_keys shuffle_outs).next fun st =>
  (outputs_stage env source_asset dest_asset use_view_tags st).next fun o =>
  stage_result.done { st with
    draft := commit_outputs st.draft o
    summary_outs_money := o.summary_outs_money }

/-- Lines 1172-1418 of `construct_tx_with_tx_key`: the stages that check and sign what has been
built. -/
def check_stages {PK SK Extra Sig : Type} (env : tx_env PK SK Extra Sig)
    (zero_secret_key : Bool) (source_asset dest_asset : String) (pr : pricing_record)
    (circ_amounts : List (String × String)) (additional_tx_keys : List SK) (borromean : Bool)
    (st : build_state PK SK Extra Sig) :
    stage_result (tx_draft PK Extra Sig) (tx_draft PK Extra Sig) :=
  (guard_stage env source_asset dest_asset pr circ_amounts st).next fun _ =>
  (extra_stage env additional_tx_keys st).next fun extra =>
  (money_stage
    { st with draft := { st.draft with tx := { st.draft.tx with extra := extra } } }).next fun _ =>
  sign_stage env zero_secret_key borromean
    { st with draft := { st.draft with tx := { st.draft.tx with extra := extra } } }

/-- Embedding of `construct_tx_with_tx_key` (lines 893-1418), as the sequence of its stages.
`tx` is the transaction of the caller on entry; `zero_secret_key` tells whether the spend secret
key of the sender is all zero and `borromean` whether the range proof type is
`rct::RangeProofBorromean`. The result `done tx` is `return true` with the transaction `tx`. -/
def construct_tx_with_tx_key {PK SK Extra Sig : Type} [DecidableEq PK]
    (env : tx_env PK SK Extra Sig) (zero_secret_key : Bool)
    (sources : List (tx_source_entry PK)) (destinations : List (tx_destination PK))
    (change_addr : Option (account_public_address PK)) (extra : Extra)
    (tx : tx_draft PK Extra Sig) (source_asset dest_asset : String)
    (current_height hf_version : Nat) (pr : pricing_record)
    (circ_amounts : List (String × String)) (unlock_time : Nat)
    (additional_tx_keys : List SK) (borromean shuffle_outs use_view_tags : Bool) :
    stage_result (tx_draft PK Extra Sig) (tx_draft PK Extra Sig) :=
  (build_stages env sources destinations change_addr extra tx source_asset dest_asset
    current_height hf_version unlock_time additional_tx_keys shuffle_outs use_view_tags).next
    (check_stages env zero_secret_key source_asset dest_asset pr circ_amounts
      additional_tx_keys borromean)

/-- The addresses `get_destination_view_key_pub` counts: those of the destinations with a
non-zero amount that are not the change address, in the order of the destinations. -/
def recipients {PK : Type} [DecidableEq PK] (destinations : List (tx_destination PK))
    (change_addr : Option (account_public_address PK)) : List (account_public_address PK) :=
  (destinations.filter (fun d => decide (d.amount ≠ 0 ∧ change_addr ≠ some d.addr))).map
    (fun d => d.addr)

/-- A toy instance of what `construct_tx_with_tx_key` takes from outside, over natural numbers,
used to evaluate the embedding on concrete inputs. The extra field is a list of numbers: those
below 1000 form the nonce (tag 1 for an encrypted payment id, tag 0 for a plain one), the others
are public keys. The shuffle reverses the destinations. -/
def toy_tx_env : tx_env Nat Nat (List Nat) Nat where
  HF_VERSION_DJED := 3
  MAX_TX_EXTRA_SIZE := 1060
  null_pkey := 0
  null_hash8 := [0]
  eops := toy_env.eops
  parse_tx_extra := fun _ => true
  find_extra_nonce := fun e =>
    if e.filter (fun b => decide (b < 1000)) = [] then none
    else some (e.filter (fun b => decide (b < 1000)))
  get_encrypted_payment_id_from_tx_extra_nonce := fun nonce =>
    if nonce.head? = some 1 then some nonce.tail else none
  get_payment_id_from_tx_extra_nonce := fun nonce => decide (nonce.head? = some 0)
  encrypt_payment_id := fun pid key => some (pid.map (fun b => (b + key) % 256))
  set_encrypted_payment_id_to_tx_extra_nonce := fun pid => 1 :: pid
  remove_extra_nonce := fun e => e.filter (fun b => decide (b ≥ 1000))
  generate_key_image_helper := fun src =>
    some (⟨((src.outputs[src.real_output]?).map Prod.snd).getD 0, src.amount⟩,
      [((src.outputs[src.real_output]?).map Prod.snd).getD 0 % 256])
  absolute_output_offsets_to_relative := fun l => l
  shuffle := fun l => l.reverse
  sort := insertion_sort
  scalarmultKey := fun k => k + 2000
  scalarmultBase := 3000
  remove_tx_pub_key := fun e => e.filter (fun b => decide (b < 1000))
  generate_output_ephemeral_keys := fun d i => (d.addr.m_spend_public_key + 10000 + i, i % 256)
  additional_tx_public_keys := fun need dests =>
    if need then dests.map (fun d => d.addr.m_view_public_key + 20000) else []
  dec_quot := truncated_quotient
  to_string := fun _ => ""
  remove_additional_tx_pub_keys := fun e => e
  add_additional_tx_pub_keys_to_extra := fun e keys => e ++ keys
  extra_size := fun e => e.length
  generate_ring_signatures := fun _ _ _ _ => []
  get_output_asset_type := fun o => some o.asset_type
  outSk_size := fun call => call.outamounts_features.length

/-- A caller's transaction object to start from: it holds one stale output. -/
def stale_tx : tx_draft Nat (List Nat) Nat :=
  ⟨⟨2, 0, [], [⟨1, "ZEPH", 77, true, 0⟩], [], 0, 0, 0⟩, [], none⟩

/-! # Theorems -/

/-! ## The order of `std::set<std::string>` -/

theorem lex_less_irrefl : ∀ a : List Char, lex_less a a = false
  | [] => rfl
  | c :: cs => by simp [lex_less, lex_less_irrefl cs]

theorem lex_less_asymm : ∀ a b : List Char, lex_less a b = true → lex_less b a = false
  | [], [] => by simp [lex_less]
  | [], _ :: _ => by simp [lex_less]
  | _ :: _, [] => by simp [lex_less]
  | a :: as, b :: bs => by
    simp only [lex_less]
    rcases lt_trichotomy a b with h | h | h
    · simp [h, lt_asymm h]
    · subst h; simp; exact lex_less_asymm as bs
    · simp [h, lt_asymm h]

theorem lex_less_trans : ∀ a b c : List Char, lex_less a b = true → lex_less b c = true →
    lex_less a c = true
  | [], [], _ => by simp [lex_less]
  | [], _ :: _, [] => by simp [lex_less]
  | [], _ :: _, _ :: _ => by simp [lex_less]
  | _ :: _, [], _ => by simp [lex_less]
  | _ :: _, _ :: _, [] => by simp [lex_less]
  | a :: as, b :: bs, c :: cs => by
    simp only [lex_less]
    rcases lt_trichotomy a b with h | h | h
    · rcases lt_trichotomy b c with h' | h' | h'
      · simp [h, h', lt_trans h h']
      · subst h'; simp [h]
      · simp [h, h', lt_asymm h']
    · subst h
      rcases lt_trichotomy a c with h' | h' | h'
      · simp [h']
      · subst h'; simp; exact lex_less_trans as bs cs
      · simp [h', lt_asymm h']
    · simp [h, lt_asymm h]

theorem lex_less_total : ∀ a b : List Char, lex_less a b = false → lex_less b a = false → a = b
  | [], [] => by simp
  | [], _ :: _ => by simp [lex_less]
  | _ :: _, [] => by simp [lex_less]
  | a :: as, b :: bs => by
    simp only [lex_less]
    rcases lt_trichotomy a b with h | h | h
    · simp [h]
    · subst h; simp; exact lex_less_total as bs
    · simp [h, lt_asymm h]

theorem string_less_irrefl (a : String) : string_less a a = false := lex_less_irrefl _

theorem string_less_asymm {a b : String} (h : string_less a b = true) :
    string_less b a = false := lex_less_asymm _ _ h

theorem string_less_trans {a b c : String} (h : string_less a b = true)
    (h' : string_less b c = true) : string_less a c = true := lex_less_trans _ _ _ h h'

theorem string_less_total {a b : String} (h : string_less a b = false)
    (h' : string_less b a = false) : a = b :=
  String.ext (lex_less_total _ _ h h')

theorem string_less_ne {a b : String} (h : string_less a b = true) : a ≠ b := by
  rintro rfl
  rw [string_less_irrefl] at h
  exact Bool.false_ne_true h

theorem mem_set_insert (x y : String) : ∀ l : List String, y ∈ set_insert x l ↔ y = x ∨ y ∈ l
  | [] => by simp [set_insert]
  | z :: zs => by
    unfold set_insert
    by_cases h1 : string_less x z = true
    · simp [h1]
    · by_cases h2 : string_less z x = true
      · have h1' : string_less x z = false := Bool.eq_false_iff.mpr h1
        simp only [h1', h2, if_true, Bool.false_eq_true, if_false, List.mem_cons,
          mem_set_insert x y zs]
        tauto
      · have hxz : x = z :=
          string_less_total (Bool.eq_false_iff.mpr h1) (Bool.eq_false_iff.mpr h2)
        subst hxz
        simp [h1]

theorem ascending_set_insert (x : String) : ∀ l : List String,
    ascending l → ascending (set_insert x l)
  | [] => by simp [set_insert, ascending]
  | z :: zs => by
    intro hl
    unfold set_insert
    have hl' : (∀ w ∈ zs, string_less z w = true) ∧ ascending zs := List.pairwise_cons.mp hl
    by_cases h1 : string_less x z = true
    · simp only [h1, if_true]
      refine List.pairwise_cons.mpr ⟨?_, hl⟩
      intro w hw
      rcases List.mem_cons.mp hw with rfl | hw
      · exact h1
      · exact string_less_trans h1 (hl'.1 w hw)
    · by_cases h2 : string_less z x = true
      · have h1' : string_less x z = false := Bool.eq_false_iff.mpr h1
        simp only [h1', h2, if_true, Bool.false_eq_true, if_false]
        refine List.pairwise_cons.mpr ⟨?_, ascending_set_insert x zs hl'.2⟩
        intro w hw
        rcases (mem_set_insert x w zs).mp hw with rfl | hw
        · exact h2
        · exact hl'.1 w hw
      · simpa [h1, h2] using hl

theorem ascending_pair_cases (s d : String) : ∀ r : List String, ascending r →
    (∀ x, x ∈ r ↔ x = s ∨ x = d) →
    (s = d ∧ r = [s]) ∨ (s ≠ d ∧ r = [s, d]) ∨ (s ≠ d ∧ r = [d, s])
  | [], _, h => by simpa using (h s).mpr (Or.inl rfl)
  | [a], _, h => by
    have hs : s = a := by simpa using (h s).mpr (Or.inl rfl)
    have hd : d = a := by simpa using (h d).mpr (Or.inr rfl)
    left; subst hs; subst hd; exact ⟨rfl, rfl⟩
  | [a, b], hr, h => by
    have hab : string_less a b = true := by
      have := List.pairwise_cons.mp hr
      exact this.1 b (by simp)
    have ha : a = s ∨ a = d := (h a).mp (by simp)
    have hb : b = s ∨ b = d := (h b).mp (by simp)
    have hne := string_less_ne hab
    rcases ha with rfl | rfl <;> rcases hb with rfl | rfl
    · exact absurd rfl hne
    · right; left; exact ⟨hne, rfl⟩
    · right; right; exact ⟨fun e => hne e.symm, rfl⟩
    · exact absurd rfl hne
  | a :: b :: c :: _, hr, h => by
    have h1 := List.pairwise_cons.mp hr
    have h2 := List.pairwise_cons.mp h1.2
    have hab := string_less_ne (h1.1 b (by simp))
    have hac := string_less_ne (h1.1 c (by simp))
    have hbc := string_less_ne (h2.1 c (by simp))
    have ha : a = s ∨ a = d := (h a).mp (by simp)
    have hb : b = s ∨ b = d := (h b).mp (by simp)
    have hc : c = s ∨ c = d := (h c).mp (by simp)
    rcases ha with rfl | rfl <;> rcases hb with rfl | rfl <;> rcases hc with rfl | rfl <;>
      simp_all

/-! ## The two loops of `get_tx_asset_types` -/

theorem destination_asset_types_spec {Out : Type} (output_asset : Out → Option String) :
    ∀ (vout : List Out) (acc : List String),
      (∀ o ∈ vout, ∃ a, output_asset o = some a) → ascending acc →
      ∃ r, destination_asset_types output_asset vout acc = some r ∧ ascending r ∧
        ∀ x, x ∈ r ↔ x ∈ acc ∨ ∃ o ∈ vout, output_asset o = some x
  | [], acc, _, hacc => ⟨acc, rfl, hacc, by simp⟩
  | o :: rest, acc, hall, hacc => by
    obtain ⟨a, ha⟩ := hall o (by simp)
    obtain ⟨r, hr, hasc, hmem⟩ := destination_asset_types_spec output_asset rest (set_insert a acc)
      (fun o' ho' => hall o' (List.mem_cons_of_mem _ ho')) (ascending_set_insert a acc hacc)
    refine ⟨r, by simp [destination_asset_types, ha, hr], hasc, fun x => ?_⟩
    rw [hmem x, mem_set_insert]
    constructor
    · rintro ((rfl | h) | ⟨o', ho', h⟩)
      · exact Or.inr ⟨o, by simp, ha⟩
      · exact Or.inl h
      · exact Or.inr ⟨o', List.mem_cons_of_mem _ ho', h⟩
    · rintro (h | ⟨o', ho', h⟩)
      · exact Or.inl (Or.inr h)
      · rcases List.mem_cons.mp ho' with rfl | ho'
        · rw [ha] at h
          exact Or.inl (Or.inl (Option.some.inj h).symm)
        · exact Or.inr ⟨o', ho', h⟩

theorem source_asset_types_key_inputs (s : String) : ∀ vin : List txin_v,
    (∀ i ∈ vin, ∃ am ko ki, i = txin_v.txin_zephyr_key am s ko ki) →
    source_asset_types false vin [s] = some [s]
  | [], _ => rfl
  | i :: rest, h => by
    obtain ⟨am, ko, ki, rfl⟩ := h i (by simp)
    have hrest := source_asset_types_key_inputs s rest
      (fun j hj => h j (List.mem_cons_of_mem _ hj))
    simpa [source_asset_types, set_insert, string_less_irrefl] using hrest

theorem source_asset_types_single (s : String) (vin : List txin_v) (hne : vin ≠ [])
    (h : ∀ i ∈ vin, ∃ am ko ki, i = txin_v.txin_zephyr_key am s ko ki) :
    source_asset_types false vin [] = some [s] := by
  cases vin with
  | nil => exact absurd rfl hne
  | cons i rest =>
    obtain ⟨am, ko, ki, rfl⟩ := h i (by simp)
    have hrest := source_asset_types_key_inputs s rest
      (fun j hj => h j (List.mem_cons_of_mem _ hj))
    simpa [source_asset_types, set_insert] using hrest

/-- Resolution of a transaction with inputs of one asset type `s` and output asset types
exactly `s` and `d`, both supported. -/
theorem get_tx_asset_types_of_single_source {Out : Type} (output_asset : Out → Option String)
    (s d : String) (vin : List txin_v) (vout : List Out)
    (hs : s ∈ ASSET_TYPES) (hd : d ∈ ASSET_TYPES) (hne : vin ≠ [])
    (hin : ∀ i ∈ vin, ∃ am ko ki, i = txin_v.txin_zephyr_key am s ko ki)
    (hout : ∀ o ∈ vout, output_asset o = some s ∨ output_asset o = some d)
    (hos : ∃ o ∈ vout, output_asset o = some s) (hod : ∃ o ∈ vout, output_asset o = some d) :
    get_tx_asset_types output_asset ⟨vin, vout⟩ false = some (s, d) := by
  obtain ⟨r, hr, hasc, hmem⟩ := destination_asset_types_spec output_asset vout []
    (fun o ho => by rcases hout o ho with h | h <;> exact ⟨_, h⟩) List.Pairwise.nil
  have hmem' : ∀ x, x ∈ r ↔ x = s ∨ x = d := by
    intro x
    rw [hmem x]
    constructor
    · rintro (h | ⟨o, ho, h⟩)
      · simp at h
      · rcases hout o ho with h' | h' <;> rw [h'] at h
        · exact Or.inl (Option.some.inj h).symm
        · exact Or.inr (Option.some.inj h).symm
    · rintro (rfl | rfl)
      · exact Or.inr hos
      · exact Or.inr hod
  unfold get_tx_asset_types
  simp only [source_asset_types_single s vin hne hin, hr]
  rcases ascending_pair_cases s d r hasc hmem' with ⟨rfl, rfl⟩ | ⟨hsd, rfl⟩ | ⟨hsd, rfl⟩
  · simp [resolve_source, resolve_destination, hs]
  · simp [resolve_source, resolve_destination, hs, hd]
  · simp [resolve_source, resolve_destination, hs, hd, Ne.symm hsd]

/-! ## Machine arithmetic and the decimal ratio -/

theorem wrap64_lt (z : Int) : wrap64 z < 2 ^ 64 := by
  unfold wrap64
  have h1 : (0 : Int) ≤ z % 2 ^ 64 := Int.emod_nonneg z (by norm_num)
  have h2 : z % 2 ^ 64 < 2 ^ 64 := Int.emod_lt_of_pos z (by norm_num)
  omega

theorem wrap64_of_range (z : Int) (h0 : 0 ≤ z) (h1 : z < 2 ^ 64) : wrap64 z = z.toNat := by
  unfold wrap64
  rw [Int.emod_eq_of_lt h0 h1]

theorem mul128_wrap64_COIN (z : Int) : mul128 (wrap64 z) COIN = wrap64 z * COIN := by
  unfold mul128
  apply Nat.mod_eq_of_lt
  have h := wrap64_lt z
  calc wrap64 z * COIN < 2 ^ 64 * COIN := Nat.mul_lt_mul_of_pos_right h (by decide)
    _ ≤ 2 ^ 128 := by decide

/-- The post-transaction liabilities fit in 128 bits. -/
theorem liabilities_lt (z : Int) (rate : Nat) : wrap64 z * COIN / rate < 2 ^ 128 := by
  have h := wrap64_lt z
  calc wrap64 z * COIN / rate ≤ wrap64 z * COIN := Nat.div_le_self _ _
    _ < 2 ^ 64 * COIN := Nat.mul_lt_mul_of_pos_right h (by decide)
    _ ≤ 2 ^ 128 := by decide

/-- The exact quotient meets the accuracy bound. -/
theorem exact_quotient_accurate : quotient_accurate (fun a l => (a : ℚ) / (l : ℚ)) := by
  intro a l _ _ _
  simp only [sub_self, abs_zero, zero_mul]
  positivity

/-- The truncated quotient never exceeds the exact one and meets the accuracy bound. -/
theorem truncated_quotient_accurate : quotient_accurate truncated_quotient := by
  intro a l hl _ hl128
  have hL : (0 : ℚ) < (l : ℚ) := by exact_mod_cast hl
  have hx : (0 : ℚ) ≤ (a : ℚ) / (l : ℚ) := by positivity
  have h1 : 10 ^ 128 / l * l ≤ 10 ^ 128 := Nat.div_mul_le_self _ _
  have h2 : 10 ^ 128 < l * (10 ^ 128 / l + 1) := Nat.lt_mul_div_succ _ hl
  have h1q : ((10 ^ 128 / l : Nat) : ℚ) * (l : ℚ) ≤ 10 ^ 128 := by exact_mod_cast h1
  have h2q : (10 : ℚ) ^ 128 < (l : ℚ) * (((10 ^ 128 / l : Nat) : ℚ) + 1) := by exact_mod_cast h2
  have hl128q : (l : ℚ) < 2 ^ 128 := by exact_mod_cast hl128
  have hθ : truncated_quotient a l
      = (a : ℚ) / (l : ℚ) * (((10 ^ 128 / l : Nat) : ℚ) * (l : ℚ) / 10 ^ 128) := by
    unfold truncated_quotient
    field_simp
    ring
  have hθ1 : ((10 ^ 128 / l : Nat) : ℚ) * (l : ℚ) / 10 ^ 128 ≤ 1 := by
    rw [div_le_one (by positivity)]
    exact h1q
  have hθ2 : (1 - ((10 ^ 128 / l : Nat) : ℚ) * (l : ℚ) / 10 ^ 128) * 10 ^ 50 ≤ 1 := by
    have e : (1 - ((10 ^ 128 / l : Nat) : ℚ) * (l : ℚ) / 10 ^ 128) * 10 ^ 50
        = (10 ^ 128 - ((10 ^ 128 / l : Nat) : ℚ) * (l : ℚ)) / 10 ^ 78 := by
      field_simp
      ring
    rw [e, div_le_one (by positivity)]
    have : (10 : ℚ) ^ 128 - ((10 ^ 128 / l : Nat) : ℚ) * (l : ℚ) < 2 ^ 128 := by linarith
    have h78 : (2 : ℚ) ^ 128 ≤ 10 ^ 78 := by norm_num
    linarith
  rw [hθ]
  have hneg : (a : ℚ) / (l : ℚ) * (((10 ^ 128 / l : Nat) : ℚ) * (l : ℚ) / 10 ^ 128)
      - (a : ℚ) / (l : ℚ) ≤ 0 := by
    have : (a : ℚ) / (l : ℚ) * (((10 ^ 128 / l : Nat) : ℚ) * (l : ℚ) / 10 ^ 128)
        ≤ (a : ℚ) / (l : ℚ) * 1 := mul_le_mul_of_nonneg_left hθ1 hx
    linarith
  rw [abs_of_nonpos hneg]
  have : (a : ℚ) / (l : ℚ)
      * ((1 - ((10 ^ 128 / l : Nat) : ℚ) * (l : ℚ) / 10 ^ 128) * 10 ^ 50)
      ≤ (a : ℚ) / (l : ℚ) * 1 := mul_le_mul_of_nonneg_left hθ2 hx
  linarith

/-- An accurate quotient is below `c` whenever the exact one is, for a constant `c ≤ 8`. -/
theorem quot_lt_of_lt (quot : Nat → Nat → ℚ) (hq : quotient_accurate quot) (a l c : Nat)
    (hc : c ≤ 8) (hl : 0 < l) (ha : a < 2 ^ 128) (hl128 : l < 2 ^ 128) (h : a < c * l) :
    quot a l < (c : ℚ) := by
  have hacc := hq a l hl ha hl128
  have hL : (0 : ℚ) < (l : ℚ) := by exact_mod_cast hl
  have hcq : (c : ℚ) ≤ 8 := by exact_mod_cast hc
  have hl128q : (l : ℚ) < 2 ^ 128 := by exact_mod_cast hl128
  have he : (quot a l - (a : ℚ) / (l : ℚ)) * 10 ^ 50 ≤ (a : ℚ) / (l : ℚ) :=
    le_trans (mul_le_mul_of_nonneg_right (le_abs_self _) (by positivity)) hacc
  have ht : (100 : ℚ) / 10 ^ 50 < 1 / (l : ℚ) := by
    rw [div_lt_div_iff₀ (by positivity) hL]
    have : (2 : ℚ) ^ 128 * 100 ≤ 10 ^ 50 := by norm_num
    linarith
  have hxl : (a : ℚ) / (l : ℚ) ≤ (c : ℚ) - 1 / (l : ℚ) := by
    have e : (c : ℚ) - 1 / (l : ℚ) = ((c : ℚ) * (l : ℚ) - 1) / (l : ℚ) := by
      field_simp
    rw [e, div_le_div_iff_of_pos_right hL]
    have : (a : ℚ) + 1 ≤ (c : ℚ) * (l : ℚ) := by exact_mod_cast h
    linarith
  linarith

/-- An accurate quotient is above `c` whenever the exact one is, for a constant `c ≤ 8`. -/
theorem lt_quot_of_lt (quot : Nat → Nat → ℚ) (hq : quotient_accurate quot) (a l c : Nat)
    (hc : c ≤ 8) (hl : 0 < l) (ha : a < 2 ^ 128) (hl128 : l < 2 ^ 128) (h : c * l < a) :
    (c : ℚ) < quot a l := by
  have hacc := hq a l hl ha hl128
  have hL : (0 : ℚ) < (l : ℚ) := by exact_mod_cast hl
  have hcq : (c : ℚ) ≤ 8 := by exact_mod_cast hc
  have hl128q : (l : ℚ) < 2 ^ 128 := by exact_mod_cast hl128
  have he : -(quot a l - (a : ℚ) / (l : ℚ)) * 10 ^ 50 ≤ (a : ℚ) / (l : ℚ) :=
    le_trans (mul_le_mul_of_nonneg_right (neg_le_abs _) (by positivity)) hacc
  have ht : (100 : ℚ) / 10 ^ 50 < 1 / (l : ℚ) := by
    rw [div_lt_div_iff₀ (by positivity) hL]
    have : (2 : ℚ) ^ 128 * 100 ≤ 10 ^ 50 := by norm_num
    linarith
  have hxl : (c : ℚ) + 1 / (l : ℚ) ≤ (a : ℚ) / (l : ℚ) := by
    have e : (c : ℚ) + 1 / (l : ℚ) = ((c : ℚ) * (l : ℚ) + 1) / (l : ℚ) := by
      field_simp
    rw [e, div_le_div_iff_of_pos_right hL]
    have : (c : ℚ) * (l : ℚ) + 1 ≤ (a : ℚ) := by exact_mod_cast h
    linarith
  linarith

/-- With a non-zero divisor the comparison `ratio < c` is that of the library quotient. -/
theorem dec_lt_dec_div (quot : Nat → Nat → ℚ) (a l : Nat) (c : ℚ) (hl : 0 < l) :
    dec_lt (dec_div quot a l) c = decide (quot a l < c) := by
  simp only [dec_div, Nat.pos_iff_ne_zero.mp hl, if_false, dec_lt]

/-- With a zero divisor the quotient is infinite or NaN and is not below any constant. -/
theorem dec_lt_dec_div_zero (quot : Nat → Nat → ℚ) (a : Nat) (c : ℚ) :
    dec_lt (dec_div quot a 0) c = false := by
  by_cases ha : a = 0 <;> simp [dec_div, dec_lt, ha]

/-- The comparison `ratio < 4` of the guard, by cases on the exact totals: true below the
boundary `a = 4 * l`, false above it and with a zero divisor. -/
theorem dec_lt_dec_div_four (quot : Nat → Nat → ℚ) (hq : quotient_accurate quot) (a l : Nat)
    (ha : a < 2 ^ 128) (hl128 : l < 2 ^ 128) :
    (a < 4 * l → dec_lt (dec_div quot a l) 4 = true)
    ∧ (4 * l < a → dec_lt (dec_div quot a l) 4 = false)
    ∧ (l = 0 → dec_lt (dec_div quot a l) 4 = false) := by
  refine ⟨fun h => ?_, fun h => ?_, fun h => ?_⟩
  · have hl : 0 < l := by omega
    have := quot_lt_of_lt quot hq a l 4 (by norm_num) hl ha hl128 h
    rw [dec_lt_dec_div quot a l 4 hl]
    simpa using this
  · rcases Nat.eq_zero_or_pos l with rfl | hl
    · exact dec_lt_dec_div_zero quot a 4
    · have := lt_quot_of_lt quot hq a l 4 (by norm_num) hl ha hl128 h
      rw [dec_lt_dec_div quot a l 4 hl]
      simp only [Nat.cast_ofNat] at this
      simp [not_lt.mpr (le_of_lt this)]
  · rw [h]
    exact dec_lt_dec_div_zero quot a 4

/-! ## The reserve-ratio guard -/

/-- With reserve coins outstanding and a non-zero exchange rate the guard applies the policy to
the ratio of the post-transaction totals. -/
theorem reserve_ratio_satisfied_eq_policy (quot : Nat → Nat → ℚ) (to_string : dec_float → String)
    (circ_amounts : List (String × String)) (pr : pricing_record) (tx_type : transaction_type)
    (tally_zeph tally_stables tally_reserves : Int) (error_reason : String)
    (zeph_reserve num_reserve num_stable : Nat)
    (hzr : circ_lookup circ_amounts "ZEPH" = some zeph_reserve)
    (hnr : circ_lookup circ_amounts "ZEPHRSV" = some num_reserve)
    (hns : circ_lookup circ_amounts "ZEPHUSD" = some num_stable)
    (hnr0 : 0 < num_reserve) (hrate : 0 < pr.zEPHUSD) :
    reserve_ratio_satisfied quot to_string circ_amounts pr tx_type tally_zeph tally_stables
        tally_reserves error_reason
      = some (ratio_policy to_string tx_type
          (dec_div quot (wrap64 (zeph_reserve + tally_zeph))
            (wrap64 (num_stable + tally_stables) * COIN / pr.zEPHUSD)) error_reason) := by
  unfold reserve_ratio_satisfied post_transaction_ratio div128
  simp only [hzr, hnr, hns, Nat.pos_iff_ne_zero.mp hnr0, Nat.pos_iff_ne_zero.mp hrate, if_false,
    mul128_wrap64_COIN]

/-! ## C1: the transaction-type classifier -/

/-- The classifier succeeds with type `t` exactly on the supported triples. -/
theorem get_tx_type_eq_some_iff (source destination : String) (t : transaction_type) :
    get_tx_type source destination = some t ↔ (source, destination, t) ∈ supported_pairs := by
  unfold get_tx_type supported_pairs ASSET_TYPES
  by_cases h1 : source = "ZEPH" <;> by_cases h2 : source = "ZEPHUSD"
    <;> by_cases h3 : source = "ZEPHRSV" <;> by_cases h4 : destination = "ZEPH"
    <;> by_cases h5 : destination = "ZEPHUSD" <;> by_cases h6 : destination = "ZEPHRSV"
    <;> simp_all
  all_goals exact eq_comm

/-- C1. `get_tx_type source destination` succeeds with type `t` exactly when
`(source, destination, t)` is one of the seven supported triples, and fails for every other pair
of strings, in particular for (ZEPHUSD, ZEPHRSV), (ZEPHRSV, ZEPHUSD) and every pair with a string
outside the asset set. -/
theorem get_tx_type_classifies (source destination : String) :
    (∀ t, get_tx_type source destination = some t ↔ (source, destination, t) ∈ supported_pairs)
    ∧ (get_tx_type source destination = none ↔
        ∀ t, (source, destination, t) ∉ supported_pairs)
    ∧ get_tx_type "ZEPHUSD" "ZEPHRSV" = none
    ∧ get_tx_type "ZEPHRSV" "ZEPHUSD" = none
    ∧ (source ∉ ASSET_TYPES ∨ destination ∉ ASSET_TYPES → get_tx_type source destination = none) := by
  refine ⟨fun t => get_tx_type_eq_some_iff source destination t, ?_, by decide, by decide, ?_⟩
  · constructor
    · intro h t ht
      rw [← get_tx_type_eq_some_iff, h] at ht
      exact Option.noConfusion ht
    · intro h
      cases hg : get_tx_type source destination with
      | none => rfl
      | some t => exact absurd ((get_tx_type_eq_some_iff source destination t).mp hg) (h t)
  · intro h
    unfold get_tx_type
    rcases h with h | h
    · simp [h]
    · by_cases hs : source ∈ ASSET_TYPES <;> simp [h, hs]

/-! ## C2: resolver and classifier round trip -/

/-- C2. For each of the seven supported triples `(s, d, t)` and every transaction resolved with
`is_miner_tx = false` that has at least one input, all of whose inputs are key inputs of asset
type `s`, and whose outputs carry exactly the asset types `s` and `d`: `get_tx_asset_types`
returns `(s, d)`, `get_tx_type` applied to that result returns `t`, and the result is the same for
every permutation `vin'` of the inputs and `vout'` of the outputs. -/
theorem get_tx_asset_types_round_trip {Out : Type} (output_asset : Out → Option String)
    (s d : String) (t : transaction_type) (vin vin' : List txin_v) (vout vout' : List Out)
    (hpair : (s, d, t) ∈ supported_pairs) (hne : vin ≠ [])
    (hin : ∀ i ∈ vin, ∃ am ko ki, i = txin_v.txin_zephyr_key am s ko ki)
    (hout : ∀ o ∈ vout, output_asset o = some s ∨ output_asset o = some d)
    (hos : ∃ o ∈ vout, output_asset o = some s) (hod : ∃ o ∈ vout, output_asset o = some d)
    (hpin : vin'.Perm vin) (hpout : vout'.Perm vout) :
    get_tx_asset_types output_asset ⟨vin, vout⟩ false = some (s, d)
    ∧ (get_tx_asset_types output_asset ⟨vin, vout⟩ false).bind (fun p => get_tx_type p.1 p.2) = some t
    ∧ get_tx_asset_types output_asset ⟨vin', vout'⟩ false = get_tx_asset_types output_asset ⟨vin, vout⟩ false := by
  have hs : s ∈ ASSET_TYPES := by
    simp only [supported_pairs, List.mem_cons, Prod.mk.injEq, List.mem_nil_iff, or_false] at hpair
    rcases hpair with h | h | h | h | h | h | h <;> rw [h.1] <;> decide
  have hd : d ∈ ASSET_TYPES := by
    simp only [supported_pairs, List.mem_cons, Prod.mk.injEq, List.mem_nil_iff, or_false] at hpair
    rcases hpair with h | h | h | h | h | h | h <;> rw [h.2.1] <;> decide
  have h1 := get_tx_asset_types_of_single_source output_asset s d vin vout hs hd hne hin hout hos hod
  have h2 := get_tx_asset_types_of_single_source output_asset s d vin' vout' hs hd
    (fun e => hne (by rw [e] at hpin; exact List.Perm.eq_nil (List.Perm.symm hpin)))
    (fun i hi => hin i (hpin.mem_iff.mp hi))
    (fun o ho => hout o (hpout.mem_iff.mp ho))
    (by obtain ⟨o, ho, h⟩ := hos; exact ⟨o, hpout.mem_iff.mpr ho, h⟩)
    (by obtain ⟨o, ho, h⟩ := hod; exact ⟨o, hpout.mem_iff.mpr ho, h⟩)
  refine ⟨h1, ?_, h2.trans h1.symm⟩
  rw [h1]
  exact (get_tx_type_eq_some_iff s d t).mpr hpair

/-- Witness for C2: two ZEPH inputs, outputs ZEPH (change) and ZEPHUSD, both lists swapped. -/
theorem get_tx_asset_types_round_trip_witness :
    get_tx_asset_types some
        ⟨[txin_v.txin_zephyr_key 5 "ZEPH" [] [1], txin_v.txin_zephyr_key 7 "ZEPH" [] [2]],
          ["ZEPH", "ZEPHUSD"]⟩ false = some ("ZEPH", "ZEPHUSD")
    ∧ (get_tx_asset_types some
        ⟨[txin_v.txin_zephyr_key 5 "ZEPH" [] [1], txin_v.txin_zephyr_key 7 "ZEPH" [] [2]],
          ["ZEPH", "ZEPHUSD"]⟩ false).bind (fun p => get_tx_type p.1 p.2)
        = some transaction_type.MINT_STABLE
    ∧ get_tx_asset_types some
        ⟨[txin_v.txin_zephyr_key 7 "ZEPH" [] [2], txin_v.txin_zephyr_key 5 "ZEPH" [] [1]],
          ["ZEPHUSD", "ZEPH"]⟩ false
      = get_tx_asset_types some
        ⟨[txin_v.txin_zephyr_key 5 "ZEPH" [] [1], txin_v.txin_zephyr_key 7 "ZEPH" [] [2]],
          ["ZEPH", "ZEPHUSD"]⟩ false :=
  get_tx_asset_types_round_trip some "ZEPH" "ZEPHUSD" transaction_type.MINT_STABLE
    [txin_v.txin_zephyr_key 5 "ZEPH" [] [1], txin_v.txin_zephyr_key 7 "ZEPH" [] [2]]
    [txin_v.txin_zephyr_key 7 "ZEPH" [] [2], txin_v.txin_zephyr_key 5 "ZEPH" [] [1]]
    ["ZEPH", "ZEPHUSD"] ["ZEPHUSD", "ZEPH"]
    (by decide) (by decide)
    (by
      intro i hi
      rcases List.mem_cons.mp hi with rfl | hi
      · exact ⟨_, _, _, rfl⟩
      · rcases List.mem_cons.mp hi with rfl | hi
        · exact ⟨_, _, _, rfl⟩
        · exact absurd hi (List.not_mem_nil _))
    (by
      intro o ho
      rcases List.mem_cons.mp ho with rfl | ho
      · exact Or.inl rfl
      · rcases List.mem_cons.mp ho with rfl | ho
        · exact Or.inr rfl
        · exact absurd ho (List.not_mem_nil _))
    ⟨"ZEPH", by decide, rfl⟩ ⟨"ZEPHUSD", by decide, rfl⟩
    (List.Perm.swap _ _ _) (List.Perm.swap _ _ _)

/-! ## C3: MINT_STABLE needs a ratio of at least 4 -/

/-- A REDEEM_RESERVE call of the guard with reserve coins outstanding and a positive rate is
accepted exactly when the computed ratio does not compare below 4. -/
theorem reserve_ratio_satisfied_redeem_reserve_eq (quot : Nat → Nat → ℚ)
    (to_string : dec_float → String)
    (circ_amounts : List (String × String)) (pr : pricing_record)
    (tally_zeph tally_stables tally_reserves : Int) (error_reason : String)
    (zeph_reserve num_reserve num_stable : Nat)
    (hzr : circ_lookup circ_amounts "ZEPH" = some zeph_reserve)
    (hnr : circ_lookup circ_amounts "ZEPHRSV" = some num_reserve)
    (hns : circ_lookup circ_amounts "ZEPHUSD" = some num_stable)
    (hnr0 : 0 < num_reserve) (hrate : 0 < pr.zEPHUSD) :
    (reserve_ratio_satisfied quot to_string circ_amounts pr transaction_type.REDEEM_RESERVE
        tally_zeph tally_stables tally_reserves error_reason).map Prod.fst
      = some (!dec_lt (dec_div quot (wrap64 (zeph_reserve + tally_zeph))
          (wrap64 (num_stable + tally_stables) * COIN / pr.zEPHUSD)) 4) := by
  rw [reserve_ratio_satisfied_eq_policy quot to_string circ_amounts pr _ tally_zeph tally_stables
    tally_reserves error_reason zeph_reserve num_reserve num_stable hzr hnr hns hnr0 hrate]
  have h1 : ¬ (transaction_type.REDEEM_RESERVE = transaction_type.MINT_STABLE) := by decide
  have h2 : ¬ (transaction_type.REDEEM_RESERVE = transaction_type.REDEEM_STABLE) := by decide
  have h3 : ¬ (transaction_type.REDEEM_RESERVE = transaction_type.MINT_RESERVE) := by decide
  simp only [ratio_policy, h1, h2, h3, if_true, if_false, Option.map_some']
  cases dec_lt (dec_div quot (wrap64 (zeph_reserve + tally_zeph))
      (wrap64 (num_stable + tally_stables) * COIN / pr.zEPHUSD)) 4 <;> simp

/-- A REDEEM_RESERVE call of the guard, by cases on the exact post-transaction totals `A` and
`L`, for a library quotient accurate to `10^-50`: rejected when `A < 4 * L`, accepted when
`A > 4 * L`, and accepted when `L = 0` (the ratio is then infinite, or NaN when `A = 0`). -/
theorem reserve_ratio_satisfied_redeem_reserve_cases (quot : Nat → Nat → ℚ)
    (to_string : dec_float → String)
    (circ_amounts : List (String × String)) (pr : pricing_record)
    (tally_zeph tally_stables tally_reserves : Int) (error_reason : String)
    (zeph_reserve num_reserve num_stable : Nat)
    (hzr : circ_lookup circ_amounts "ZEPH" = some zeph_reserve)
    (hnr : circ_lookup circ_amounts "ZEPHRSV" = some num_reserve)
    (hns : circ_lookup circ_amounts "ZEPHUSD" = some num_stable)
    (hnr0 : 0 < num_reserve) (hrate : 0 < pr.zEPHUSD) (hq : quotient_accurate quot) :
    (wrap64 (zeph_reserve + tally_zeph)
          < 4 * (wrap64 (num_stable + tally_stables) * COIN / pr.zEPHUSD) →
        (reserve_ratio_satisfied quot to_string circ_amounts pr transaction_type.REDEEM_RESERVE
          tally_zeph tally_stables tally_reserves error_reason).map Prod.fst = some false)
    ∧ (4 * (wrap64 (num_stable + tally_stables) * COIN / pr.zEPHUSD)
          < wrap64 (zeph_reserve + tally_zeph) →
        (reserve_ratio_satisfied quot to_string circ_amounts pr transaction_type.REDEEM_RESERVE
          tally_zeph tally_stables tally_reserves error_reason).map Prod.fst = some true)
    ∧ (wrap64 (num_stable + tally_stables) * COIN / pr.zEPHUSD = 0 →
        (reserve_ratio_satisfied quot to_string circ_amounts pr transaction_type.REDEEM_RESERVE
          tally_zeph tally_stables tally_reserves error_reason).map Prod.fst = some true) := by
  rw [reserve_ratio_satisfied_redeem_reserve_eq quot to_string circ_amounts pr tally_zeph
    tally_stables tally_reserves error_reason zeph_reserve num_reserve num_stable hzr hnr hns
    hnr0 hrate]
  have hA : wrap64 (zeph_reserve + tally_zeph) < 2 ^ 128 :=
    lt_trans (wrap64_lt _) (by norm_num)
  have hL128 := liabilities_lt (num_stable + tally_stables) pr.zEPHUSD
  obtain ⟨hlt, hgt, hzero⟩ := dec_lt_dec_div_four quot hq (wrap64 (zeph_reserve + tally_zeph))
    (wrap64 (num_stable + tally_stables) * COIN / pr.zEPHUSD) hA hL128
  exact ⟨fun h => by rw [hlt h]; rfl, fun h => by rw [hgt h]; rfl,
    fun h => by rw [hzero h]; rfl⟩

/-- C5 does not hold of the code. One reserve coin outstanding, no ZEPH in reserve, no stable
coin, rate 1 and zero deltas: the post-transaction ratio is the quotient `0 / 0`, a NaN, which is
not `>= 4.0`, and the REDEEM_RESERVE call is accepted all the same, whatever the library
computes for a non-zero divisor. -/
theorem reserve_ratio_satisfied_redeem_reserve_nan :
    (∀ (quot : Nat → Nat → ℚ) (to_string : dec_float → String),
      reserve_ratio_satisfied quot to_string [("ZEPH", "0"), ("ZEPHUSD", "0"), ("ZEPHRSV", "1")]
          ⟨1, 0⟩ transaction_type.REDEEM_RESERVE 0 0 0 "" = some (true, "")
      ∧ post_transaction_ratio quot 0 0 1 ⟨1, 0⟩ 0 0 0 = some (0, 0, dec_float.nan))
    ∧ dec_ge dec_float.nan 4 = false := by
  refine ⟨fun quot to_string => ⟨?_, ?_⟩, rfl⟩
  · rw [reserve_ratio_satisfied_eq_policy quot to_string _ _ _ 0 0 0 "" 0 1 0 (by decide)
      (by decide) (by decide) (by decide) (by decide)]
    rw [show wrap64 (((0 : Nat) : Int) + 0) = 0 from by decide]
    simp [ratio_policy, dec_div, dec_lt]
  · unfold post_transaction_ratio
    rw [show wrap64 (((0 : Nat) : Int) + 0) = 0 from by decide]
    simp [dec_div, div128, mul128]

/-- The rest of the policy. With reserve coins outstanding and a positive exchange rate:
REDEEM_STABLE is accepted for every supply and every delta, and every type other than the four
conversions that mint or redeem is rejected. -/
theorem reserve_ratio_satisfied_other_types (quot : Nat → Nat → ℚ)
    (to_string : dec_float → String)
    (circ_amounts : List (String × String)) (pr : pricing_record)
    (tally_zeph tally_stables tally_reserves : Int) (error_reason : String)
    (zeph_reserve num_reserve num_stable : Nat)
    (hzr : circ_lookup circ_amounts "ZEPH" = some zeph_reserve)
    (hnr : circ_lookup circ_amounts "ZEPHRSV" = some num_reserve)
    (hns : circ_lookup circ_amounts "ZEPHUSD" = some num_stable)
    (hnr0 : 0 < num_reserve) (hrate : 0 < pr.zEPHUSD) :
    (reserve_ratio_satisfied quot to_string circ_amounts pr transaction_type.REDEEM_STABLE
        tally_zeph tally_stables tally_reserves error_reason).map Prod.fst = some true
    ∧ ∀ tx_type, tx_type = transaction_type.UNSET ∨ tx_type = transaction_type.TRANSFER
        ∨ tx_type = transaction_type.STABLE_TRANSFER ∨ tx_type = transaction_type.RESERVE_TRANSFER →
      (reserve_ratio_satisfied quot to_string circ_amounts pr tx_type
        tally_zeph tally_stables tally_reserves error_reason).map Prod.fst = some false := by
  have key := fun ty => reserve_ratio_satisfied_eq_policy quot to_string circ_amounts pr ty
    tally_zeph tally_stables tally_reserves error_reason zeph_reserve num_reserve num_stable hzr
    hnr hns hnr0 hrate
  refine ⟨?_, ?_⟩
  · rw [key]
    have h1 : ¬ (transaction_type.REDEEM_STABLE = transaction_type.MINT_STABLE) := by decide
    simp [ratio_policy, h1]
  · intro tx_type hty
    rw [key]
    rcases hty with rfl | rfl | rfl | rfl <;> simp [ratio_policy]

/-! ## C6: no reserve coins in circulation -/

/-- C6. When the supply has no reserve coins (the ZEPHRSV entry is zero or absent),
`reserve_ratio_satisfied` returns `true` exactly when `tally_stables = 0`, whatever the
transaction type, the pricing record and the other deltas; when it rejects, `error_reason` is the
non-empty message about no reserve coins in circulation, and when it accepts `error_reason` is
left as it was. -/
theorem reserve_ratio_satisfied_no_reserve (quot : Nat → Nat → ℚ) (to_string : dec_float → String)
    (circ_amounts : List (String × String)) (pr : pricing_record) (tx_type : transaction_type)
    (tally_zeph tally_stables tally_reserves : Int) (error_reason : String)
    (zeph_reserve num_stable : Nat)
    (hzr : circ_lookup circ_amounts "ZEPH" = some zeph_reserve)
    (hnr : circ_lookup circ_amounts "ZEPHRSV" = some 0)
    (hns : circ_lookup circ_amounts "ZEPHUSD" = some num_stable) :
    (reserve_ratio_satisfied quot to_string circ_amounts pr tx_type tally_zeph tally_stables
        tally_reserves error_reason).map Prod.fst = some (decide (tally_stables = 0))
    ∧ (tally_stables = 0 →
        reserve_ratio_satisfied quot to_string circ_amounts pr tx_type tally_zeph tally_stables
          tally_reserves error_reason = some (true, error_reason))
    ∧ (tally_stables ≠ 0 →
        reserve_ratio_satisfied quot to_string circ_amounts pr tx_type tally_zeph tally_stables
          tally_reserves error_reason
        = some (false, "Reserve ratio not satisfied. No reserve coins in circulation."))
    ∧ "Reserve ratio not satisfied. No reserve coins in circulation." ≠ "" := by
  unfold reserve_ratio_satisfied
  simp only [hzr, hnr, hns, if_true]
  refine ⟨?_, ?_, ?_, by decide⟩
  · by_cases h : tally_stables = 0 <;> simp [h]
  · intro h; simp [h]
  · intro h; simp [h]

/-- Witness for C6: a supply without a ZEPHRSV entry, MINT_STABLE with `tally_stables = 100`. -/
theorem reserve_ratio_satisfied_no_reserve_witness :
    reserve_ratio_satisfied truncated_quotient (fun _ => "") [("ZEPH", "1000"), ("ZEPHUSD", "0")] ⟨1000000000000, 0⟩
        transaction_type.MINT_STABLE 0 100 0 ""
      = some (false, "Reserve ratio not satisfied. No reserve coins in circulation.") :=
  (reserve_ratio_satisfied_no_reserve truncated_quotient (fun _ => "") [("ZEPH", "1000"), ("ZEPHUSD", "0")]
    ⟨1000000000000, 0⟩ transaction_type.MINT_STABLE 0 100 0 "" 1000 0
    (by decide) (by decide) (by decide)).2.2.1 (by decide)

/-! ## C7: zero denominators -/

/-- C7, counterexample. `100` ZEPH in reserve, one reserve coin and no stable coin outstanding,
rate 1, zero deltas: the guard reaches the ratio with `liabilities = 0`, the quotient `100 / 0`
is evaluated and is infinite, and the MINT_RESERVE call is rejected on it. The same supply makes
`get_reserve_ratio` and `get_reserve_info` evaluate the ratio with zero liabilities. This holds
whatever the library computes for a non-zero divisor and for a finite `double`. -/
theorem ratio_evaluated_with_zero_liabilities :
    (∀ quot : Nat → Nat → ℚ,
      post_transaction_ratio quot 100 0 1 ⟨1, 0⟩ 0 0 0 = some (100, 0, dec_float.inf)
      ∧ reserve_ratio_satisfied quot (fun _ => "") [("ZEPH", "100"), ("ZEPHRSV", "1")] ⟨1, 0⟩
          transaction_type.MINT_RESERVE 0 0 0 ""
        = some (false, "Reserve ratio not satisfied.  is above max 8.0"))
    ∧ (∀ (quot : Nat → Nat → ℚ) (to_double : ℚ → ℚ),
      get_reserve_ratio quot to_double [("ZEPH", "100"), ("ZEPHRSV", "1")] ⟨1, 0⟩
        = some dec_float.inf
      ∧ get_reserve_info quot to_double [("ZEPH", "100"), ("ZEPHRSV", "1")] ⟨1, 0⟩
        = some ⟨100, 0, 1, 100, 0, 100, dec_float.inf⟩) := by
  have hzr : circ_lookup [("ZEPH", "100"), ("ZEPHRSV", "1")] "ZEPH" = some 100 := by decide
  have hnr : circ_lookup [("ZEPH", "100"), ("ZEPHRSV", "1")] "ZEPHRSV" = some 1 := by decide
  have hns : circ_lookup [("ZEPH", "100"), ("ZEPHRSV", "1")] "ZEPHUSD" = some 0 := by decide
  have hA : wrap64 (((100 : Nat) : Int) + 0) = 100 := by decide
  have hS : wrap64 (((0 : Nat) : Int) + 0) = 0 := by decide
  have hd : ∀ quot : Nat → Nat → ℚ, dec_div quot 100 0 = dec_float.inf := by
    intro quot
    simp [dec_div]
  refine ⟨fun quot => ⟨?_, ?_⟩, fun quot to_double => ⟨?_, ?_⟩⟩
  · unfold post_transaction_ratio
    rw [hA, hS]
    simp [div128, mul128, hd]
  · rw [reserve_ratio_satisfied_eq_policy quot _ _ _ _ 0 0 0 "" 100 1 0 hzr hnr hns (by decide)
      (by decide), hA, hS]
    simp [ratio_policy, hd, dec_ge]
  · unfold get_reserve_ratio
    simp [hzr, hnr, hns, div128, mul128, hd, convert_to_double]
  · unfold get_reserve_info
    rw [hzr, hnr, hns]
    simp [div128, mul128, hd, convert_to_double, to_uint64]
    decide

/-! ## Parsed amounts are 64-bit -/

theorem stoull_lt (str : String) (n : Nat) (h : stoull str = some n) : n < 2 ^ 64 := by
  unfold stoull at h
  simp only at h
  split_ifs at h with h1 h2 h3
  · have := Option.some.inj h
    rw [← this]
    exact Nat.mod_lt _ (by norm_num)
  · have := Option.some.inj h
    rw [← this]
    exact Nat.lt_of_not_le h2

theorem circ_lookup_lt (circ_amounts : List (String × String)) (asset : String) (n : Nat)
    (h : circ_lookup circ_amounts asset = some n) : n < 2 ^ 64 := by
  unfold circ_lookup at h
  split at h
  · have := Option.some.inj h
    rw [← this]
    norm_num
  · exact stoull_lt _ n h

theorem mul128_COIN_of_lt (n : Nat) (h : n < 2 ^ 64) : mul128 n COIN = n * COIN := by
  unfold mul128
  apply Nat.mod_eq_of_lt
  calc n * COIN < 2 ^ 64 * COIN := Nat.mul_lt_mul_of_pos_right h (by decide)
    _ ≤ 2 ^ 128 := by decide

/-! ## C7: zero denominators, amended -/

/-- C7, amended. For every supply snapshot with numeric amounts: `get_stable_coin_price` (whose
division by the outstanding stable supply is guarded) and `get_reserve_coin_price` (whose
division by the outstanding reserve supply is guarded) return a value for every price, without
a division by zero. The ratio `assets / liabilities` of `get_reserve_ratio`, `get_reserve_info`
and `reserve_ratio_satisfied` has no guard on the liabilities: when the stable supply converts to
`liabilities = 0` the quotient is evaluated all the same and is infinite, or NaN when the assets
are zero too. -/
theorem supply_divisions (quot : Nat → Nat → ℚ) (to_double : ℚ → ℚ)
    (circ_amounts : List (String × String)) (pr : pricing_record)
    (oracle_price : Nat) (zeph_reserve num_reserve num_stable : Nat)
    (hzr : circ_lookup circ_amounts "ZEPH" = some zeph_reserve)
    (hnr : circ_lookup circ_amounts "ZEPHRSV" = some num_reserve)
    (hns : circ_lookup circ_amounts "ZEPHUSD" = some num_stable) :
    (∃ p, get_stable_coin_price circ_amounts oracle_price = some p)
    ∧ (∃ p, get_reserve_coin_price circ_amounts pr = some p)
    ∧ (0 < num_reserve → 0 < zeph_reserve → 0 < pr.zEPHUSD →
        num_stable * COIN / pr.zEPHUSD = 0 →
        get_reserve_ratio quot to_double circ_amounts pr = some dec_float.inf
        ∧ (get_reserve_info quot to_double circ_amounts pr).map reserve_info.reserve_ratio
          = some dec_float.inf)
    ∧ (0 < num_reserve → 0 < pr.zEPHUSD → ∀ tally_zeph tally_stables tally_reserves : Int,
        wrap64 (num_stable + tally_stables) * COIN / pr.zEPHUSD = 0 →
        post_transaction_ratio quot zeph_reserve num_stable num_reserve pr tally_zeph
            tally_stables tally_reserves
          = some (wrap64 (zeph_reserve + tally_zeph), 0,
              if wrap64 (zeph_reserve + tally_zeph) = 0 then dec_float.nan
              else dec_float.inf)) := by
  have hns64 := circ_lookup_lt circ_amounts "ZEPHUSD" num_stable hns
  refine ⟨?_, ?_, ?_, ?_⟩
  · unfold get_stable_coin_price div128
    simp only [hzr, hns]
    by_cases h : num_stable = 0 <;> simp [h]
  · unfold get_reserve_coin_price div128
    simp only [hzr, hnr, hns]
    by_cases h : num_reserve = 0
    · simp [h]
    · by_cases h' : pr.zEPHUSD = 0 <;> simp [h, h']
  · intro h1 h2 h3 h4
    unfold get_reserve_ratio get_reserve_info div128
    simp only [hzr, hnr, hns, Nat.pos_iff_ne_zero.mp h1, Nat.pos_iff_ne_zero.mp h2,
      Nat.pos_iff_ne_zero.mp h3, or_self, if_false, mul128_COIN_of_lt num_stable hns64, h4,
      dec_div, if_true, Option.map_some', convert_to_double, and_self]
  · intro h1 h2 tally_zeph tally_stables tally_reserves h3
    unfold post_transaction_ratio div128
    simp only [Nat.pos_iff_ne_zero.mp h2, if_false, mul128_wrap64_COIN, h3, dec_div, if_true]

/-- Witness for the amended C7: `100` ZEPH in reserve, one reserve coin, no stable coin. -/
theorem supply_divisions_witness :
    get_reserve_ratio truncated_quotient (fun q => q) [("ZEPH", "100"), ("ZEPHRSV", "1")] ⟨1, 0⟩
      = some dec_float.inf
    ∧ (get_reserve_info truncated_quotient (fun q => q) [("ZEPH", "100"), ("ZEPHRSV", "1")]
        ⟨1, 0⟩).map reserve_info.reserve_ratio = some dec_float.inf :=
  (supply_divisions truncated_quotient (fun q => q) [("ZEPH", "100"), ("ZEPHRSV", "1")] ⟨1, 0⟩ 7
    100 1 0 (by decide) (by decide) (by decide)).2.2.1 (by decide) (by decide) (by decide)
    (by decide)

/-! ## C8: freshness of the pricing record -/

/-- While `current_height` is below the window, the `uint64_t` subtraction wraps and the check
rejects. -/
theorem tx_pr_height_valid_of_lt_window
    (PRICING_RECORD_VALID_BLOCKS current_height pr_height : Nat)
    (hW : PRICING_RECORD_VALID_BLOCKS < 2 ^ 64)
    (hcur : current_height < PRICING_RECORD_VALID_BLOCKS) (hpr : pr_height < current_height) :
    tx_pr_height_valid PRICING_RECORD_VALID_BLOCKS current_height pr_height = false := by
  unfold tx_pr_height_valid
  have hw : wrap64 ((current_height : Int) - (PRICING_RECORD_VALID_BLOCKS : Int))
      = 2 ^ 64 + current_height - PRICING_RECORD_VALID_BLOCKS := by
    unfold wrap64
    have e : ((current_height : Int) - (PRICING_RECORD_VALID_BLOCKS : Int)) % 2 ^ 64
        = (current_height : Int) - (PRICING_RECORD_VALID_BLOCKS : Int) + 2 ^ 64 := by
      rw [← Int.add_mul_emod_self_left _ (2 ^ 64) 1, mul_one]
      apply Int.emod_eq_of_lt <;> omega
    rw [e]
    omega
  rw [hw]
  have h1 : ¬ pr_height ≥ current_height := by omega
  have h2 : 2 ^ 64 + current_height - PRICING_RECORD_VALID_BLOCKS > pr_height := by omega
  rw [if_neg h1, if_pos h2]

/-- What `tx_pr_height_valid` computes on 64-bit heights: the two conditions of the freshness
invariant together with `PRICING_RECORD_VALID_BLOCKS <= current_height`. -/
theorem tx_pr_height_valid_iff (PRICING_RECORD_VALID_BLOCKS current_height pr_height : Nat)
    (hW : PRICING_RECORD_VALID_BLOCKS < 2 ^ 64) (hcur : current_height < 2 ^ 64) :
    tx_pr_height_valid PRICING_RECORD_VALID_BLOCKS current_height pr_height = true
      ↔ pr_height < current_height ∧ PRICING_RECORD_VALID_BLOCKS ≤ current_height
        ∧ current_height - pr_height ≤ PRICING_RECORD_VALID_BLOCKS := by
  by_cases hpr : pr_height < current_height
  · by_cases hlt : current_height < PRICING_RECORD_VALID_BLOCKS
    · have := tx_pr_height_valid_of_lt_window _ _ _ hW hlt hpr
      rw [this]
      constructor
      · intro h; exact absurd h (by decide)
      · intro h; omega
    · unfold tx_pr_height_valid
      have hw : wrap64 ((current_height : Int) - (PRICING_RECORD_VALID_BLOCKS : Int))
          = current_height - PRICING_RECORD_VALID_BLOCKS := by
        rw [wrap64_of_range _ (by omega) (by omega)]
        omega
      rw [hw]
      have h1 : ¬ pr_height ≥ current_height := by omega
      simp only [h1, if_false]
      by_cases h2 : current_height - PRICING_RECORD_VALID_BLOCKS > pr_height
      · simp only [h2, if_true]
        constructor
        · intro h; exact absurd h (by decide)
        · intro h; omega
      · simp only [h2, if_false, true_iff]
        omega
  · unfold tx_pr_height_valid
    have h1 : pr_height ≥ current_height := by omega
    simp only [h1, if_true]
    constructor
    · intro h; exact absurd h (by decide)
    · intro h; omega

/-- C8. The claimed equivalence fails while the chain is shorter than the validity window: for
`current_height` below `PRICING_RECORD_VALID_BLOCKS`, `tx_pr_height_valid` rejects every record
height, also those with `pr_height < current_height` and
`current_height - pr_height <= PRICING_RECORD_VALID_BLOCKS`, because the subtraction
`current_height - PRICING_RECORD_VALID_BLOCKS` wraps around in `uint64_t`. -/
theorem tx_pr_height_valid_below_window (PRICING_RECORD_VALID_BLOCKS current_height pr_height : Nat)
    (hW : PRICING_RECORD_VALID_BLOCKS < 2 ^ 64)
    (hcur : current_height < PRICING_RECORD_VALID_BLOCKS) (hpr : pr_height < current_height) :
    tx_pr_height_valid PRICING_RECORD_VALID_BLOCKS current_height pr_height = false
    ∧ pr_height < current_height
    ∧ current_height - pr_height ≤ PRICING_RECORD_VALID_BLOCKS :=
  ⟨tx_pr_height_valid_of_lt_window _ _ _ hW hcur hpr, hpr, by omega⟩

/-- Witness for C8: window 10, height 5, record height 3. -/
theorem tx_pr_height_valid_below_window_witness :
    tx_pr_height_valid 10 5 3 = false ∧ 3 < 5 ∧ 5 - 3 ≤ 10 :=
  tx_pr_height_valid_below_window 10 5 3 (by decide) (by decide) (by decide)


/-! ## C9 and C10: conversion between ZEPH and the stable coin -/

theorem sub128_le (a b : Nat) (hb : b ≤ a) (ha : a < 2 ^ 128) : sub128 a b ≤ a := by
  unfold sub128
  have hb' : b % 2 ^ 128 = b := Nat.mod_eq_of_lt (by omega)
  rw [hb']
  have e : a + 2 ^ 128 - b = (a - b) + 2 ^ 128 := by omega
  rw [e, Nat.add_mod_right]
  exact le_trans (Nat.mod_le _ _) (Nat.sub_le _ _)

theorem sub128_eq (a b : Nat) (hb : b ≤ a) (ha : a < 2 ^ 128) : sub128 a b = a - b := by
  unfold sub128
  have hb' : b % 2 ^ 128 = b := Nat.mod_eq_of_lt (by omega)
  rw [hb']
  have e : a + 2 ^ 128 - b = (a - b) + 2 ^ 128 := by omega
  rw [e, Nat.add_mod_right]
  exact Nat.mod_eq_of_lt (by omega)

/-- The value of `get_zeph_amount` at a positive rate. -/
theorem get_zeph_amount_of_pos (amount : Nat) (pr : pricing_record) (hrate : 0 < pr.zEPHUSD) :
    get_zeph_amount amount pr
      = some (to_uint64 (mul128 amount
          (sub128 (1000000000000000000000000 / pr.zEPHUSD)
            (1000000000000000000000000 / pr.zEPHUSD % 100000000)) / COIN)) := by
  have hCC : mul128 COIN COIN = 1000000000000000000000000 := by decide
  have hC0 : COIN ≠ 0 := by decide
  unfold get_zeph_amount div128
  simp only [Nat.pos_iff_ne_zero.mp hrate, hC0, if_false, hCC]

/-- C9. For every amount `x` and every pricing record with a positive rate, converting to the
stable coin and back returns, and never yields more than the original amount. -/
theorem get_zeph_amount_get_stable_amount_le (x : Nat) (pr : pricing_record)
    (hrate : 0 < pr.zEPHUSD) :
    ∃ y, get_zeph_amount (get_stable_amount x pr) pr = some y ∧ y ≤ x := by
  have hq : 1000000000000000000000000 / pr.zEPHUSD < 2 ^ 128 :=
    lt_of_le_of_lt (Nat.div_le_self _ _) (by norm_num)
  refine ⟨_, get_zeph_amount_of_pos _ pr hrate, ?_⟩
  -- the stable amount is at most `x * rate / 10^12`
  have hs : get_stable_amount x pr ≤ x * pr.zEPHUSD / 1000000000000 := by
    unfold get_stable_amount to_uint64 mul128
    exact le_trans (Nat.mod_le _ _) (Nat.div_le_div_right (Nat.mod_le _ _))
  -- the truncated inverse rate is at most `10^24 / rate`
  have hR : sub128 (1000000000000000000000000 / pr.zEPHUSD)
      (1000000000000000000000000 / pr.zEPHUSD % 100000000)
      ≤ 1000000000000000000000000 / pr.zEPHUSD :=
    sub128_le _ _ (Nat.mod_le _ _) hq
  have hprod : (x * pr.zEPHUSD / 1000000000000) * (1000000000000000000000000 / pr.zEPHUSD)
      ≤ x * 1000000000000 := by
    apply Nat.le_of_mul_le_mul_right _ hrate
    calc (x * pr.zEPHUSD / 1000000000000) * (1000000000000000000000000 / pr.zEPHUSD) * pr.zEPHUSD
        = (x * pr.zEPHUSD / 1000000000000)
            * ((1000000000000000000000000 / pr.zEPHUSD) * pr.zEPHUSD) := by ring
      _ ≤ (x * pr.zEPHUSD / 1000000000000) * 1000000000000000000000000 :=
          Nat.mul_le_mul_left _ (Nat.div_mul_le_self _ _)
      _ = ((x * pr.zEPHUSD / 1000000000000) * 1000000000000) * 1000000000000 := by ring
      _ ≤ (x * pr.zEPHUSD) * 1000000000000 :=
          Nat.mul_le_mul_right _ (Nat.div_mul_le_self _ _)
      _ = x * 1000000000000 * pr.zEPHUSD := by ring
  unfold to_uint64
  refine le_trans (Nat.mod_le _ _) ?_
  have hC : COIN = 1000000000000 := rfl
  rw [hC]
  apply Nat.div_le_of_le_mul
  rw [Nat.mul_comm 1000000000000 x]
  unfold mul128
  refine le_trans (Nat.mod_le _ _) ?_
  exact le_trans (Nat.mul_le_mul hs hR) hprod

/-- Witness for C9: five coins at a rate of three stable coins per ZEPH. -/
theorem get_zeph_amount_get_stable_amount_le_witness :
    ∃ y, get_zeph_amount (get_stable_amount 5000000000000 ⟨3000000000000, 0⟩)
      ⟨3000000000000, 0⟩ = some y ∧ y ≤ 5000000000000 :=
  get_zeph_amount_get_stable_amount_le 5000000000000 ⟨3000000000000, 0⟩ (by decide)

/-- C10. For every 64-bit amount `a` and pricing record with 64-bit rate,
`get_stable_amount a pr` is `floor(a * pr.zEPHUSD / COIN)` with `COIN = 10^12`: the product is
exact in 128 bits and the quotient is reduced modulo `2^64`. -/
theorem get_stable_amount_eq (a : Nat) (pr : pricing_record) (ha : a < 2 ^ 64)
    (hr : pr.zEPHUSD < 2 ^ 64) :
    get_stable_amount a pr = (a * pr.zEPHUSD / COIN) % 2 ^ 64 ∧ COIN = 10 ^ 12 := by
  refine ⟨?_, by decide⟩
  have h : a * pr.zEPHUSD < 2 ^ 128 := by
    have h1 : a * pr.zEPHUSD ≤ (2 ^ 64 - 1) * (2 ^ 64 - 1) :=
      Nat.mul_le_mul (by omega) (by omega)
    exact lt_of_le_of_lt h1 (by norm_num)
  simp only [get_stable_amount, to_uint64, mul128, Nat.mod_eq_of_lt h]
  rfl

/-- Witness for C10: five coins at a rate of three stable coins per ZEPH give fifteen. -/
theorem get_stable_amount_eq_witness :
    get_stable_amount 5000000000000 ⟨3000000000000, 0⟩ = 15000000000000 :=
  ((get_stable_amount_eq 5000000000000 ⟨3000000000000, 0⟩ (by decide) (by decide)).1).trans
    (by decide)

/-! ## C11: the inverse conversion truncates the rate first -/

/-- C11, counterexample. At the rate `10^11` the truncated inverse rate is `R = 10^13`; for the
amount `a = 2 * 10^18` the quotient `floor(a * R / COIN) = 2 * 10^19` does not fit in 64 bits, and
`get_zeph_amount` returns its low 64 bits instead. -/
theorem get_zeph_amount_quotient_too_large :
    get_zeph_amount 2000000000000000000 ⟨100000000000, 0⟩ = some 1553255926290448384
    ∧ 2000000000000000000 * (10 ^ 24 / 100000000000 - 10 ^ 24 / 100000000000 % 10 ^ 8) / COIN
      = 20000000000000000000 := by
  refine ⟨by decide, by decide⟩

/-- C11, amended. For every amount `a` and pricing record with rate `r > 0`, with
`q = floor(10^24 / r)` and `R = q - (q mod 10^8)` (the truncation to a multiple of `10^8` is
applied to the rate, before the multiplication by `a`): when the product `a * R` fits in 128 bits,
`get_zeph_amount a pr` is `floor(a * R / COIN)` reduced modulo `2^64`; in particular it is
`floor(a * R / COIN)` whenever this quotient fits in 64 bits. -/
theorem get_zeph_amount_eq (a : Nat) (pr : pricing_record) (hrate : 0 < pr.zEPHUSD) :
    (a * (10 ^ 24 / pr.zEPHUSD - 10 ^ 24 / pr.zEPHUSD % 10 ^ 8) < 2 ^ 128 →
      get_zeph_amount a pr
        = some (a * (10 ^ 24 / pr.zEPHUSD - 10 ^ 24 / pr.zEPHUSD % 10 ^ 8) / COIN % 2 ^ 64))
    ∧ (a * (10 ^ 24 / pr.zEPHUSD - 10 ^ 24 / pr.zEPHUSD % 10 ^ 8) / COIN < 2 ^ 64 →
      get_zeph_amount a pr
        = some (a * (10 ^ 24 / pr.zEPHUSD - 10 ^ 24 / pr.zEPHUSD % 10 ^ 8) / COIN))
    ∧ COIN * COIN = 10 ^ 24 := by
  have hq : 1000000000000000000000000 / pr.zEPHUSD < 2 ^ 128 :=
    lt_of_le_of_lt (Nat.div_le_self _ _) (by norm_num)
  have hR : sub128 (1000000000000000000000000 / pr.zEPHUSD)
      (1000000000000000000000000 / pr.zEPHUSD % 100000000)
      = 10 ^ 24 / pr.zEPHUSD - 10 ^ 24 / pr.zEPHUSD % 10 ^ 8 := by
    rw [sub128_eq _ _ (Nat.mod_le _ _) hq]
    norm_num
  have hwrap : a * (10 ^ 24 / pr.zEPHUSD - 10 ^ 24 / pr.zEPHUSD % 10 ^ 8) < 2 ^ 128 →
      get_zeph_amount a pr
        = some (a * (10 ^ 24 / pr.zEPHUSD - 10 ^ 24 / pr.zEPHUSD % 10 ^ 8) / COIN % 2 ^ 64) := by
    intro h
    rw [get_zeph_amount_of_pos a pr hrate, hR]
    unfold to_uint64 mul128
    rw [Nat.mod_eq_of_lt h]
  refine ⟨hwrap, ?_, by decide⟩
  intro h
  have hC : COIN = 1000000000000 := rfl
  have hprod : a * (10 ^ 24 / pr.zEPHUSD - 10 ^ 24 / pr.zEPHUSD % 10 ^ 8) < 2 ^ 128 := by
    have h1 := Nat.lt_mul_of_div_lt h (by decide : 0 < COIN)
    refine lt_trans h1 ?_
    rw [hC]
    norm_num
  rw [hwrap hprod, Nat.mod_eq_of_lt h]

/-- Witness for the amended C11: five stable coins at a rate of three stable coins per ZEPH. -/
theorem get_zeph_amount_eq_witness :
    get_zeph_amount 5000000000000 ⟨3000000000000, 0⟩ = some 1666500000000 :=
  ((get_zeph_amount_eq 5000000000000 ⟨3000000000000, 0⟩ (by decide)).2.1 (by decide)).trans
    (by decide)

/-! ## C12 and C13: the worst-case stable price -/

/-- The value of `get_stable_coin_price` when stable coins are outstanding. -/
theorem get_stable_coin_price_of_pos (circ_amounts : List (String × String)) (oracle_price : Nat)
    (zeph_reserve num_stable : Nat)
    (hzr : circ_lookup circ_amounts "ZEPH" = some zeph_reserve)
    (hns : circ_lookup circ_amounts "ZEPHUSD" = some num_stable) (hpos : 0 < num_stable) :
    get_stable_coin_price circ_amounts oracle_price
      = some (min oracle_price
          ((zeph_reserve * COIN / num_stable - zeph_reserve * COIN / num_stable % 10000)
            % 2 ^ 64)) := by
  have hzr64 := circ_lookup_lt circ_amounts "ZEPH" zeph_reserve hzr
  have hW : zeph_reserve * COIN / num_stable < 2 ^ 128 := by
    refine lt_of_le_of_lt (Nat.div_le_self _ _) ?_
    rw [← mul128_COIN_of_lt zeph_reserve hzr64]
    exact Nat.mod_lt _ (by norm_num)
  unfold get_stable_coin_price div128 to_uint64
  simp only [hzr, hns, Nat.pos_iff_ne_zero.mp hpos, if_false, mul128_COIN_of_lt zeph_reserve hzr64,
    sub128_eq _ _ (Nat.mod_le _ _) hW]

/-- C12. With `18446745` atomic units of ZEPH in reserve and one atomic unit of stable coin
outstanding, `W = floor(zeph_reserve * COIN / num_stable) = 18446745 * 10^12` is a multiple of
`10^4` that does not fit in 64 bits. The claimed result for the oracle price `10^12` is
`min(10^12, W) = 10^12`; the code casts `W` to `uint64_t` before taking the minimum and returns
`W mod 2^64 = 926290448384`. -/
theorem get_stable_coin_price_truncates_before_min :
    get_stable_coin_price [("ZEPH", "18446745"), ("ZEPHUSD", "1")] 1000000000000
      = some 926290448384
    ∧ min 1000000000000 (18446745 * COIN / 1 - 18446745 * COIN / 1 % 10 ^ 4) = 1000000000000 := by
  refine ⟨by decide, by decide⟩

/-- What `get_stable_coin_price` computes: the oracle price when no stable coin is outstanding,
else the minimum of the oracle price and the worst-case price reduced modulo `2^64`; the claimed
minimum is returned whenever the worst-case price fits in 64 bits. -/
theorem get_stable_coin_price_eq (circ_amounts : List (String × String)) (oracle_price : Nat)
    (zeph_reserve num_stable : Nat)
    (hzr : circ_lookup circ_amounts "ZEPH" = some zeph_reserve)
    (hns : circ_lookup circ_amounts "ZEPHUSD" = some num_stable) :
    (num_stable = 0 → get_stable_coin_price circ_amounts oracle_price = some oracle_price)
    ∧ (0 < num_stable → zeph_reserve * COIN / num_stable < 2 ^ 64 →
        get_stable_coin_price circ_amounts oracle_price
          = some (min oracle_price
              (zeph_reserve * COIN / num_stable - zeph_reserve * COIN / num_stable % 10 ^ 4))) := by
  constructor
  · intro h0
    unfold get_stable_coin_price
    simp only [hzr, hns, h0, if_true]
  · intro hpos hfit
    rw [get_stable_coin_price_of_pos circ_amounts oracle_price zeph_reserve num_stable hzr hns hpos]
    have h : zeph_reserve * COIN / num_stable - zeph_reserve * COIN / num_stable % 10000
        < 2 ^ 64 := lt_of_le_of_lt (Nat.sub_le _ _) hfit
    rw [Nat.mod_eq_of_lt h]
    norm_num

/-- C13. For every supply snapshot with stable coins outstanding and every oracle price,
`get_stable_coin_price` returns a price `p` with `p <= oracle_price` and
`p * num_stable <= zeph_reserve * COIN`. -/
theorem get_stable_coin_price_bounds (circ_amounts : List (String × String)) (oracle_price : Nat)
    (zeph_reserve num_stable : Nat)
    (hzr : circ_lookup circ_amounts "ZEPH" = some zeph_reserve)
    (hns : circ_lookup circ_amounts "ZEPHUSD" = some num_stable) (hpos : 0 < num_stable) :
    ∃ p, get_stable_coin_price circ_amounts oracle_price = some p
      ∧ p ≤ oracle_price ∧ p * num_stable ≤ zeph_reserve * COIN := by
  refine ⟨_, get_stable_coin_price_of_pos circ_amounts oracle_price zeph_reserve num_stable
    hzr hns hpos, min_le_left _ _, ?_⟩
  have h1 : min oracle_price
      ((zeph_reserve * COIN / num_stable - zeph_reserve * COIN / num_stable % 10000) % 2 ^ 64)
      ≤ zeph_reserve * COIN / num_stable :=
    le_trans (min_le_right _ _) (le_trans (Nat.mod_le _ _) (Nat.sub_le _ _))
  exact le_trans (Nat.mul_le_mul_right _ h1) (Nat.div_mul_le_self _ _)

/-- Witness for C13: `400` units in reserve and `100` stable units outstanding. -/
theorem get_stable_coin_price_bounds_witness :
    ∃ p, get_stable_coin_price [("ZEPH", "400"), ("ZEPHUSD", "100")] 7000000000000 = some p
      ∧ p ≤ 7000000000000 ∧ p * 100 ≤ 400 * COIN :=
  get_stable_coin_price_bounds [("ZEPH", "400"), ("ZEPHUSD", "100")] 7000000000000 400 100
    (by decide) (by decide) (by decide)
/-! ## C14 and C15: the reserve coin price -/

/-- C14. `get_reserve_coin_price` returns the floor price `500000000000` when no reserve coins
are outstanding, whatever the pricing record; it returns `0` when reserve coins are outstanding
and `pr.zEPHUSD = 0`; otherwise, when the liabilities `L = floor(num_stable * COIN / rate)` do not
exceed `zeph_reserve` and `P = floor((zeph_reserve - L) * COIN / num_reserve)` fits in 64 bits,
it returns `max(P - (P mod 10^4), 500000000000)`. -/
theorem get_reserve_coin_price_eq (circ_amounts : List (String × String)) (pr : pricing_record)
    (zeph_reserve num_reserve num_stable : Nat)
    (hzr : circ_lookup circ_amounts "ZEPH" = some zeph_reserve)
    (hnr : circ_lookup circ_amounts "ZEPHRSV" = some num_reserve)
    (hns : circ_lookup circ_amounts "ZEPHUSD" = some num_stable) :
    (num_reserve = 0 → get_reserve_coin_price circ_amounts pr = some 500000000000)
    ∧ (0 < num_reserve → pr.zEPHUSD = 0 → get_reserve_coin_price circ_amounts pr = some 0)
    ∧ (0 < num_reserve → 0 < pr.zEPHUSD → num_stable * COIN / pr.zEPHUSD ≤ zeph_reserve →
        (zeph_reserve - num_stable * COIN / pr.zEPHUSD) * COIN / num_reserve < 2 ^ 64 →
        get_reserve_coin_price circ_amounts pr
          = some (max
              ((zeph_reserve - num_stable * COIN / pr.zEPHUSD) * COIN / num_reserve
                - (zeph_reserve - num_stable * COIN / pr.zEPHUSD) * COIN / num_reserve % 10 ^ 4)
              500000000000)) := by
  have hzr64 := circ_lookup_lt circ_amounts "ZEPH" zeph_reserve hzr
  have hns64 := circ_lookup_lt circ_amounts "ZEPHUSD" num_stable hns
  have hmin : to_uint64 500000000000 = 500000000000 := by decide
  refine ⟨?_, ?_, ?_⟩
  · intro h0
    unfold get_reserve_coin_price
    simp only [hzr, hnr, hns, h0, if_true, hmin]
  · intro hpos h0
    unfold get_reserve_coin_price
    simp only [hzr, hnr, hns, Nat.pos_iff_ne_zero.mp hpos, h0, if_true, if_false]
  · intro hpos hrate hL hP
    have heq : sub128 zeph_reserve (num_stable * COIN / pr.zEPHUSD)
        = zeph_reserve - num_stable * COIN / pr.zEPHUSD :=
      sub128_eq _ _ hL (lt_trans hzr64 (by norm_num))
    have hmul : mul128 (zeph_reserve - num_stable * COIN / pr.zEPHUSD) COIN
        = (zeph_reserve - num_stable * COIN / pr.zEPHUSD) * COIN :=
      mul128_COIN_of_lt _ (lt_of_le_of_lt (Nat.sub_le _ _) hzr64)
    have hP128 : (zeph_reserve - num_stable * COIN / pr.zEPHUSD) * COIN / num_reserve < 2 ^ 128 :=
      lt_trans hP (by norm_num)
    have hfit : ((zeph_reserve - num_stable * COIN / pr.zEPHUSD) * COIN / num_reserve
        - (zeph_reserve - num_stable * COIN / pr.zEPHUSD) * COIN / num_reserve % 10000) % 2 ^ 64
        = (zeph_reserve - num_stable * COIN / pr.zEPHUSD) * COIN / num_reserve
        - (zeph_reserve - num_stable * COIN / pr.zEPHUSD) * COIN / num_reserve % 10000 :=
      Nat.mod_eq_of_lt (lt_of_le_of_lt (Nat.sub_le _ _) hP)
    unfold get_reserve_coin_price div128
    simp only [hzr, hnr, hns, Nat.pos_iff_ne_zero.mp hpos, Nat.pos_iff_ne_zero.mp hrate, if_false,
      mul128_COIN_of_lt num_stable hns64, heq, hmul, sub128_eq _ _ (Nat.mod_le _ _) hP128, hmin]
    unfold to_uint64
    rw [hfit]
    norm_num

/-- Witness for C14: two ZEPH in reserve, one stable coin at rate one, one reserve coin: the
equity of one ZEPH per reserve coin is above the floor. -/
theorem get_reserve_coin_price_eq_witness :
    get_reserve_coin_price
      [("ZEPH", "2000000000000"), ("ZEPHUSD", "1000000000000"), ("ZEPHRSV", "1000000000000")]
      ⟨1000000000000, 0⟩ = some 1000000000000 :=
  ((get_reserve_coin_price_eq
    [("ZEPH", "2000000000000"), ("ZEPHUSD", "1000000000000"), ("ZEPHRSV", "1000000000000")]
    ⟨1000000000000, 0⟩ 2000000000000 1000000000000 1000000000000
    (by decide) (by decide) (by decide)).2.2 (by decide) (by decide) (by decide) (by decide)).trans
    (by decide)

/-- C15. One ZEPH in reserve, two stable coins outstanding at rate one (liabilities of two ZEPH,
above the reserve) and one reserve coin: the subtraction `assets - liabilities` wraps around in
`uint128_t`, and `get_reserve_coin_price` returns `1359700234448231696` instead of the protocol
minimum `500000000000`. -/
theorem get_reserve_coin_price_negative_equity :
    get_reserve_coin_price
      [("ZEPH", "1000000000000"), ("ZEPHUSD", "2000000000000"), ("ZEPHRSV", "1000000000000")]
      ⟨1000000000000, 0⟩ = some 1359700234448231696
    ∧ 2000000000000 * COIN / 1000000000000 > 1000000000000
    ∧ (1359700234448231696 : Nat) ≠ 500000000000 := by
  refine ⟨by decide, by decide, by decide⟩

/-! ## C16: the reserve state -/

/-- C16, counterexample. One unit of ZEPH in reserve, two stable units outstanding at rate one
and one reserve unit: the liabilities `2` exceed the assets `1`, the `uint64_t` subtraction wraps
and `equity` is `2^64 - 1`, so `equity + liabilities` is not `assets`. This holds whatever the
library computes for the ratio. -/
theorem get_reserve_info_equity_wraps :
    (∀ (quot : Nat → Nat → ℚ) (to_double : ℚ → ℚ),
      (get_reserve_info quot to_double [("ZEPH", "1"), ("ZEPHUSD", "2"), ("ZEPHRSV", "1")]
          ⟨1000000000000, 0⟩).map (fun info => (info.assets, info.liabilities, info.equity))
        = some (1, 2, 18446744073709551615))
    ∧ 18446744073709551615 + 2 ≠ 1 := by
  refine ⟨fun quot to_double => ?_, by decide⟩
  have hzr : circ_lookup [("ZEPH", "1"), ("ZEPHUSD", "2"), ("ZEPHRSV", "1")] "ZEPH"
      = some 1 := by decide
  have hnr : circ_lookup [("ZEPH", "1"), ("ZEPHUSD", "2"), ("ZEPHRSV", "1")] "ZEPHRSV"
      = some 1 := by decide
  have hns : circ_lookup [("ZEPH", "1"), ("ZEPHUSD", "2"), ("ZEPHRSV", "1")] "ZEPHUSD"
      = some 2 := by decide
  have hdiv : div128 (mul128 2 COIN) 1000000000000 = some 2 := by decide
  have heq : wrap64 (((to_uint64 1 : Nat) : Int) - ((to_uint64 2 : Nat) : Int))
      = 18446744073709551615 := by decide
  unfold get_reserve_info
  rw [hzr, hnr, hns]
  simp only [one_ne_zero, or_self, if_false, hdiv, Option.map_some', heq]
  rfl

/-- C16, amended. `get_reserve_info` sets `assets`, `liabilities`, `equity` and `reserve_ratio`
all to zero when the reserve balance or the reserve-coin supply is zero; otherwise, for a positive
rate and liabilities `L = floor(num_stables * COIN / rate)` that do not exceed the reserve, it
sets `assets = zeph_reserve`, `liabilities = L`, `equity = assets - liabilities` (so that
`equity + liabilities = assets` without wrap-around) and `reserve_ratio` to the `double` that the
library converts the `cpp_dec_float_100` quotient of the assets by the liabilities to: infinite
when `L = 0`, and otherwise, for a quotient accurate to `10^-50` and a conversion accurate to
`2^-52`, a finite value within the relative error `2^-51` of `assets / liabilities`. -/
theorem get_reserve_info_eq (quot : Nat → Nat → ℚ) (to_double : ℚ → ℚ)
    (circ_amounts : List (String × String)) (pr : pricing_record)
    (zeph_reserve num_reserves num_stables : Nat)
    (hzr : circ_lookup circ_amounts "ZEPH" = some zeph_reserve)
    (hnr : circ_lookup circ_amounts "ZEPHRSV" = some num_reserves)
    (hns : circ_lookup circ_amounts "ZEPHUSD" = some num_stables) :
    (num_reserves = 0 ∨ zeph_reserve = 0 →
      get_reserve_info quot to_double circ_amounts pr
        = some ⟨zeph_reserve, num_stables, num_reserves, 0, 0, 0, dec_float.finite 0⟩)
    ∧ (0 < num_reserves → 0 < zeph_reserve → 0 < pr.zEPHUSD →
        num_stables * COIN / pr.zEPHUSD ≤ zeph_reserve →
        get_reserve_info quot to_double circ_amounts pr
          = some ⟨zeph_reserve, num_stables, num_reserves, zeph_reserve,
              num_stables * COIN / pr.zEPHUSD,
              zeph_reserve - num_stables * COIN / pr.zEPHUSD,
              convert_to_double to_double
                (dec_div quot zeph_reserve (num_stables * COIN / pr.zEPHUSD))⟩
        ∧ (zeph_reserve - num_stables * COIN / pr.zEPHUSD) + num_stables * COIN / pr.zEPHUSD
          = zeph_reserve
        ∧ (num_stables * COIN / pr.zEPHUSD = 0 →
            convert_to_double to_double
                (dec_div quot zeph_reserve (num_stables * COIN / pr.zEPHUSD))
              = dec_float.inf)
        ∧ (0 < num_stables * COIN / pr.zEPHUSD → quotient_accurate quot →
            double_accurate to_double →
            ∃ r : ℚ, convert_to_double to_double
                (dec_div quot zeph_reserve (num_stables * COIN / pr.zEPHUSD))
              = dec_float.finite r
              ∧ |r - (zeph_reserve : ℚ) / ((num_stables * COIN / pr.zEPHUSD : Nat) : ℚ)|
                  * 2 ^ 51
                ≤ (zeph_reserve : ℚ) / ((num_stables * COIN / pr.zEPHUSD : Nat) : ℚ))) := by
  have hzr64 := circ_lookup_lt circ_amounts "ZEPH" zeph_reserve hzr
  have hns64 := circ_lookup_lt circ_amounts "ZEPHUSD" num_stables hns
  constructor
  · intro h0
    unfold get_reserve_info
    simp only [hzr, hnr, hns, h0, if_true]
  · intro hnr0 hzr0 hrate hL
    have hL64 : num_stables * COIN / pr.zEPHUSD < 2 ^ 64 := lt_of_le_of_lt hL hzr64
    refine ⟨?_, Nat.sub_add_cancel hL, ?_, ?_⟩
    · have hsub : ∀ L : Nat, L ≤ zeph_reserve →
          wrap64 ((zeph_reserve : Int) - (L : Int)) = zeph_reserve - L := by
        intro L hLe
        rw [wrap64_of_range _ (by omega) (by omega)]
        omega
      have heq := hsub _ hL
      unfold get_reserve_info div128 to_uint64
      simp only [hzr, hnr, hns, Nat.pos_iff_ne_zero.mp hnr0, Nat.pos_iff_ne_zero.mp hzr0,
        Nat.pos_iff_ne_zero.mp hrate, or_self, if_false, mul128_COIN_of_lt num_stables hns64,
        Nat.mod_eq_of_lt hzr64, Nat.mod_eq_of_lt hL64, heq]
    · intro h0
      simp [h0, dec_div, Nat.pos_iff_ne_zero.mp hzr0, convert_to_double]
    · intro hLpos hq hd
      refine ⟨to_double (quot zeph_reserve (num_stables * COIN / pr.zEPHUSD)), ?_, ?_⟩
      · simp [dec_div, Nat.pos_iff_ne_zero.mp hLpos, convert_to_double]
      · have hacc := hq zeph_reserve (num_stables * COIN / pr.zEPHUSD) hLpos
          (lt_trans hzr64 (by norm_num)) (lt_trans hL64 (by norm_num))
        generalize num_stables * COIN / pr.zEPHUSD = l at hL hL64 hLpos hacc ⊢
        generalize quot zeph_reserve l = q at hacc ⊢
        have hlq : (0 : ℚ) < (l : ℚ) := by exact_mod_cast hLpos
        have hl1 : (1 : ℚ) ≤ (l : ℚ) := by exact_mod_cast hLpos
        have hl64q : (l : ℚ) < 2 ^ 64 := by exact_mod_cast hL64
        have hz1 : (1 : ℚ) ≤ (zeph_reserve : ℚ) := by exact_mod_cast hzr0
        have hz64 : (zeph_reserve : ℚ) < 2 ^ 64 := by exact_mod_cast hzr64
        -- the exact ratio lies between 2^-64 and 2^64
        have hxlo : (1 : ℚ) / 2 ^ 64 ≤ (zeph_reserve : ℚ) / (l : ℚ) := by
          rw [div_le_div_iff₀ (by positivity) hlq]
          nlinarith
        have hxhi : (zeph_reserve : ℚ) / (l : ℚ) ≤ 2 ^ 64 := by
          rw [div_le_iff₀ hlq]
          nlinarith
        have he1 : (q - (zeph_reserve : ℚ) / (l : ℚ)) * 10 ^ 50
            ≤ (zeph_reserve : ℚ) / (l : ℚ) :=
          le_trans (mul_le_mul_of_nonneg_right (le_abs_self _) (by positivity)) hacc
        have he2 : -(q - (zeph_reserve : ℚ) / (l : ℚ)) * 10 ^ 50
            ≤ (zeph_reserve : ℚ) / (l : ℚ) :=
          le_trans (mul_le_mul_of_nonneg_right (neg_le_abs _) (by positivity)) hacc
        have hqlo : (1 : ℚ) / 2 ^ 129 ≤ q := by
          have : (1 : ℚ) / 2 ^ 129 ≤ 1 / 2 ^ 64 / 2 := by norm_num
          linarith
        have hqhi : q ≤ 2 ^ 65 := by
          have : (2 : ℚ) ^ 65 = 2 * 2 ^ 64 := by norm_num
          linarith
        have hdacc := hd q hqlo hqhi
        have htri := abs_sub_le (to_double q) q ((zeph_reserve : ℚ) / (l : ℚ))
        have h52 : (2 : ℚ) ^ 52 = 2 * 2 ^ 51 := by norm_num
        have h51 : (0 : ℚ) < 2 ^ 51 := by positivity
        have hq51 : |q - (zeph_reserve : ℚ) / (l : ℚ)| * 2 ^ 51 * 4
            ≤ (zeph_reserve : ℚ) / (l : ℚ) := by
          have : |q - (zeph_reserve : ℚ) / (l : ℚ)| * (2 ^ 51 * 4)
              ≤ |q - (zeph_reserve : ℚ) / (l : ℚ)| * 10 ^ 50 :=
            mul_le_mul_of_nonneg_left (by norm_num) (abs_nonneg _)
          linarith
        have hqx : q ≤ (zeph_reserve : ℚ) / (l : ℚ) * (1 + 1 / 10 ^ 50) := by
          linarith
        have h10 : (0 : ℚ) < 1 / 10 ^ 50 := by positivity
        have h10' : (1 : ℚ) / 10 ^ 50 ≤ 1 / 4 := by norm_num
        have hxn : (0 : ℚ) ≤ (zeph_reserve : ℚ) / (l : ℚ) := by positivity
        have hqx' : q ≤ (zeph_reserve : ℚ) / (l : ℚ) * (5 / 4) := by
          have := mul_le_mul_of_nonneg_left h10' hxn
          linarith
        have hmul : (|to_double q - q| + |q - (zeph_reserve : ℚ) / (l : ℚ)|) * 2 ^ 51
            ≤ (zeph_reserve : ℚ) / (l : ℚ) := by
          linarith
        calc |to_double q - (zeph_reserve : ℚ) / (l : ℚ)| * 2 ^ 51
            ≤ (|to_double q - q| + |q - (zeph_reserve : ℚ) / (l : ℚ)|) * 2 ^ 51 :=
              mul_le_mul_of_nonneg_right htri (le_of_lt h51)
          _ ≤ (zeph_reserve : ℚ) / (l : ℚ) := hmul

/-- The identity is an accurate conversion. -/
theorem double_accurate_id : double_accurate (fun q => q) := by
  intro q hq _
  simp only [sub_self, abs_zero, zero_mul]
  have : (0 : ℚ) < 1 / 2 ^ 129 := by positivity
  linarith

/-- Witness for the amended C16: `400` units in reserve, `100` stable units at rate one and `5`
reserve units; the ratio is within `2^-51` of `400 / 100`. -/
theorem get_reserve_info_eq_witness :
    get_reserve_info truncated_quotient (fun q => q)
        [("ZEPH", "400"), ("ZEPHUSD", "100"), ("ZEPHRSV", "5")] ⟨1000000000000, 0⟩
        = some ⟨400, 100, 5, 400, 100 * COIN / 1000000000000,
            400 - 100 * COIN / 1000000000000,
            convert_to_double (fun q => q)
              (dec_div truncated_quotient 400 (100 * COIN / 1000000000000))⟩
    ∧ (400 - 100 * COIN / 1000000000000) + 100 * COIN / 1000000000000 = 400
    ∧ ∃ r : ℚ, convert_to_double (fun q => q)
          (dec_div truncated_quotient 400 (100 * COIN / 1000000000000)) = dec_float.finite r
        ∧ |r - ((400 : Nat) : ℚ) / ((100 * COIN / 1000000000000 : Nat) : ℚ)| * 2 ^ 51
          ≤ ((400 : Nat) : ℚ) / ((100 * COIN / 1000000000000 : Nat) : ℚ) :=
  have h := (get_reserve_info_eq truncated_quotient (fun q => q)
    [("ZEPH", "400"), ("ZEPHUSD", "100"), ("ZEPHRSV", "5")]
    ⟨1000000000000, 0⟩ 400 5 100 (by decide) (by decide) (by decide)).2
    (by decide) (by decide) (by decide) (by decide)
  ⟨h.1, h.2.1, h.2.2.2 (by decide) truncated_quotient_accurate double_accurate_id⟩

/-! ## The resolver, step by step -/

theorem ascending_nodup (l : List String) (h : ascending l) : l.Nodup :=
  List.Pairwise.imp (fun hab => string_less_ne hab) h

/-- An ascending list with the members of `l` has as many elements as `l` has distinct ones. -/
theorem ascending_length_eq_dedup (r l : List String) (hr : ascending r)
    (hmem : ∀ x, x ∈ r ↔ x ∈ l) : r.length = l.dedup.length := by
  apply List.Perm.length_eq
  rw [List.perm_ext_iff_of_nodup (ascending_nodup r hr) (List.nodup_dedup l)]
  intro x
  rw [hmem x, List.mem_dedup]

/-- The set the loop over the inputs has built when it completes: ascending, with the asset types
of the inputs added to the initial set. -/
theorem source_asset_types_of_eq_some (is_miner_tx : Bool) :
    ∀ (vin : List txin_v) (acc r : List String),
      source_asset_types is_miner_tx vin acc = some r → ascending acc →
      ascending r ∧ ∀ x, x ∈ r ↔ x ∈ acc ∨ x ∈ vin.filterMap input_asset_type
  | [], acc, r, h, hacc => by
    have e : acc = r := Option.some.inj h
    subst e
    exact ⟨hacc, by simp⟩
  | txin_v.txin_gen _ :: rest, acc, r, h, hacc => by
    unfold source_asset_types at h
    cases is_miner_tx with
    | false => simp at h
    | true =>
      simp only [Bool.not_true, Bool.false_eq_true, if_false] at h
      obtain ⟨hasc, hmem⟩ := source_asset_types_of_eq_some true rest _ r h
        (ascending_set_insert "ZEPH" acc hacc)
      refine ⟨hasc, fun x => ?_⟩
      rw [hmem x, mem_set_insert]
      simp only [List.filterMap_cons, input_asset_type, List.mem_cons]
      tauto
  | txin_v.txin_zephyr_key _ a _ _ :: rest, acc, r, h, hacc => by
    unfold source_asset_types at h
    obtain ⟨hasc, hmem⟩ := source_asset_types_of_eq_some is_miner_tx rest _ r h
      (ascending_set_insert a acc hacc)
    refine ⟨hasc, fun x => ?_⟩
    rw [hmem x, mem_set_insert]
    simp only [List.filterMap_cons, input_asset_type, List.mem_cons]
    tauto
  | txin_v.txin_to_script :: _, _, _, h, _ => by simp [source_asset_types] at h
  | txin_v.txin_to_scripthash :: _, _, _, h, _ => by simp [source_asset_types] at h

/-- The loop over the inputs returns `false` as soon as the transaction holds an input that is
neither a generation input nor a key input, or a generation input outside a miner transaction. -/
theorem source_asset_types_eq_none (is_miner_tx : Bool) :
    ∀ (vin : List txin_v) (acc : List String),
      (∃ i ∈ vin, input_asset_type i = none ∨ (is_miner_tx = false ∧ ∃ h, i = txin_v.txin_gen h)) →
      source_asset_types is_miner_tx vin acc = none
  | [], _, h => by
    obtain ⟨i, hi, _⟩ := h
    exact absurd hi (List.not_mem_nil _)
  | txin_v.txin_to_script :: _, _, _ => by simp [source_asset_types]
  | txin_v.txin_to_scripthash :: _, _, _ => by simp [source_asset_types]
  | txin_v.txin_gen g :: rest, acc, h => by
    unfold source_asset_types
    cases is_miner_tx with
    | false => simp
    | true =>
      simp only [Bool.not_true, Bool.false_eq_true, if_false]
      apply source_asset_types_eq_none true rest
      obtain ⟨i, hi, hbad⟩ := h
      rcases List.mem_cons.mp hi with rfl | hi
      · rcases hbad with hbad | hbad
        · simp [input_asset_type] at hbad
        · simp at hbad
      · exact ⟨i, hi, hbad⟩
  | txin_v.txin_zephyr_key am a ko ki :: rest, acc, h => by
    unfold source_asset_types
    apply source_asset_types_eq_none is_miner_tx rest
    obtain ⟨i, hi, hbad⟩ := h
    rcases List.mem_cons.mp hi with rfl | hi
    · rcases hbad with hbad | hbad
      · simp [input_asset_type] at hbad
      · obtain ⟨_, h', hh⟩ := hbad
        exact txin_v.noConfusion hh
    · exact ⟨i, hi, hbad⟩

/-- The set the loop over the outputs has built when it completes. -/
theorem destination_asset_types_of_eq_some {Out : Type} (output_asset : Out → Option String) :
    ∀ (vout : List Out) (acc r : List String),
      destination_asset_types output_asset vout acc = some r → ascending acc →
      ascending r ∧ ∀ x, x ∈ r ↔ x ∈ acc ∨ x ∈ vout.filterMap output_asset
  | [], acc, r, h, hacc => by
    have e : acc = r := Option.some.inj h
    subst e
    exact ⟨hacc, by simp⟩
  | o :: rest, acc, r, h, hacc => by
    unfold destination_asset_types at h
    cases ho : output_asset o with
    | none => simp [ho] at h
    | some a =>
      simp only [ho] at h
      obtain ⟨hasc, hmem⟩ := destination_asset_types_of_eq_some output_asset rest _ r h
        (ascending_set_insert a acc hacc)
      refine ⟨hasc, fun x => ?_⟩
      rw [hmem x, mem_set_insert]
      simp only [List.filterMap_cons, ho, List.mem_cons]
      tauto

/-- Success of `get_tx_asset_types`, read off its four steps. -/
theorem get_tx_asset_types_eq_some_iff {Out : Type} (output_asset : Out → Option String)
    (tx : transaction Out) (is_miner_tx : Bool) (source destination : String) :
    get_tx_asset_types output_asset tx is_miner_tx = some (source, destination)
      ↔ ∃ sat dat, source_asset_types is_miner_tx tx.vin [] = some sat
          ∧ resolve_source sat = some source
          ∧ destination_asset_types output_asset tx.vout [] = some dat
          ∧ resolve_destination is_miner_tx sat source dat = some destination
          ∧ source ∈ ASSET_TYPES ∧ destination ∈ ASSET_TYPES := by
  constructor
  · intro h
    unfold get_tx_asset_types at h
    split at h
    · exact Option.noConfusion h
    · rename_i sat h1
      split at h
      · exact Option.noConfusion h
      · rename_i src h2
        split at h
        · exact Option.noConfusion h
        · rename_i dat h3
          split at h
          · exact Option.noConfusion h
          · rename_i dst h4
            split_ifs at h with hs hd
            have e := Option.some.inj h
            have e1 : src = source := congrArg Prod.fst e
            have e2 : dst = destination := congrArg Prod.snd e
            subst e1
            subst e2
            exact ⟨sat, dat, h1, h2, h3, h4, hs, hd⟩
  · rintro ⟨sat, dat, h1, h2, h3, h4, hs, hd⟩
    simp [get_tx_asset_types, h1, h2, h3, h4, hs, hd]

/-- The source is resolved only from one or two distinct input asset types. -/
theorem resolve_source_length (sat : List String) (source : String)
    (h : resolve_source sat = some source) :
    (sat.length = 1 ∧ sat = [source])
    ∨ (sat.length = 2 ∧ source = "ZEPHUSD"
        ∧ (sat = ["ZEPH", "ZEPHUSD"] ∨ sat = ["ZEPHUSD", "ZEPH"])) := by
  unfold resolve_source at h
  match sat, h with
  | [], h => simp at h
  | [a], h =>
    simp at h
    subst h
    exact Or.inl ⟨rfl, rfl⟩
  | [a, b], h =>
    simp only [List.length_cons, List.length_nil, if_true, List.getD_cons_zero,
      List.getD_cons_succ] at h
    split_ifs at h with hc
    have e := Option.some.inj h
    refine Or.inr ⟨rfl, e.symm, ?_⟩
    rcases hc with ⟨rfl, rfl⟩ | ⟨rfl, rfl⟩
    · exact Or.inl rfl
    · exact Or.inr rfl
  | _ :: _ :: _ :: _, h => simp at h

/-! ## C17: two input asset types -/

/-- C17. For every transaction whose inputs carry exactly two distinct asset types,
`get_tx_asset_types` rejects unless the two types are ZEPH and ZEPHUSD, and whenever it succeeds
on such a transaction the resolved source is ZEPHUSD; a transaction with inputs of types ZEPH and
ZEPHUSD and outputs of types ZEPH and ZEPHUSD succeeds; and every transaction whose inputs carry
zero, or three or more, distinct asset types is rejected. -/
theorem get_tx_asset_types_two_input_types {Out : Type} (output_asset : Out → Option String)
    (tx : transaction Out) (is_miner_tx : Bool) :
    ((tx.vin.filterMap input_asset_type).dedup.length = 2 →
      ((¬ ∀ x, x ∈ tx.vin.filterMap input_asset_type ↔ x = "ZEPH" ∨ x = "ZEPHUSD") →
        get_tx_asset_types output_asset tx is_miner_tx = none)
      ∧ ∀ source destination,
          get_tx_asset_types output_asset tx is_miner_tx = some (source, destination) →
          source = "ZEPHUSD")
    ∧ ((tx.vin.filterMap input_asset_type).dedup.length = 0
        ∨ 3 ≤ (tx.vin.filterMap input_asset_type).dedup.length →
      get_tx_asset_types output_asset tx is_miner_tx = none)
    ∧ get_tx_asset_types some
        ⟨[txin_v.txin_zephyr_key 5 "ZEPH" [] [1], txin_v.txin_zephyr_key 7 "ZEPHUSD" [] [2]],
          ["ZEPH", "ZEPHUSD"]⟩ false = some ("ZEPHUSD", "ZEPH") := by
  -- what a successful call says about the input asset types
  have key : ∀ source destination,
      get_tx_asset_types output_asset tx is_miner_tx = some (source, destination) →
      ((tx.vin.filterMap input_asset_type).dedup.length = 1)
      ∨ ((tx.vin.filterMap input_asset_type).dedup.length = 2 ∧ source = "ZEPHUSD"
          ∧ ∀ x, x ∈ tx.vin.filterMap input_asset_type ↔ x = "ZEPH" ∨ x = "ZEPHUSD") := by
    intro source destination h
    obtain ⟨sat, dat, h1, h2, _, _, _, _⟩ :=
      (get_tx_asset_types_eq_some_iff output_asset tx is_miner_tx source destination).mp h
    obtain ⟨hasc, hmem⟩ := source_asset_types_of_eq_some is_miner_tx tx.vin [] sat h1
      List.Pairwise.nil
    have hmem' : ∀ x, x ∈ sat ↔ x ∈ tx.vin.filterMap input_asset_type := by
      intro x
      rw [hmem x]
      simp
    have hlen := ascending_length_eq_dedup sat _ hasc hmem'
    rcases resolve_source_length sat source h2 with ⟨hl, _⟩ | ⟨hl, hsrc, hsat⟩
    · exact Or.inl (hlen ▸ hl)
    · refine Or.inr ⟨hlen ▸ hl, hsrc, fun x => ?_⟩
      rw [← hmem' x]
      rcases hsat with rfl | rfl
      · simp
      · simp only [List.mem_cons, List.mem_nil_iff, or_false]
        exact Or.comm
  have none_of : (∀ source destination,
      get_tx_asset_types output_asset tx is_miner_tx ≠ some (source, destination)) →
      get_tx_asset_types output_asset tx is_miner_tx = none := by
    intro h
    cases hg : get_tx_asset_types output_asset tx is_miner_tx with
    | none => rfl
    | some p => exact absurd hg (h p.1 p.2)
  refine ⟨fun h2 => ⟨fun hne => ?_, fun source destination h => ?_⟩, fun h03 => ?_, by decide⟩
  · apply none_of
    intro source destination h
    rcases key source destination h with h1 | ⟨_, _, hall⟩
    · omega
    · exact hne hall
  · rcases key source destination h with h1 | ⟨_, hsrc, _⟩
    · omega
    · exact hsrc
  · apply none_of
    intro source destination h
    rcases key source destination h with h1 | ⟨h2, _, _⟩ <;> omega
/-! ## C18: a single output asset type -/

/-- The loop over the outputs when every output carries the asset type `d`. -/
theorem destination_asset_types_single {Out : Type} (output_asset : Out → Option String)
    (vout : List Out) (d : String) (hne : vout ≠ [])
    (hout : ∀ o ∈ vout, output_asset o = some d) :
    destination_asset_types output_asset vout [] = some [d] := by
  obtain ⟨r, hr, hasc, hmem⟩ := destination_asset_types_spec output_asset vout []
    (fun o ho => ⟨d, hout o ho⟩) List.Pairwise.nil
  have hmem' : ∀ x, x ∈ r ↔ x = d ∨ x = d := by
    intro x
    rw [hmem x]
    constructor
    · rintro (h | ⟨o, ho, h⟩)
      · simp at h
      · rw [hout o ho] at h
        exact Or.inl (Option.some.inj h).symm
    · rintro (rfl | rfl)
      all_goals
        cases vout with
        | nil => exact absurd rfl hne
        | cons o rest => exact Or.inr ⟨o, by simp, hout o (by simp)⟩
  rcases ascending_pair_cases d d r hasc hmem' with ⟨_, rfl⟩ | ⟨hdd, _⟩ | ⟨hdd, _⟩
  · exact hr
  · exact absurd rfl hdd
  · exact absurd rfl hdd

/-- C18, counterexample. Inputs of types ZEPH and ZEPHUSD resolve to the composite source
ZEPHUSD; with all outputs of type ZEPHUSD, equal to that source and supported, the transaction is
rejected all the same. -/
theorem get_tx_asset_types_composite_single_output :
    get_tx_asset_types some
        ⟨[txin_v.txin_zephyr_key 5 "ZEPH" [] [1], txin_v.txin_zephyr_key 7 "ZEPHUSD" [] [2]],
          ["ZEPHUSD"]⟩ false = none
    ∧ source_asset_types false
        [txin_v.txin_zephyr_key 5 "ZEPH" [] [1], txin_v.txin_zephyr_key 7 "ZEPHUSD" [] [2]] []
      = some ["ZEPH", "ZEPHUSD"]
    ∧ resolve_source ["ZEPH", "ZEPHUSD"] = some "ZEPHUSD"
    ∧ "ZEPHUSD" ∈ ASSET_TYPES := by
  refine ⟨by decide, by decide, by decide, by decide⟩

/-- C18, amended. For a transaction resolved with `is_miner_tx = false` whose inputs resolve to
`source` and whose outputs all carry the single asset type `d`: if `d` equals the source, the
source was resolved from a single input asset type and `d` is supported, `get_tx_asset_types`
succeeds with destination equal to the source; if the source is the composite one, resolved from
two input asset types, it rejects; and if `d` differs from the source it rejects. -/
theorem get_tx_asset_types_single_output_type {Out : Type} (output_asset : Out → Option String)
    (tx : transaction Out) (sat : List String) (source d : String)
    (hsat : source_asset_types false tx.vin [] = some sat)
    (hsrc : resolve_source sat = some source)
    (hne : tx.vout ≠ []) (hout : ∀ o ∈ tx.vout, output_asset o = some d) :
    (d = source → sat.length = 1 → d ∈ ASSET_TYPES →
      get_tx_asset_types output_asset tx false = some (source, source))
    ∧ (sat.length = 2 → get_tx_asset_types output_asset tx false = none)
    ∧ (d ≠ source → get_tx_asset_types output_asset tx false = none) := by
  have hdat := destination_asset_types_single output_asset tx.vout d hne hout
  refine ⟨?_, ?_, ?_⟩
  · intro hd hl hsup
    subst hd
    unfold get_tx_asset_types
    simp [hsat, hsrc, hdat, resolve_destination, hl, hsup]
  · intro hl
    unfold get_tx_asset_types
    simp [hsat, hsrc, hdat, resolve_destination, hl]
  · intro hd
    unfold get_tx_asset_types
    simp [hsat, hsrc, hdat, resolve_destination, hd]

/-- Witness for the amended C18: a plain transfer of the stable coin. -/
theorem get_tx_asset_types_single_output_type_witness :
    get_tx_asset_types some
        ⟨[txin_v.txin_zephyr_key 5 "ZEPHUSD" [] [1]], ["ZEPHUSD", "ZEPHUSD"]⟩ false
      = some ("ZEPHUSD", "ZEPHUSD") :=
  (get_tx_asset_types_single_output_type some
    ⟨[txin_v.txin_zephyr_key 5 "ZEPHUSD" [] [1]], ["ZEPHUSD", "ZEPHUSD"]⟩
    ["ZEPHUSD"] "ZEPHUSD" "ZEPHUSD" (by decide) (by decide) (by decide)
    (by
      intro o ho
      rcases List.mem_cons.mp ho with rfl | ho
      · rfl
      · rcases List.mem_cons.mp ho with rfl | ho
        · rfl
        · exact absurd ho (List.not_mem_nil _))).1 rfl (by decide) (by decide)

/-! ## C19: two output asset types -/

/-- The loop over the outputs when the outputs carry exactly the two asset types `a` and `b`. -/
theorem destination_asset_types_pair {Out : Type} (output_asset : Out → Option String)
    (vout : List Out) (a b : String) (hab : a ≠ b)
    (hout : ∀ o ∈ vout, output_asset o = some a ∨ output_asset o = some b)
    (hoa : ∃ o ∈ vout, output_asset o = some a) (hob : ∃ o ∈ vout, output_asset o = some b) :
    destination_asset_types output_asset vout [] = some [a, b]
    ∨ destination_asset_types output_asset vout [] = some [b, a] := by
  obtain ⟨r, hr, hasc, hmem⟩ := destination_asset_types_spec output_asset vout []
    (fun o ho => by rcases hout o ho with h | h <;> exact ⟨_, h⟩) List.Pairwise.nil
  have hmem' : ∀ x, x ∈ r ↔ x = a ∨ x = b := by
    intro x
    rw [hmem x]
    constructor
    · rintro (h | ⟨o, ho, h⟩)
      · simp at h
      · rcases hout o ho with h' | h' <;> rw [h'] at h
        · exact Or.inl (Option.some.inj h).symm
        · exact Or.inr (Option.some.inj h).symm
    · rintro (rfl | rfl)
      · exact Or.inr hoa
      · exact Or.inr hob
  rcases ascending_pair_cases a b r hasc hmem' with ⟨h, _⟩ | ⟨_, rfl⟩ | ⟨_, rfl⟩
  · exact absurd h hab
  · exact Or.inl hr
  · exact Or.inr hr

/-- C19, counterexample. With the composite source ZEPHUSD (inputs of types ZEPH and ZEPHUSD) and
outputs of types ZEPHUSD and ZEPHRSV, exactly one output type equals the source and the other is
supported, yet the transaction is rejected. With inputs of the unsupported type XYZ and outputs of
types XYZ and ZEPH, exactly one output type equals the resolved source XYZ and the other is
supported, and the transaction is rejected as well. -/
theorem get_tx_asset_types_two_outputs_rejected :
    get_tx_asset_types some
        ⟨[txin_v.txin_zephyr_key 5 "ZEPH" [] [1], txin_v.txin_zephyr_key 7 "ZEPHUSD" [] [2]],
          ["ZEPHUSD", "ZEPHRSV"]⟩ false = none
    ∧ resolve_source ["ZEPH", "ZEPHUSD"] = some "ZEPHUSD"
    ∧ "ZEPHRSV" ∈ ASSET_TYPES
    ∧ get_tx_asset_types some ⟨[txin_v.txin_zephyr_key 5 "XYZ" [] [1]], ["XYZ", "ZEPH"]⟩ false
      = none
    ∧ resolve_source ["XYZ"] = some "XYZ"
    ∧ "ZEPH" ∈ ASSET_TYPES := by
  refine ⟨by decide, by decide, by decide, by decide, by decide, by decide⟩

/-- C19, amended. For a transaction resolved with `is_miner_tx = false` whose inputs resolve to
`source`: when the outputs carry exactly two distinct asset types `a` and `b`, if `a` equals the
source, `b` and the source are supported assets and, for the composite source, `b` is ZEPH, then
`get_tx_asset_types` succeeds with destination `b`; if neither `a` nor `b` equals the source it
rejects; and with three or more distinct output asset types it rejects. -/
theorem get_tx_asset_types_two_output_types {Out : Type} (output_asset : Out → Option String)
    (tx : transaction Out) (sat : List String) (source : String)
    (hsat : source_asset_types false tx.vin [] = some sat)
    (hsrc : resolve_source sat = some source) :
    (∀ a b, a ≠ b → (∀ o ∈ tx.vout, output_asset o = some a ∨ output_asset o = some b) →
      (∃ o ∈ tx.vout, output_asset o = some a) → (∃ o ∈ tx.vout, output_asset o = some b) →
      (a = source → b ∈ ASSET_TYPES → source ∈ ASSET_TYPES → (sat.length = 2 → b = "ZEPH") →
        get_tx_asset_types output_asset tx false = some (source, b))
      ∧ (a ≠ source → b ≠ source → get_tx_asset_types output_asset tx false = none))
    ∧ (3 ≤ (tx.vout.filterMap output_asset).dedup.length →
        get_tx_asset_types output_asset tx false = none) := by
  have hlen := resolve_source_length sat source hsrc
  constructor
  · intro a b hab hout hoa hob
    have hdat := destination_asset_types_pair output_asset tx.vout a b hab hout hoa hob
    constructor
    · intro ha hb hs hcomp
      subst ha
      unfold get_tx_asset_types
      rcases hlen with ⟨hl, _⟩ | ⟨hl, hsu, _⟩
      · rcases hdat with hdat | hdat
        · simp [hsat, hsrc, hdat, resolve_destination, hl, hs, hb]
        · simp [hsat, hsrc, hdat, resolve_destination, hl, hs, hb, Ne.symm hab]
      · have hbz := hcomp hl
        subst hbz
        subst hsu
        rcases hdat with hdat | hdat
        · simp [hsat, hsrc, hdat, resolve_destination, hl, hs, hb]
        · simp [hsat, hsrc, hdat, resolve_destination, hl, hs, hb]
    · intro ha hb
      unfold get_tx_asset_types
      rcases hdat with hdat | hdat
      · simp [hsat, hsrc, hdat, resolve_destination, ha, hb]
      · simp [hsat, hsrc, hdat, resolve_destination, ha, hb]
  · intro h3
    unfold get_tx_asset_types
    simp only [hsat, hsrc]
    cases hd : destination_asset_types output_asset tx.vout [] with
    | none => rfl
    | some dat =>
      obtain ⟨hasc, hmem⟩ := destination_asset_types_of_eq_some output_asset tx.vout [] dat hd
        List.Pairwise.nil
      have hmem' : ∀ x, x ∈ dat ↔ x ∈ tx.vout.filterMap output_asset := by
        intro x
        rw [hmem x]
        simp
      have hl := ascending_length_eq_dedup dat _ hasc hmem'
      have h0 : dat.length ≠ 0 := by omega
      have h2 : dat.length > 2 := by omega
      simp [resolve_destination, h0, h2]

/-- Witness for the amended C19: stable coins spent, outputs of change and of ZEPH. -/
theorem get_tx_asset_types_two_output_types_witness :
    get_tx_asset_types some
        ⟨[txin_v.txin_zephyr_key 5 "ZEPHUSD" [] [1]], ["ZEPH", "ZEPHUSD"]⟩ false
      = some ("ZEPHUSD", "ZEPH") :=
  ((get_tx_asset_types_two_output_types some
    ⟨[txin_v.txin_zephyr_key 5 "ZEPHUSD" [] [1]], ["ZEPH", "ZEPHUSD"]⟩
    ["ZEPHUSD"] "ZEPHUSD" (by decide) (by decide)).1 "ZEPHUSD" "ZEPH" (by decide)
    (by
      intro o ho
      rcases List.mem_cons.mp ho with rfl | ho
      · exact Or.inr rfl
      · rcases List.mem_cons.mp ho with rfl | ho
        · exact Or.inl rfl
        · exact absurd ho (List.not_mem_nil _))
    ⟨"ZEPHUSD", by decide, rfl⟩ ⟨"ZEPH", by decide, rfl⟩).1 rfl (by decide) (by decide)
    (by decide)
/-! ## C20: input shapes -/

/-- C20. `get_tx_asset_types` rejects every transaction that contains a generation input when
`is_miner_tx` is false, and rejects every transaction containing an input that is neither a
generation input nor a `txin_zephyr_key` input, whatever `is_miner_tx` is; with `is_miner_tx`
true a generation input adds ZEPH to the set of source asset types: the loop step inserts it, and
ZEPH is in the set the loop completes with. -/
theorem get_tx_asset_types_input_shapes {Out : Type} (output_asset : Out → Option String)
    (tx : transaction Out) :
    (∀ h, txin_v.txin_gen h ∈ tx.vin → get_tx_asset_types output_asset tx false = none)
    ∧ (∀ i ∈ tx.vin, (∀ h, i ≠ txin_v.txin_gen h) →
        (∀ amount asset_type key_offsets k_image,
          i ≠ txin_v.txin_zephyr_key amount asset_type key_offsets k_image) →
        ∀ is_miner_tx, get_tx_asset_types output_asset tx is_miner_tx = none)
    ∧ (∀ h rest acc, source_asset_types true (txin_v.txin_gen h :: rest) acc
        = source_asset_types true rest (set_insert "ZEPH" acc))
    ∧ (∀ h sat, txin_v.txin_gen h ∈ tx.vin → source_asset_types true tx.vin [] = some sat →
        "ZEPH" ∈ sat)
    ∧ get_tx_asset_types some ⟨[txin_v.txin_gen 7], ["ZEPH"]⟩ true = some ("ZEPH", "ZEPH")
    ∧ get_tx_asset_types some ⟨[txin_v.txin_gen 7], ["ZEPH"]⟩ false = none
    ∧ get_tx_asset_types some
        ⟨[txin_v.txin_zephyr_key 5 "ZEPH" [] [1], txin_v.txin_to_script], ["ZEPH"]⟩ true = none := by
  refine ⟨?_, ?_, ?_, ?_, by decide, by decide, by decide⟩
  · intro h hmem
    have hnone := source_asset_types_eq_none false tx.vin []
      ⟨_, hmem, Or.inr ⟨rfl, h, rfl⟩⟩
    unfold get_tx_asset_types
    simp only [hnone]
  · intro i hmem hgen hkey is_miner_tx
    have hbad : input_asset_type i = none := by
      cases i with
      | txin_gen h => exact absurd rfl (hgen h)
      | txin_to_script => rfl
      | txin_to_scripthash => rfl
      | txin_zephyr_key am a ko ki => exact absurd rfl (hkey am a ko ki)
    have hnone := source_asset_types_eq_none is_miner_tx tx.vin [] ⟨i, hmem, Or.inl hbad⟩
    unfold get_tx_asset_types
    simp only [hnone]
  · intro h rest acc
    simp [source_asset_types]
  · intro h sat hmem hsat
    obtain ⟨_, hm⟩ := source_asset_types_of_eq_some true tx.vin [] sat hsat List.Pairwise.nil
    rw [hm "ZEPH"]
    right
    rw [List.mem_filterMap]
    exact ⟨_, hmem, rfl⟩

/-! ## C21: miner transactions -/

/-- The loop over the outputs returns `false` as soon as one output has no asset type. -/
theorem destination_asset_types_eq_none {Out : Type} (output_asset : Out → Option String) :
    ∀ (vout : List Out) (acc : List String), (∃ o ∈ vout, output_asset o = none) →
      destination_asset_types output_asset vout acc = none
  | [], _, h => by
    obtain ⟨o, ho, _⟩ := h
    exact absurd ho (List.not_mem_nil _)
  | o :: rest, acc, h => by
    unfold destination_asset_types
    cases ho : output_asset o with
    | none => rfl
    | some a =>
      simp only
      apply destination_asset_types_eq_none output_asset rest
      obtain ⟨o', ho', hn⟩ := h
      rcases List.mem_cons.mp ho' with rfl | ho'
      · rw [ho] at hn
        exact Option.noConfusion hn
      · exact ⟨o', ho', hn⟩

/-- C21, counterexample. A miner transaction whose single generation input resolves to the
supported source ZEPH, with no outputs: the set of destination asset types is empty and
`get_tx_asset_types` rejects before the miner branch fixes the destination. -/
theorem get_tx_asset_types_miner_tx_no_outputs :
    get_tx_asset_types (fun o : String => some o) ⟨[txin_v.txin_gen 7], []⟩ true = none
    ∧ source_asset_types true [txin_v.txin_gen 7] [] = some ["ZEPH"]
    ∧ resolve_source ["ZEPH"] = some "ZEPH"
    ∧ "ZEPH" ∈ ASSET_TYPES := by
  refine ⟨by decide, by decide, by decide, by decide⟩

/-- C21, amended. For every transaction resolved with `is_miner_tx = true` whose inputs resolve
to a supported source: when the transaction has at least one output and every output has an
asset type, `get_tx_asset_types` succeeds with destination ZEPH, whatever these asset types are
(more than two distinct ones, or none of them ZEPH); with no output at all, or with an output
whose target has no asset type, it rejects. -/
theorem get_tx_asset_types_miner_tx {Out : Type} (output_asset : Out → Option String)
    (tx : transaction Out) (sat : List String) (source : String)
    (hsat : source_asset_types true tx.vin [] = some sat)
    (hsrc : resolve_source sat = some source) (hsup : source ∈ ASSET_TYPES) :
    (tx.vout ≠ [] → (∀ o ∈ tx.vout, ∃ a, output_asset o = some a) →
      get_tx_asset_types output_asset tx true = some (source, "ZEPH"))
    ∧ (tx.vout = [] → get_tx_asset_types output_asset tx true = none)
    ∧ ((∃ o ∈ tx.vout, output_asset o = none) →
      get_tx_asset_types output_asset tx true = none) := by
  refine ⟨?_, ?_, ?_⟩
  · intro hne hall
    obtain ⟨r, hr, _, hmem⟩ := destination_asset_types_spec output_asset tx.vout [] hall
      List.Pairwise.nil
    have hlen : r.length ≠ 0 := by
      cases hv : tx.vout with
      | nil => exact absurd hv hne
      | cons o rest =>
        obtain ⟨a, ha⟩ := hall o (by rw [hv]; simp)
        have : a ∈ r := (hmem a).mpr (Or.inr ⟨o, by rw [hv]; simp, ha⟩)
        intro h0
        rw [List.length_eq_zero] at h0
        rw [h0] at this
        exact absurd this (List.not_mem_nil _)
    have hz : "ZEPH" ∈ ASSET_TYPES := by decide
    unfold get_tx_asset_types
    simp [hsat, hsrc, hr, resolve_destination, hlen, hsup, hz]
  · intro hnil
    unfold get_tx_asset_types
    simp [hsat, hsrc, hnil, destination_asset_types, resolve_destination]
  · intro hbad
    unfold get_tx_asset_types
    simp [hsat, hsrc, destination_asset_types_eq_none output_asset tx.vout [] hbad]

/-- Witness for the amended C21: a miner transaction with three outputs of three asset types. -/
theorem get_tx_asset_types_miner_tx_witness :
    get_tx_asset_types (fun o : String => some o)
        ⟨[txin_v.txin_gen 7], ["ZEPHUSD", "ZEPHRSV", "XYZ"]⟩ true = some ("ZEPH", "ZEPH") :=
  (get_tx_asset_types_miner_tx (fun o : String => some o)
    ⟨[txin_v.txin_gen 7], ["ZEPHUSD", "ZEPHRSV", "XYZ"]⟩ ["ZEPH"] "ZEPH"
    (by decide) (by decide) (by decide)).1 (by decide) (fun o _ => ⟨o, rfl⟩)

theorem and_shiftLeft_shiftRight (h m k : Nat) :
    (h &&& (m <<< k)) >>> k = (h >>> k) &&& m := by
  apply Nat.eq_of_testBit_eq
  intro j
  simp [Nat.testBit_shiftRight, Nat.testBit_and, Nat.testBit_shiftLeft]

theorem seed_byte (h i : Nat) (hi : i < 8) :
    ((h &&& ((0xFF <<< (i * 8)) % 2 ^ 64)) >>> (i * 8)) % 2 ^ 8 = (h >>> (8 * i)) &&& 0xFF := by
  have hm : (0xFF <<< (i * 8)) % 2 ^ 64 = 0xFF <<< (i * 8) := by
    interval_cases i <;> decide
  have h255 : (0xFF : Nat) = 2 ^ 8 - 1 := by norm_num
  rw [hm, and_shiftLeft_shiftRight, Nat.mul_comm i 8]
  rw [h255, Nat.and_pow_two_sub_one_eq_mod, Nat.mod_mod]

theorem seed_byte_div (h i : Nat) (hi : i < 8) :
    ((h &&& ((0xFF <<< (i * 8)) % 2 ^ 64)) >>> (i * 8)) % 2 ^ 8 = h / 2 ^ (8 * i) % 256 := by
  rw [seed_byte h i hi]
  have h255 : (0xFF : Nat) = 2 ^ 8 - 1 := by norm_num
  rw [h255, Nat.and_pow_two_sub_one_eq_mod, Nat.shiftRight_eq_div_pow]

theorem sec_data_eq (h : Nat) :
    sec_data h = [h % 256, h / 2 ^ 8 % 256, h / 2 ^ 16 % 256, h / 2 ^ 24 % 256, h / 2 ^ 32 % 256,
      h / 2 ^ 40 % 256, h / 2 ^ 48 % 256, h / 2 ^ 56 % 256] ++ List.replicate 24 0 := by
  unfold sec_data
  have e : List.range 8 = [0, 1, 2, 3, 4, 5, 6, 7] := by decide
  rw [e]
  simp only [List.map_cons, List.map_nil]
  have h0 := seed_byte_div h 0 (by norm_num)
  have h1 := seed_byte_div h 1 (by norm_num)
  have h2 := seed_byte_div h 2 (by norm_num)
  have h3 := seed_byte_div h 3 (by norm_num)
  have h4 := seed_byte_div h 4 (by norm_num)
  have h5 := seed_byte_div h 5 (by norm_num)
  have h6 := seed_byte_div h 6 (by norm_num)
  have h7 := seed_byte_div h 7 (by norm_num)
  norm_num at h0 h1 h2 h3 h4 h5 h6 h7 ⊢
  exact ⟨h0, h1, h2, h3, h4, h5, h6, h7⟩

theorem little_endian_sec_data (h : Nat) (hh : h < 2 ^ 64) : little_endian (sec_data h) = h := by
  rw [sec_data_eq]
  simp only [List.replicate, List.cons_append, List.nil_append, little_endian]
  omega

/-! ## C22: the seed of the governance keypair -/

/-- C22. For every 64-bit height `h`, the 32-byte secret scalar that
`get_deterministic_keypair_from_height` seeds has byte `i` equal to `(h >> 8i) & 0xFF` for
`0 <= i < 8` and zero for `8 <= i < 32`; read as a little-endian integer the seed equals `h`, and
distinct heights give distinct seeds. -/
theorem sec_data_spec (h : Nat) (hh : h < 2 ^ 64) :
    (sec_data h).length = 32
    ∧ (∀ i, i < 8 → (sec_data h).getD i 0 = (h >>> (8 * i)) &&& 0xFF)
    ∧ (∀ i, 8 ≤ i → i < 32 → (sec_data h).getD i 0 = 0)
    ∧ little_endian (sec_data h) = h
    ∧ (∀ h', h' < 2 ^ 64 → h ≠ h' → sec_data h ≠ sec_data h') := by
  refine ⟨by simp [sec_data], ?_, ?_, little_endian_sec_data h hh, ?_⟩
  · intro i hi
    rw [← seed_byte h i hi]
    unfold sec_data
    have e : List.range 8 = [0, 1, 2, 3, 4, 5, 6, 7] := by decide
    rw [e]
    interval_cases i <;> rfl
  · intro i h8 h32
    rw [sec_data_eq]
    interval_cases i <;> rfl
  · intro h' hh' hne heq
    apply hne
    rw [← little_endian_sec_data h hh, ← little_endian_sec_data h' hh', heq]

/-- Witness for C22: the height `0x0102030405060708`. -/
theorem sec_data_spec_witness :
    little_endian (sec_data 0x0102030405060708) = 0x0102030405060708 :=
  (sec_data_spec 0x0102030405060708 (by decide)).2.2.2.1

/-! ## The miner transaction, step by step -/

/-- The fee loop appends one output per entry with a key other than ZEPH and a non-zero value. -/
theorem fee_outputs_length {PK SK KD : Type} (ops : crypto_ops PK SK KD)
    (miner_address : account_public_address PK) (txkey : keypair PK SK) :
    ∀ (fee_map : List (String × Nat)) (idx : Nat) (outs : List (tx_out PK)),
      fee_outputs ops miner_address txkey fee_map idx = some outs →
      outs.length = (fee_map.filter (fun e => decide (e.1 ≠ "ZEPH" ∧ e.2 ≠ 0))).length
  | [], _, outs, h => by
    have e : ([] : List (tx_out PK)) = outs := Option.some.inj h
    subst e
    rfl
  | e :: rest, idx, outs, h => by
    unfold fee_outputs at h
    by_cases hskip : e.1 = "ZEPH" ∨ e.2 = 0
    · rw [if_pos hskip] at h
      have ih := fee_outputs_length ops miner_address txkey rest idx outs h
      have hf : decide (e.1 ≠ "ZEPH" ∧ e.2 ≠ 0) = false := by
        apply decide_eq_false
        tauto
      simp only [List.filter_cons, hf, Bool.false_eq_true, if_false]
      exact ih
    · rw [if_neg hskip] at h
      have hf : decide (e.1 ≠ "ZEPH" ∧ e.2 ≠ 0) = true := by
        apply decide_eq_true
        tauto
      simp only [List.filter_cons, hf, if_true]
      split at h
      · exact Option.noConfusion h
      · split at h
        · exact Option.noConfusion h
        · split at h
          · exact Option.noConfusion h
          · rename_i outs' hrest
            have e' := Option.some.inj h
            subst e'
            have ih := fee_outputs_length ops miner_address txkey rest (idx + 1) outs' hrest
            simp [ih]

/-- Evaluating `fee_map["ZEPH"]` does not change the entries the fee loop pays out. -/
theorem filter_map_insert_default (fee_map : List (String × Nat)) :
    (map_insert_default "ZEPH" fee_map).filter (fun e => decide (e.1 ≠ "ZEPH" ∧ e.2 ≠ 0))
      = fee_map.filter (fun e => decide (e.1 ≠ "ZEPH" ∧ e.2 ≠ 0)) := by
  induction fee_map with
  | nil => simp [map_insert_default]
  | cons e es ih =>
    unfold map_insert_default
    by_cases h1 : string_less "ZEPH" e.1 = true
    · simp [h1]
    · by_cases h2 : string_less e.1 "ZEPH" = true
      · have h1' : string_less "ZEPH" e.1 = false := Bool.eq_false_iff.mpr h1
        simp only [h1', h2, if_true, Bool.false_eq_true, if_false, List.filter_cons, ih]
      · have h1' : string_less "ZEPH" e.1 = false := Bool.eq_false_iff.mpr h1
        have h2' : string_less e.1 "ZEPH" = false := Bool.eq_false_iff.mpr h2
        simp only [h1', h2', Bool.false_eq_true, if_false]

/-- What a successful `construct_miner_tx` has built. -/
theorem construct_miner_tx_eq_some {PK SK KD Extra : Type} (env : miner_env PK SK KD Extra)
    (txkey : keypair PK SK) (height median_weight already_generated_coins
      current_block_weight : Nat) (fee_map : List (String × Nat))
    (miner_address : account_public_address PK) (tx tx' : transaction_prefix PK Extra)
    (extra_nonce : List Nat) (max_outs hard_fork_version : Nat)
    (hok : construct_miner_tx env txkey height median_weight already_generated_coins
      current_block_weight fee_map miner_address tx extra_nonce max_outs hard_fork_version
      = some tx') :
    ∃ R k0 d0 outs,
      env.get_block_reward median_weight current_block_weight already_generated_coins
        hard_fork_version = some R
      ∧ (if hard_fork_version ≥ env.HF_VERSION_DJED then
          fee_outputs env.ops miner_address txkey (map_insert_default "ZEPH" fee_map) 2
          else some []) = some outs
      ∧ tx'.version = (if hard_fork_version ≥ env.HF_VERSION_DJED then 3 else 2)
      ∧ tx'.unlock_time = (height + env.CRYPTONOTE_MINED_MONEY_UNLOCK_WINDOW) % 2 ^ 64
      ∧ tx'.vin = [txin_v.txin_gen height]
      ∧ (already_generated_coins = 0 →
          tx'.vout = [⟨(R + map_at fee_map "ZEPH") % 2 ^ 64, "ZEPH", k0, true,
            env.ops.derive_view_tag d0 0⟩] ++ outs)
      ∧ (already_generated_coins ≠ 0 →
          ∃ k1 d1, get_deterministic_output_key env.ops
              (env.get_account_address_from_str network_type.MAINNET
                (get_governance_address env.config network_type.MAINNET))
              (get_deterministic_keypair_from_height env.ops height) 1 = some (k1, d1)
            ∧ tx'.vout =
              [⟨(wrap64 ((R : Int) - ((get_governance_reward height R : Nat) : Int))
                    + map_at fee_map "ZEPH") % 2 ^ 64, "ZEPH", k0, true,
                  env.ops.derive_view_tag d0 0⟩,
                ⟨get_governance_reward height R, "ZEPH", k1, true,
                  env.ops.derive_view_tag d1 1⟩] ++ outs) := by
  unfold construct_miner_tx at hok
  simp only at hok
  split at hok
  · exact Option.noConfusion hok
  · split at hok
    · exact Option.noConfusion hok
    · split at hok
      · exact Option.noConfusion hok
      · rename_i R hR
        split at hok
        · exact Option.noConfusion hok
        · split at hok
          · exact Option.noConfusion hok
          · rename_i d0 hd0
            split at hok
            · exact Option.noConfusion hok
            · rename_i k0 hk0
              split at hok
              · exact Option.noConfusion hok
              · rename_i extra' vout' hgov
                split at hok
                · exact Option.noConfusion hok
                · rename_i outs houts
                  have e := Option.some.inj hok
                  subst e
                  refine ⟨R, k0, d0, outs, hR, houts, rfl, rfl, rfl, ?_, ?_⟩
                  · intro h0
                    simp only [h0, ne_eq, not_true_eq_false, if_false, Option.some.injEq,
                      Prod.mk.injEq] at hgov
                    rw [← hgov.2]
                  · intro hne
                    simp only [ne_eq, hne, not_false_eq_true, if_true] at hgov
                    split at hgov
                    · exact Option.noConfusion hgov
                    · rename_i k1 d1 hk1
                      split at hgov
                      · exact Option.noConfusion hgov
                      · have e' := Option.some.inj hgov
                        refine ⟨k1, d1, hk1, ?_⟩
                        rw [← (Prod.mk.inj e').2]
                        simp

/-! ## C23: validation of the governance output key -/

theorem get_deterministic_output_key_eq_some_iff {PK SK KD : Type} (ops : crypto_ops PK SK KD)
    (address : account_public_address PK) (tx_key : keypair PK SK) (i : Nat) (k : PK) (d : KD) :
    get_deterministic_output_key ops address tx_key i = some (k, d)
      ↔ ops.generate_key_derivation address.m_view_public_key tx_key.sec = some d
        ∧ ops.derive_public_key d i address.m_spend_public_key = some k := by
  unfold get_deterministic_output_key
  constructor
  · intro h
    split at h
    · exact Option.noConfusion h
    · rename_i d' hd
      split at h
      · exact Option.noConfusion h
      · rename_i k' hk
        have e := Prod.mk.inj (Option.some.inj h)
        rw [← e.1, ← e.2]
        exact ⟨hd, hk⟩
  · rintro ⟨hd, hk⟩
    simp [hd, hk]

theorem validate_governance_reward_key_eq_true_iff {PK SK KD : Type} [DecidableEq PK]
    (ops : crypto_ops PK SK KD)
    (get_account_address_from_str : network_type → String → account_public_address PK)
    (h : Nat) (str : String) (i : Nat) (k : PK) (nettype : network_type) :
    validate_governance_reward_key ops get_account_address_from_str h str i k nettype = true
      ↔ ∃ d, get_deterministic_output_key ops (get_account_address_from_str nettype str)
            (get_deterministic_keypair_from_height ops h) i = some (k, d) := by
  unfold validate_governance_reward_key
  simp only
  constructor
  · intro hv
    split at hv
    · exact absurd hv (by simp)
    · rename_i k' d' hk
      have e : k' = k := of_decide_eq_true hv
      exact ⟨d', by rw [hk, e]⟩
  · rintro ⟨d, hd⟩
    simp [hd]

/-- C23: `validate_governance_reward_key` returns true exactly when the key is the one
`get_deterministic_output_key` derives from the parsed address, the keypair of the height and the
output index. The governance output a successful `construct_miner_tx` emits at index 1 validates
at its height, and, when the primitives are free of collisions (distinct 64-bit heights give
distinct secrets, the derivation is injective in the secret for the governance view key, and the
derived key is injective in the derivation), it validates at no other 64-bit height. -/
theorem validate_governance_reward_key_spec {PK SK KD Extra : Type} [DecidableEq PK]
    (env : miner_env PK SK KD Extra) :
    (∀ (h : Nat) (str : String) (i : Nat) (k : PK) (nettype : network_type),
      validate_governance_reward_key env.ops env.get_account_address_from_str h str i k nettype
          = true
        ↔ ∃ d, get_deterministic_output_key env.ops
              (env.get_account_address_from_str nettype str)
              (get_deterministic_keypair_from_height env.ops h) i = some (k, d))
    ∧ (∀ (txkey : keypair PK SK) (height median_weight already_generated_coins
          current_block_weight : Nat) (fee_map : List (String × Nat))
        (miner_address : account_public_address PK) (tx tx' : transaction_prefix PK Extra)
        (extra_nonce : List Nat) (max_outs hard_fork_version : Nat),
        already_generated_coins ≠ 0 →
        construct_miner_tx env txkey height median_weight already_generated_coins
          current_block_weight fee_map miner_address tx extra_nonce max_outs hard_fork_version
          = some tx' →
        ∃ o, tx'.vout[1]? = some o
          ∧ validate_governance_reward_key env.ops env.get_account_address_from_str height
              (get_governance_address env.config network_type.MAINNET) 1 o.key
              network_type.MAINNET = true
          ∧ ((∀ h h', h < 2 ^ 64 → h' < 2 ^ 64 →
                  (env.ops.generate_keys (sec_data h)).sec
                    = (env.ops.generate_keys (sec_data h')).sec → h = h') →
              (∀ s s' d,
                  env.ops.generate_key_derivation
                    (env.get_account_address_from_str network_type.MAINNET
                      (get_governance_address env.config network_type.MAINNET)).m_view_public_key
                    s = some d →
                  env.ops.generate_key_derivation
                    (env.get_account_address_from_str network_type.MAINNET
                      (get_governance_address env.config network_type.MAINNET)).m_view_public_key
                    s' = some d → s = s') →
              (∀ d d' i b k, env.ops.derive_public_key d i b = some k →
                  env.ops.derive_public_key d' i b = some k → d = d') →
              ∀ h', height < 2 ^ 64 → h' < 2 ^ 64 → h' ≠ height →
                validate_governance_reward_key env.ops env.get_account_address_from_str h'
                  (get_governance_address env.config network_type.MAINNET) 1 o.key
                  network_type.MAINNET = false)) := by
  refine ⟨fun h str i k nettype =>
    validate_governance_reward_key_eq_true_iff env.ops env.get_account_address_from_str
      h str i k nettype, ?_⟩
  intro txkey height median_weight agc cbw fee_map miner_address tx tx' extra_nonce max_outs hf
    hne hok
  obtain ⟨R, k0, d0, outs, _, _, _, _, _, _, hgov⟩ :=
    construct_miner_tx_eq_some env txkey height median_weight agc cbw fee_map miner_address
      tx tx' extra_nonce max_outs hf hok
  obtain ⟨k1, d1, hk1, hvout⟩ := hgov hne
  refine ⟨⟨get_governance_reward height R, "ZEPH", k1, true, env.ops.derive_view_tag d1 1⟩,
    by rw [hvout]; simp, ?_, ?_⟩
  · exact (validate_governance_reward_key_eq_true_iff env.ops env.get_account_address_from_str
      height _ 1 k1 network_type.MAINNET).mpr ⟨d1, hk1⟩
  · intro hgen hder hpub h' hh hh' hneq
    apply Bool.eq_false_iff.mpr
    intro hv
    obtain ⟨d', hd'⟩ :=
      (validate_governance_reward_key_eq_true_iff env.ops env.get_account_address_from_str
        h' _ 1 k1 network_type.MAINNET).mp hv
    rw [get_deterministic_output_key_eq_some_iff] at hk1 hd'
    have e1 : d' = d1 := hpub d' d1 1 _ k1 hd'.2 hk1.2
    rw [e1] at hd'
    have e2 := hder _ _ d1 hd'.1 hk1.1
    exact hneq (hgen h' height hh' hh e2)

/-- The toy primitives are free of collisions, so at height 9 the governance key of the toy
environment validates at height 9 and at no other 64-bit height, for instance not at 10. -/
theorem validate_governance_reward_key_spec_witness :
    (∃ o, (construct_miner_tx toy_env ⟨5, 6⟩ 9 0 1 0 [("ZEPH", 7), ("ZEPHUSD", 3)] ⟨11, 12⟩
          null_tx [] 1 3).bind (fun t => t.vout[1]?) = some o
        ∧ validate_governance_reward_key toy_ops toy_env.get_account_address_from_str 9
            "ZEPHYR-GOV" 1 o.key network_type.MAINNET = true
        ∧ validate_governance_reward_key toy_ops toy_env.get_account_address_from_str 10
            "ZEPHYR-GOV" 1 o.key network_type.MAINNET = false) := by
  obtain ⟨o, ho, hv, hother⟩ :=
    (validate_governance_reward_key_spec toy_env).2 ⟨5, 6⟩ 9 0 1 0
      [("ZEPH", 7), ("ZEPHUSD", 3)] ⟨11, 12⟩ null_tx
      ⟨3, 69, [txin_v.txin_gen 9],
        [⟨957, "ZEPH", 6000155, true, 140⟩, ⟨50, "ZEPH", 9000148, true, 76⟩,
          ⟨3, "ZEPHUSD", 6000169, true, 142⟩], [5, 1009], 0, 0, 0⟩
      [] 1 3 (by decide) (by decide)
  refine ⟨o, ?_, hv, ?_⟩
  · have e : (construct_miner_tx toy_env ⟨5, 6⟩ 9 0 1 0 [("ZEPH", 7), ("ZEPHUSD", 3)] ⟨11, 12⟩
        null_tx [] 1 3) = some ⟨3, 69, [txin_v.txin_gen 9],
        [⟨957, "ZEPH", 6000155, true, 140⟩, ⟨50, "ZEPH", 9000148, true, 76⟩,
          ⟨3, "ZEPHUSD", 6000169, true, 142⟩], [5, 1009], 0, 0, 0⟩ := by decide
    rw [e]
    exact ho
  · refine hother ?_ ?_ ?_ 10 (by norm_num) (by norm_num) (by decide)
    · intro h h' hh hh' e
      have e' : little_endian (sec_data h) = little_endian (sec_data h') := e
      rwa [little_endian_sec_data h hh, little_endian_sec_data h' hh'] at e'
    · intro s s' d h1 h2
      have e1 := Option.some.inj h1
      have e2 := Option.some.inj h2
      simp only [toy_env] at e1 e2
      omega
    · intro d d' i b k h1 h2
      have e1 : d + 7 * i + 13 * b = k := Option.some.inj h1
      have e2 : d' + 7 * i + 13 * b = k := Option.some.inj h2
      omega

/-! ## C24, C25: the amounts of the miner and governance outputs -/

theorem map_at_of_absent (fee_map : List (String × Nat)) (key : String)
    (h : ∀ e ∈ fee_map, e.1 ≠ key) : map_at fee_map key = 0 := by
  unfold map_at
  have hf : fee_map.find? (fun e => decide (e.1 = key)) = none := by
    rw [List.find?_eq_none]
    intro e he
    simpa using h e he
  rw [hf]

theorem wrap64_sub_governance_reward (height R : Nat) (hR : R < 2 ^ 64) :
    wrap64 ((R : Int) - ((get_governance_reward height R : Nat) : Int)) = R - R / 20 := by
  unfold get_governance_reward
  have hle : R / 20 ≤ R := Nat.div_le_self R 20
  rw [wrap64_of_range _ (by omega) (by omega)]
  omega

/-- C24: in a successful `construct_miner_tx` whose base block reward is `R`: with
`already_generated_coins ≠ 0` output 1 carries `R / 20` and output 0 carries
`R - R / 20 + fee_map["ZEPH"]` in `uint64_t` arithmetic (the exact value when it is below
`2^64`); with `already_generated_coins = 0` output 0 carries `R + fee_map["ZEPH"]` likewise; and
`fee_map["ZEPH"]` is `0` when the map has no ZEPH entry. -/
theorem construct_miner_tx_amounts {PK SK KD Extra : Type} (env : miner_env PK SK KD Extra)
    (txkey : keypair PK SK) (height median_weight already_generated_coins
      current_block_weight : Nat) (fee_map : List (String × Nat))
    (miner_address : account_public_address PK) (tx tx' : transaction_prefix PK Extra)
    (extra_nonce : List Nat) (max_outs hard_fork_version R : Nat)
    (hR : env.get_block_reward median_weight current_block_weight already_generated_coins
      hard_fork_version = some R)
    (hR64 : R < 2 ^ 64)
    (hok : construct_miner_tx env txkey height median_weight already_generated_coins
      current_block_weight fee_map miner_address tx extra_nonce max_outs hard_fork_version
      = some tx') :
    (already_generated_coins ≠ 0 →
      ∃ o0 o1, tx'.vout[0]? = some o0 ∧ tx'.vout[1]? = some o1
        ∧ o1.amount = R / 20
        ∧ o0.amount = (R - R / 20 + map_at fee_map "ZEPH") % 2 ^ 64
        ∧ (R - R / 20 + map_at fee_map "ZEPH" < 2 ^ 64 →
            o0.amount = R - R / 20 + map_at fee_map "ZEPH"))
    ∧ (already_generated_coins = 0 →
      ∃ o0, tx'.vout[0]? = some o0
        ∧ o0.amount = (R + map_at fee_map "ZEPH") % 2 ^ 64
        ∧ (R + map_at fee_map "ZEPH" < 2 ^ 64 → o0.amount = R + map_at fee_map "ZEPH"))
    ∧ ((∀ e ∈ fee_map, e.1 ≠ "ZEPH") → map_at fee_map "ZEPH" = 0) := by
  obtain ⟨R', k0, d0, outs, hR', _, _, _, _, hgen, hgov⟩ :=
    construct_miner_tx_eq_some env txkey height median_weight already_generated_coins
      current_block_weight fee_map miner_address tx tx' extra_nonce max_outs hard_fork_version hok
  have e : R' = R := Option.some.inj (hR'.symm.trans hR)
  subst e
  refine ⟨?_, ?_, map_at_of_absent fee_map "ZEPH"⟩
  · intro hne
    obtain ⟨k1, d1, _, hvout⟩ := hgov hne
    rw [wrap64_sub_governance_reward height R' hR64] at hvout
    refine ⟨_, _, by rw [hvout]; simp; rfl, by rw [hvout]; simp; rfl, rfl, rfl, ?_⟩
    intro hfit
    exact Nat.mod_eq_of_lt hfit
  · intro h0
    have hvout := hgen h0
    refine ⟨_, by rw [hvout]; simp; rfl, rfl, ?_⟩
    intro hfit
    exact Nat.mod_eq_of_lt hfit

/-- At height 9 with reward 1000 and a ZEPH fee of 7 the toy environment pays 50 to the
governance output and 957 to the miner. -/
theorem construct_miner_tx_amounts_witness :
    ∃ o0 o1,
      (construct_miner_tx toy_env ⟨5, 6⟩ 9 0 1 0 [("ZEPH", 7), ("ZEPHUSD", 3)] ⟨11, 12⟩
          null_tx [] 1 3).bind (fun t => t.vout[0]?) = some o0
      ∧ (construct_miner_tx toy_env ⟨5, 6⟩ 9 0 1 0 [("ZEPH", 7), ("ZEPHUSD", 3)] ⟨11, 12⟩
          null_tx [] 1 3).bind (fun t => t.vout[1]?) = some o1
      ∧ o1.amount = 50 ∧ o0.amount = 957 := by
  have e : construct_miner_tx toy_env ⟨5, 6⟩ 9 0 1 0 [("ZEPH", 7), ("ZEPHUSD", 3)] ⟨11, 12⟩
      null_tx [] 1 3 = some ⟨3, 69, [txin_v.txin_gen 9],
        [⟨957, "ZEPH", 6000155, true, 140⟩, ⟨50, "ZEPH", 9000148, true, 76⟩,
          ⟨3, "ZEPHUSD", 6000169, true, 142⟩], [5, 1009], 0, 0, 0⟩ := by decide
  obtain ⟨o0, o1, h0, h1, ha1, _, ha0⟩ :=
    (construct_miner_tx_amounts toy_env ⟨5, 6⟩ 9 0 1 0 [("ZEPH", 7), ("ZEPHUSD", 3)] ⟨11, 12⟩
      null_tx _ [] 1 3 1000 rfl (by norm_num) e).1 (by decide)
  refine ⟨o0, o1, by rw [e]; exact h0, by rw [e]; exact h1, ha1, ?_⟩
  exact ha0 (by decide)

/-- C25 as stated fails: with reward 1000 and a ZEPH fee of 7 the construction succeeds and
outputs 0 and 1 carry 957 and 50, which sum to 1007 and not to the reward 1000. -/
theorem construct_miner_tx_sum_with_fee :
    toy_env.get_block_reward 0 0 1 3 = some 1000
    ∧ (construct_miner_tx toy_env ⟨5, 6⟩ 9 0 1 0 [("ZEPH", 7)] ⟨11, 12⟩ null_tx [] 1 3).map
        (fun t => t.vout.map (fun o => o.amount)) = some [957, 50]
    ∧ 957 + 50 ≠ 1000 := by
  decide

/-- C25 (amended): in a successful `construct_miner_tx` with `already_generated_coins ≠ 0` and
base reward `R`, the amounts of outputs 0 and 1 sum to `R + fee_map["ZEPH"]` modulo `2^64`, and
exactly to that value when it is below `2^64`; they sum to `R` when the ZEPH fee is `0`, and then
a reward of 1000 gives the amounts 950 and 50. -/
theorem construct_miner_tx_sum {PK SK KD Extra : Type} (env : miner_env PK SK KD Extra)
    (txkey : keypair PK SK) (height median_weight already_generated_coins
      current_block_weight : Nat) (fee_map : List (String × Nat))
    (miner_address : account_public_address PK) (tx tx' : transaction_prefix PK Extra)
    (extra_nonce : List Nat) (max_outs hard_fork_version R : Nat)
    (hR : env.get_block_reward median_weight current_block_weight already_generated_coins
      hard_fork_version = some R)
    (hR64 : R < 2 ^ 64)
    (hne : already_generated_coins ≠ 0)
    (hok : construct_miner_tx env txkey height median_weight already_generated_coins
      current_block_weight fee_map miner_address tx extra_nonce max_outs hard_fork_version
      = some tx') :
    ∃ o0 o1, tx'.vout[0]? = some o0 ∧ tx'.vout[1]? = some o1
      ∧ (o0.amount + o1.amount) % 2 ^ 64 = (R + map_at fee_map "ZEPH") % 2 ^ 64
      ∧ (R + map_at fee_map "ZEPH" < 2 ^ 64 →
          o0.amount + o1.amount = R + map_at fee_map "ZEPH")
      ∧ (map_at fee_map "ZEPH" = 0 → o0.amount + o1.amount = R)
      ∧ (map_at fee_map "ZEPH" = 0 → R = 1000 → o0.amount = 950 ∧ o1.amount = 50) := by
  obtain ⟨R', k0, d0, outs, hR', _, _, _, _, _, hgov⟩ :=
    construct_miner_tx_eq_some env txkey height median_weight already_generated_coins
      current_block_weight fee_map miner_address tx tx' extra_nonce max_outs hard_fork_version hok
  have e : R' = R := Option.some.inj (hR'.symm.trans hR)
  subst e
  obtain ⟨k1, d1, _, hvout⟩ := hgov hne
  rw [wrap64_sub_governance_reward height R' hR64] at hvout
  have hle : R' / 20 ≤ R' := Nat.div_le_self R' 20
  have hg : get_governance_reward height R' = R' / 20 := rfl
  refine ⟨_, _, by rw [hvout]; simp; rfl, by rw [hvout]; simp; rfl, ?_, ?_, ?_, ?_⟩
  · simp only [hg]
    omega
  · intro hfit
    simp only [hg]
    omega
  · intro hz
    simp only [hg, hz, Nat.add_zero]
    omega
  · intro hz hR1000
    subst hR1000
    simp only [hg, hz]
    constructor <;> norm_num

/-- With reward 1000 and no ZEPH fee the toy environment pays 950 and 50. -/
theorem construct_miner_tx_sum_witness :
    ∃ o0 o1,
      (construct_miner_tx toy_env ⟨5, 6⟩ 9 0 1 0 [("ZEPHUSD", 3)] ⟨11, 12⟩
          null_tx [] 1 3).bind (fun t => t.vout[0]?) = some o0
      ∧ (construct_miner_tx toy_env ⟨5, 6⟩ 9 0 1 0 [("ZEPHUSD", 3)] ⟨11, 12⟩
          null_tx [] 1 3).bind (fun t => t.vout[1]?) = some o1
      ∧ o0.amount + o1.amount = 1000 := by
  have e : construct_miner_tx toy_env ⟨5, 6⟩ 9 0 1 0 [("ZEPHUSD", 3)] ⟨11, 12⟩
      null_tx [] 1 3 = some ⟨3, 69, [txin_v.txin_gen 9],
        [⟨950, "ZEPH", 6000155, true, 140⟩, ⟨50, "ZEPH", 9000148, true, 76⟩,
          ⟨3, "ZEPHUSD", 6000169, true, 142⟩], [5, 1009], 0, 0, 0⟩ := by decide
  obtain ⟨o0, o1, h0, h1, _, _, hsum, _⟩ :=
    construct_miner_tx_sum toy_env ⟨5, 6⟩ 9 0 1 0 [("ZEPHUSD", 3)] ⟨11, 12⟩
      null_tx _ [] 1 3 1000 rfl (by norm_num) (by decide) e
  exact ⟨o0, o1, by rw [e]; exact h0, by rw [e]; exact h1, hsum (by decide)⟩

/-! ## C26: the shape of the miner transaction -/

/-- C26: a successful `construct_miner_tx` has `1 + g + f` outputs, with `g = 1` exactly when
`already_generated_coins ≠ 0` and `f` the number of fee-map entries with a key other than ZEPH
and a non-zero value from `HF_VERSION_DJED` on (`0` before); its version is 3 from
`HF_VERSION_DJED` on and 2 before; `unlock_time` is `height + CRYPTONOTE_MINED_MONEY_UNLOCK_WINDOW`
in `uint64_t` arithmetic (exact when below `2^64`); the only input is `txin_gen height`; and the
genesis case before the fork has one output and version 2. -/
theorem construct_miner_tx_shape {PK SK KD Extra : Type} (env : miner_env PK SK KD Extra)
    (txkey : keypair PK SK) (height median_weight already_generated_coins
      current_block_weight : Nat) (fee_map : List (String × Nat))
    (miner_address : account_public_address PK) (tx tx' : transaction_prefix PK Extra)
    (extra_nonce : List Nat) (max_outs hard_fork_version : Nat)
    (hok : construct_miner_tx env txkey height median_weight already_generated_coins
      current_block_weight fee_map miner_address tx extra_nonce max_outs hard_fork_version
      = some tx') :
    tx'.vout.length
        = 1 + (if already_generated_coins ≠ 0 then 1 else 0)
          + (if hard_fork_version ≥ env.HF_VERSION_DJED then
              (fee_map.filter (fun e => decide (e.1 ≠ "ZEPH" ∧ e.2 ≠ 0))).length
            else 0)
    ∧ tx'.version = (if hard_fork_version ≥ env.HF_VERSION_DJED then 3 else 2)
    ∧ tx'.unlock_time = (height + env.CRYPTONOTE_MINED_MONEY_UNLOCK_WINDOW) % 2 ^ 64
    ∧ (height + env.CRYPTONOTE_MINED_MONEY_UNLOCK_WINDOW < 2 ^ 64 →
        tx'.unlock_time = height + env.CRYPTONOTE_MINED_MONEY_UNLOCK_WINDOW)
    ∧ tx'.vin = [txin_v.txin_gen height]
    ∧ (already_generated_coins = 0 → hard_fork_version < env.HF_VERSION_DJED →
        tx'.vout.length = 1 ∧ tx'.version = 2) := by
  obtain ⟨R, k0, d0, outs, _, houts, hver, hunlock, hvin, hgen, hgov⟩ :=
    construct_miner_tx_eq_some env txkey height median_weight already_generated_coins
      current_block_weight fee_map miner_address tx tx' extra_nonce max_outs hard_fork_version hok
  have hlen : outs.length = (if hard_fork_version ≥ env.HF_VERSION_DJED then
      (fee_map.filter (fun e => decide (e.1 ≠ "ZEPH" ∧ e.2 ≠ 0))).length else 0) := by
    by_cases hhf : hard_fork_version ≥ env.HF_VERSION_DJED
    · rw [if_pos hhf] at houts ⊢
      rw [fee_outputs_length env.ops miner_address txkey _ 2 outs houts,
        filter_map_insert_default]
    · rw [if_neg hhf] at houts ⊢
      rw [← Option.some.inj houts]
      rfl
  have hvlen : tx'.vout.length = 1 + (if already_generated_coins ≠ 0 then 1 else 0)
      + outs.length := by
    by_cases h0 : already_generated_coins = 0
    · rw [hgen h0]
      simp [h0]
      omega
    · obtain ⟨k1, d1, _, hvout⟩ := hgov h0
      rw [hvout]
      simp [h0]
      omega
  refine ⟨by rw [hvlen, hlen], hver, hunlock, ?_, hvin, ?_⟩
  · intro hfit
    rw [hunlock, Nat.mod_eq_of_lt hfit]
  · intro h0 hhf
    have hhf' : ¬ hard_fork_version ≥ env.HF_VERSION_DJED := by omega
    rw [hvlen, hlen, hver, if_neg hhf']
    simp [h0, hhf]

/-- The genesis transaction of the toy environment before the fork has one output, version 2,
unlock time 60 and the generation input of height 0. -/
theorem construct_miner_tx_shape_witness :
    ∃ t, construct_miner_tx toy_env ⟨5, 6⟩ 0 0 0 0 [("ZEPHUSD", 3)] ⟨11, 12⟩ null_tx [] 1 2
        = some t
      ∧ t.vout.length = 1 ∧ t.version = 2 ∧ t.unlock_time = 60 ∧ t.vin = [txin_v.txin_gen 0] :=
  have e : construct_miner_tx toy_env ⟨5, 6⟩ 0 0 0 0 [("ZEPHUSD", 3)] ⟨11, 12⟩ null_tx [] 1 2
      = some ⟨2, 60, [txin_v.txin_gen 0], [⟨1000, "ZEPH", 6000155, true, 140⟩], [5], 0, 0, 0⟩ := by
    decide
  have h := construct_miner_tx_shape toy_env ⟨5, 6⟩ 0 0 0 0 [("ZEPHUSD", 3)] ⟨11, 12⟩ null_tx
    _ [] 1 2 e
  ⟨_, e, (h.2.2.2.2.2 rfl (by decide)).1, (h.2.2.2.2.2 rfl (by decide)).2,
    h.2.2.2.1 (by decide), h.2.2.2.2.1⟩

/-! ## C27, C28: the deltas passed to the reserve-ratio guard -/

theorem to_int64_of_lt (n : Nat) (h : n < 2 ^ 63) : to_int64 n = (n : Int) := by
  unfold to_int64
  have h64 : n % 2 ^ 64 = n := Nat.mod_eq_of_lt (by omega)
  rw [h64, if_pos h]

/-- The guard step returns exactly what the guard returns on the deltas of the transaction
type, whenever the two asset types differ. -/
theorem conversion_guard_step_eq (quot : Nat → Nat → ℚ) (to_string : dec_float → String)
    (circ_amounts : List (String × String)) (pr : pricing_record)
    (source_asset dest_asset : String) (tx_type : transaction_type)
    (amount_burnt amount_minted : Nat) (hne : source_asset ≠ dest_asset) :
    conversion_guard_step quot to_string circ_amounts pr source_asset dest_asset tx_type
        amount_burnt amount_minted
      = (reserve_ratio_satisfied quot to_string circ_amounts pr tx_type
          (conversion_deltas tx_type amount_burnt amount_minted).1
          (conversion_deltas tx_type amount_burnt amount_minted).2.1
          (conversion_deltas tx_type amount_burnt amount_minted).2.2 "").map Prod.fst := by
  unfold conversion_guard_step
  rw [if_pos hne]
  simp only
  cases reserve_ratio_satisfied quot to_string circ_amounts pr tx_type
      (conversion_deltas tx_type amount_burnt amount_minted).1
      (conversion_deltas tx_type amount_burnt amount_minted).2.1
      (conversion_deltas tx_type amount_burnt amount_minted).2.2 "" with
  | none => rfl
  | some r =>
    obtain ⟨b, e⟩ := r
    cases b <;> rfl

/-- C27 as stated fails: for a MINT_STABLE conversion that burns 5 and mints 7 the ZEPH delta
handed to the guard is `+5`, not `-5`. -/
theorem conversion_deltas_mint_stable_sign :
    conversion_deltas transaction_type.MINT_STABLE 5 7 = (5, 7, 0)
    ∧ (conversion_deltas transaction_type.MINT_STABLE 5 7).1 ≠ -5 := by
  decide

/-- C27 (amended): for a MINT_STABLE conversion the guard is invoked with ZEPH delta
`+amount_burnt`, stable delta `+amount_minted` and reserve delta `0` (the tallies converted to
`int64_t`, which is the tally itself below `2^63`), and the step returns false whenever the guard
rejects. -/
theorem conversion_guard_step_mint_stable (quot : Nat → Nat → ℚ) (to_string : dec_float → String)
    (circ_amounts : List (String × String)) (pr : pricing_record)
    (source_asset dest_asset : String) (amount_burnt amount_minted : Nat)
    (htype : get_tx_type source_asset dest_asset = some transaction_type.MINT_STABLE) :
    conversion_deltas transaction_type.MINT_STABLE amount_burnt amount_minted
        = (to_int64 amount_burnt, to_int64 amount_minted, 0)
    ∧ (amount_burnt < 2 ^ 63 → to_int64 amount_burnt = (amount_burnt : Int))
    ∧ (amount_minted < 2 ^ 63 → to_int64 amount_minted = (amount_minted : Int))
    ∧ conversion_guard_step quot to_string circ_amounts pr source_asset dest_asset
          transaction_type.MINT_STABLE amount_burnt amount_minted
        = (reserve_ratio_satisfied quot to_string circ_amounts pr transaction_type.MINT_STABLE
            (to_int64 amount_burnt) (to_int64 amount_minted) 0 "").map Prod.fst
    ∧ (∀ reason, reserve_ratio_satisfied quot to_string circ_amounts pr transaction_type.MINT_STABLE
            (to_int64 amount_burnt) (to_int64 amount_minted) 0 "" = some (false, reason) →
        conversion_guard_step quot to_string circ_amounts pr source_asset dest_asset
          transaction_type.MINT_STABLE amount_burnt amount_minted = some false) := by
  have hpair := (get_tx_type_eq_some_iff source_asset dest_asset _).mp htype
  have hne : source_asset ≠ dest_asset := by
    simp [supported_pairs] at hpair
    rw [hpair.1, hpair.2]
    decide
  have hd : conversion_deltas transaction_type.MINT_STABLE amount_burnt amount_minted
      = (to_int64 amount_burnt, to_int64 amount_minted, 0) := by
    simp [conversion_deltas]
  have hstep := conversion_guard_step_eq quot to_string circ_amounts pr source_asset dest_asset
    transaction_type.MINT_STABLE amount_burnt amount_minted hne
  rw [hd] at hstep
  refine ⟨hd, to_int64_of_lt _, to_int64_of_lt _, hstep, ?_⟩
  intro reason hrej
  rw [hstep]
  simp only at hrej ⊢
  rw [hrej]
  rfl

/-- For the pair (ZEPH, ZEPHUSD), burning 5 and minting 7 hands the deltas `(5, 7, 0)` to the
guard. -/
theorem conversion_guard_step_mint_stable_witness :
    conversion_deltas transaction_type.MINT_STABLE 5 7 = (5, 7, 0) :=
  (conversion_guard_step_mint_stable truncated_quotient (fun _ => "") [] ⟨1, 1⟩ "ZEPH" "ZEPHUSD" 5 7
    (by decide)).1.trans (by decide)

/-- C28 does not hold of the code: for REDEEM_STABLE and REDEEM_RESERVE the deltas handed to the
guard are `+amount_minted` for ZEPH and `+amount_burnt` for the burnt asset, not their negatives.
With 400 ZEPH in reserve, 100 stable coins, 5 reserve coins and rate `10^12`, a REDEEM_RESERVE
that burns 1 reserve coin for 100 ZEPH passes the guard step (ratio 500/100), while the guard on
the post-transaction totals (deltas `-100` and `-1`, ratio 300/100) rejects; both for every
library quotient accurate to `10^-50`. -/
theorem conversion_deltas_redeem_sign :
    (∀ amount_burnt amount_minted,
      conversion_deltas transaction_type.REDEEM_STABLE amount_burnt amount_minted
        = (to_int64 amount_minted, to_int64 amount_burnt, 0))
    ∧ (∀ amount_burnt amount_minted,
      conversion_deltas transaction_type.REDEEM_RESERVE amount_burnt amount_minted
        = (to_int64 amount_minted, 0, to_int64 amount_burnt))
    ∧ conversion_deltas transaction_type.REDEEM_RESERVE 1 100 = (100, 0, 1)
    ∧ (∀ (quot : Nat → Nat → ℚ) (to_string : dec_float → String), quotient_accurate quot →
      conversion_guard_step quot to_string
          [("ZEPH", "400"), ("ZEPHUSD", "100"), ("ZEPHRSV", "5")]
          ⟨1000000000000, 1000000000000⟩ "ZEPHRSV" "ZEPH" transaction_type.REDEEM_RESERVE 1 100
        = some true
      ∧ (reserve_ratio_satisfied quot to_string
            [("ZEPH", "400"), ("ZEPHUSD", "100"), ("ZEPHRSV", "5")]
            ⟨1000000000000, 1000000000000⟩ transaction_type.REDEEM_RESERVE (-100) 0 (-1)
            "").map Prod.fst
        = some false) := by
  refine ⟨fun b m => by simp [conversion_deltas], fun b m => by simp [conversion_deltas],
    by decide, ?_⟩
  intro quot to_string hq
  constructor
  · rw [conversion_guard_step_eq quot to_string _ _ _ _ _ _ _ (by decide)]
    have hd : conversion_deltas transaction_type.REDEEM_RESERVE 1 100 = (100, 0, 1) := by decide
    rw [hd]
    exact (reserve_ratio_satisfied_redeem_reserve_cases quot to_string _ _ 100 0 1 "" 400 5 100
      (by decide) (by decide) (by decide) (by decide) (by decide) hq).2.1 (by decide)
  · exact (reserve_ratio_satisfied_redeem_reserve_cases quot to_string _ _ (-100) 0 (-1) "" 400
      5 100 (by decide) (by decide) (by decide) (by decide) (by decide) hq).1 (by decide)

/-! ## C29: the minted and burnt tallies of the output loop -/

theorem fill_output_amount_minted {PK : Type}
    (generate_output_ephemeral_keys : tx_destination_entry → Nat → PK × Nat)
    (source_asset dest_asset : String) (use_view_tags : Bool)
    (d : tx_destination_entry) (output_index : Nat) (st : outputs_state PK) :
    (fill_output generate_output_ephemeral_keys source_asset dest_asset use_view_tags d
        output_index st).amount_minted
      = if source_asset ≠ dest_asset ∧ d.dest_asset_type = dest_asset then
          (st.amount_minted + d.dest_amount) % 2 ^ 64
        else st.amount_minted := by
  unfold fill_output
  by_cases hne : source_asset ≠ dest_asset <;> by_cases hd : d.dest_asset_type = dest_asset
    <;> simp [hne, hd]

theorem fill_output_amount_burnt {PK : Type}
    (generate_output_ephemeral_keys : tx_destination_entry → Nat → PK × Nat)
    (source_asset dest_asset : String) (use_view_tags : Bool)
    (d : tx_destination_entry) (output_index : Nat) (st : outputs_state PK) :
    (fill_output generate_output_ephemeral_keys source_asset dest_asset use_view_tags d
        output_index st).amount_burnt
      = if source_asset ≠ dest_asset ∧ d.dest_asset_type = dest_asset then
          (st.amount_burnt + d.amount) % 2 ^ 64
        else st.amount_burnt := by
  unfold fill_output
  by_cases hne : source_asset ≠ dest_asset <;> by_cases hd : d.dest_asset_type = dest_asset
    <;> simp [hne, hd]

theorem fill_output_summary {PK : Type}
    (generate_output_ephemeral_keys : tx_destination_entry → Nat → PK × Nat)
    (source_asset dest_asset : String) (use_view_tags : Bool)
    (d : tx_destination_entry) (output_index : Nat) (st : outputs_state PK) :
    (fill_output generate_output_ephemeral_keys source_asset dest_asset use_view_tags d
        output_index st).summary_outs_money
      = (st.summary_outs_money + d.amount) % 2 ^ 64 := by
  unfold fill_output
  by_cases hne : source_asset ≠ dest_asset <;> by_cases hd : d.dest_asset_type = dest_asset
    <;> simp [hne, hd]

theorem fill_output_length {PK : Type}
    (generate_output_ephemeral_keys : tx_destination_entry → Nat → PK × Nat)
    (source_asset dest_asset : String) (use_view_tags : Bool)
    (d : tx_destination_entry) (output_index : Nat) (st : outputs_state PK) :
    (fill_output generate_output_ephemeral_keys source_asset dest_asset use_view_tags d
        output_index st).vout.length = st.vout.length + 1 := by
  unfold fill_output
  by_cases hne : source_asset ≠ dest_asset <;> by_cases hd : d.dest_asset_type = dest_asset
    <;> simp [hne, hd]

/-- The output loop of a conversion from any state: it returns when the version is above 1,
and adds to the tallies, in `uint64_t` arithmetic, the amounts of the destinations whose asset
type is `dest_asset`. -/
theorem fill_outputs_conversion {PK : Type}
    (generate_output_ephemeral_keys : tx_destination_entry → Nat → PK × Nat)
    (version : Nat) (source_asset dest_asset : String) (use_view_tags : Bool)
    (hv : version > 1) (hne : source_asset ≠ dest_asset) :
    ∀ (destinations : List tx_destination_entry) (output_index : Nat) (st : outputs_state PK),
      ∃ st', fill_outputs generate_output_ephemeral_keys version source_asset dest_asset
          use_view_tags destinations output_index st = some st'
        ∧ st'.amount_minted % 2 ^ 64
          = (st.amount_minted
              + ((destinations.filter (fun d => decide (d.dest_asset_type = dest_asset))).map
                (fun d => d.dest_amount)).sum) % 2 ^ 64
        ∧ st'.amount_burnt % 2 ^ 64
          = (st.amount_burnt
              + ((destinations.filter (fun d => decide (d.dest_asset_type = dest_asset))).map
                (fun d => d.amount)).sum) % 2 ^ 64
        ∧ (st.amount_minted < 2 ^ 64 → st'.amount_minted < 2 ^ 64)
        ∧ (st.amount_burnt < 2 ^ 64 → st'.amount_burnt < 2 ^ 64)
  | [], _, st => ⟨st, rfl, by simp, by simp, id, id⟩
  | d :: rest, output_index, st => by
    unfold fill_outputs
    have hc : ¬ ¬ (d.dest_amount > 0 ∨ version > 1) := not_not.mpr (Or.inr hv)
    rw [if_neg hc]
    obtain ⟨st', hst', hm, hb, hml, hbl⟩ :=
      fill_outputs_conversion generate_output_ephemeral_keys version source_asset dest_asset
        use_view_tags hv hne rest (output_index + 1)
        (fill_output generate_output_ephemeral_keys source_asset dest_asset use_view_tags
          d output_index st)
    have h1 := fill_output_amount_minted generate_output_ephemeral_keys source_asset dest_asset
      use_view_tags d output_index st
    have h2 := fill_output_amount_burnt generate_output_ephemeral_keys source_asset dest_asset
      use_view_tags d output_index st
    by_cases hd : d.dest_asset_type = dest_asset
    · rw [if_pos ⟨hne, hd⟩] at h1 h2
      rw [h1] at hm hml
      rw [h2] at hb hbl
      have hf : decide (d.dest_asset_type = dest_asset) = true := decide_eq_true hd
      refine ⟨st', hst', ?_, ?_, fun _ => hml (Nat.mod_lt _ (by norm_num)),
        fun _ => hbl (Nat.mod_lt _ (by norm_num))⟩
      · rw [hm]
        simp only [List.filter_cons, hf, if_true, List.map_cons, List.sum_cons]
        omega
      · rw [hb]
        simp only [List.filter_cons, hf, if_true, List.map_cons, List.sum_cons]
        omega
    · rw [if_neg (fun h => hd h.2)] at h1 h2
      rw [h1] at hm hml
      rw [h2] at hb hbl
      have hf : decide (d.dest_asset_type = dest_asset) = false := decide_eq_false hd
      refine ⟨st', hst', ?_, ?_, hml, hbl⟩
      · rw [hm]
        simp only [List.filter_cons, hf, Bool.false_eq_true, if_false]
      · rw [hb]
        simp only [List.filter_cons, hf, Bool.false_eq_true, if_false]

/-- The output loop of a transfer from any state: it returns when the version is above 1 and
leaves the tallies as they are. -/
theorem fill_outputs_transfer {PK : Type}
    (generate_output_ephemeral_keys : tx_destination_entry → Nat → PK × Nat)
    (version : Nat) (source_asset dest_asset : String) (use_view_tags : Bool)
    (hv : version > 1) (he : source_asset = dest_asset) :
    ∀ (destinations : List tx_destination_entry) (output_index : Nat) (st : outputs_state PK),
      ∃ st', fill_outputs generate_output_ephemeral_keys version source_asset dest_asset
          use_view_tags destinations output_index st = some st'
        ∧ st'.amount_minted = st.amount_minted ∧ st'.amount_burnt = st.amount_burnt
  | [], _, st => ⟨st, rfl, rfl, rfl⟩
  | d :: rest, output_index, st => by
    unfold fill_outputs
    have hc : ¬ ¬ (d.dest_amount > 0 ∨ version > 1) := not_not.mpr (Or.inr hv)
    rw [if_neg hc]
    obtain ⟨st', hst', hm, hb⟩ :=
      fill_outputs_transfer generate_output_ephemeral_keys version source_asset dest_asset
        use_view_tags hv he rest (output_index + 1)
        (fill_output generate_output_ephemeral_keys source_asset dest_asset use_view_tags
          d output_index st)
    have h1 := fill_output_amount_minted generate_output_ephemeral_keys source_asset dest_asset
      use_view_tags d output_index st
    have h2 := fill_output_amount_burnt generate_output_ephemeral_keys source_asset dest_asset
      use_view_tags d output_index st
    rw [if_neg (fun h => h.1 he)] at h1 h2
    exact ⟨st', hst', hm.trans h1, hb.trans h2⟩

/-- C29: with a transaction version above 1 (the builder sets 2 or 3) the output-filling step
returns, and then: when `source_asset ≠ dest_asset`, `amount_minted` is the sum of `dest_amount`
and `amount_burnt` the sum of `amount` over exactly the destinations whose `dest_asset_type` is
`dest_asset`, in `uint64_t` arithmetic (the exact sums when they are below `2^64`); when
`source_asset = dest_asset` both tallies are 0. -/
theorem fill_outputs_step_tallies {PK : Type}
    (generate_output_ephemeral_keys : tx_destination_entry → Nat → PK × Nat)
    (version : Nat) (source_asset dest_asset : String) (use_view_tags : Bool)
    (vout : List (tx_out PK)) (destinations : List tx_destination_entry)
    (hv : version > 1) :
    ∃ st, fill_outputs_step generate_output_ephemeral_keys version source_asset dest_asset
        use_view_tags vout destinations = some st
      ∧ (source_asset ≠ dest_asset →
          st.amount_minted
            = ((destinations.filter (fun d => decide (d.dest_asset_type = dest_asset))).map
                (fun d => d.dest_amount)).sum % 2 ^ 64
          ∧ st.amount_burnt
            = ((destinations.filter (fun d => decide (d.dest_asset_type = dest_asset))).map
                (fun d => d.amount)).sum % 2 ^ 64
          ∧ (((destinations.filter (fun d => decide (d.dest_asset_type = dest_asset))).map
                (fun d => d.dest_amount)).sum < 2 ^ 64 →
              st.amount_minted
                = ((destinations.filter (fun d => decide (d.dest_asset_type = dest_asset))).map
                    (fun d => d.dest_amount)).sum)
          ∧ (((destinations.filter (fun d => decide (d.dest_asset_type = dest_asset))).map
                (fun d => d.amount)).sum < 2 ^ 64 →
              st.amount_burnt
                = ((destinations.filter (fun d => decide (d.dest_asset_type = dest_asset))).map
                    (fun d => d.amount)).sum))
      ∧ (source_asset = dest_asset → st.amount_minted = 0 ∧ st.amount_burnt = 0) := by
  by_cases hne : source_asset ≠ dest_asset
  · obtain ⟨st, hst, hm, hb, hml, hbl⟩ :=
      fill_outputs_conversion generate_output_ephemeral_keys version source_asset dest_asset
        use_view_tags hv hne destinations 0 ⟨vout, 0, 0, 0⟩
    have hml' : st.amount_minted < 2 ^ 64 := hml (by norm_num)
    have hbl' : st.amount_burnt < 2 ^ 64 := hbl (by norm_num)
    rw [Nat.mod_eq_of_lt hml'] at hm
    rw [Nat.mod_eq_of_lt hbl'] at hb
    simp only [Nat.zero_add] at hm hb
    refine ⟨st, hst, fun _ => ⟨hm, hb, ?_, ?_⟩, fun he => absurd he hne⟩
    · intro hfit
      rw [hm, Nat.mod_eq_of_lt hfit]
    · intro hfit
      rw [hb, Nat.mod_eq_of_lt hfit]
  · have he : source_asset = dest_asset := not_not.mp hne
    obtain ⟨st, hst, hm, hb⟩ :=
      fill_outputs_transfer generate_output_ephemeral_keys version source_asset dest_asset
        use_view_tags hv he destinations 0 ⟨vout, 0, 0, 0⟩
    exact ⟨st, hst, fun h => absurd h hne, fun _ => ⟨hm, hb⟩⟩

/-- A conversion from ZEPH to ZEPHUSD with two converted destinations and one change output:
the change output adds to neither tally. -/
theorem fill_outputs_step_tallies_witness :
    (fill_outputs_step (fun (d : tx_destination_entry) i => (d.amount + i, i)) 3 "ZEPH" "ZEPHUSD"
        true [] [⟨10, 20, "ZEPHUSD"⟩, ⟨4, 4, "ZEPH"⟩, ⟨1, 2, "ZEPHUSD"⟩]).map
      (fun st => (st.amount_minted, st.amount_burnt)) = some (22, 11) := by
  obtain ⟨st, hst, hconv, _⟩ :=
    fill_outputs_step_tallies (fun (d : tx_destination_entry) i => (d.amount + i, i)) 3 "ZEPH"
      "ZEPHUSD" true [] [⟨10, 20, "ZEPHUSD"⟩, ⟨4, 4, "ZEPH"⟩, ⟨1, 2, "ZEPHUSD"⟩] (by decide)
  rw [hst]
  obtain ⟨_, _, hm, hb⟩ := hconv (by decide)
  simp only [Option.map_some', hm (by decide), hb (by decide)]
  rfl

/-! ## C30: the order of the inputs -/

theorem memcmp_antisymm : ∀ (a b : List Nat) (n : Nat), memcmp a b n = - memcmp b a n
  | [], [], 0 => by simp [memcmp]
  | [], [], _ + 1 => by simp [memcmp]
  | [], _ :: _, 0 => by simp [memcmp]
  | [], _ :: _, _ + 1 => by simp [memcmp]
  | _ :: _, [], 0 => by simp [memcmp]
  | _ :: _, [], _ + 1 => by simp [memcmp]
  | _ :: _, _ :: _, 0 => by simp [memcmp]
  | a :: as, b :: bs, n + 1 => by
    simp only [memcmp]
    rcases Nat.lt_trichotomy a b with h | h | h
    · simp [h, Nat.lt_asymm h]
    · subst h
      simp [memcmp_antisymm as bs n]
    · simp [h, Nat.lt_asymm h]

theorem memcmp_eq_zero : ∀ (a b : List Nat) (n : Nat), a.length = n → b.length = n →
    memcmp a b n = 0 → a = b
  | [], [], _, _, _, _ => rfl
  | [], _ :: _, n, ha, hb, _ => by simp at ha hb; omega
  | _ :: _, [], n, ha, hb, _ => by simp at ha hb; omega
  | _ :: _, _ :: _, 0, ha, _, _ => by simp at ha
  | a :: as, b :: bs, n + 1, ha, hb, h => by
    simp only [memcmp] at h
    rcases Nat.lt_trichotomy a b with hlt | heq | hgt
    · simp [hlt] at h
    · subst heq
      simp only [Nat.lt_irrefl, if_false] at h
      rw [memcmp_eq_zero as bs n (by simpa using ha) (by simpa using hb) h]
    · simp [hgt, Nat.lt_asymm hgt] at h

theorem apply_permutation_range {α : Type} (xs : List α) :
    apply_permutation (List.range xs.length) xs = xs := by
  induction xs using List.reverseRecOn with
  | nil => rfl
  | append_singleton ys a ih =>
    unfold apply_permutation at ih ⊢
    rw [List.length_append, List.length_singleton, List.range_succ, List.filterMap_append]
    have h1 : List.filterMap (fun i => (ys ++ [a])[i]?) (List.range ys.length)
        = List.filterMap (fun i => ys[i]?) (List.range ys.length) := by
      apply List.filterMap_congr
      intro i hi
      rw [List.mem_range] at hi
      exact List.getElem?_append_left hi
    rw [h1, ih]
    simp

theorem apply_permutation_perm {α : Type} (permutation : List Nat) (xs : List α)
    (h : permutation.Perm (List.range xs.length)) : (apply_permutation permutation xs).Perm xs := by
  have h1 := List.Perm.filterMap (fun i => xs[i]?) h
  have h2 := apply_permutation_range xs
  unfold apply_permutation at h2 ⊢
  rw [h2] at h1
  exact h1

theorem apply_permutation_getElem? {α : Type} (xs : List α) :
    ∀ (permutation : List Nat) (i : Nat), (∀ j ∈ permutation, j < xs.length) →
      (apply_permutation permutation xs)[i]? = permutation[i]?.bind (fun (j : Nat) => xs[j]?)
  | [], i, _ => by simp [apply_permutation]
  | p :: ps, i, h => by
    have hp : p < xs.length := h p (List.mem_cons_self p ps)
    have hps : ∀ j ∈ ps, j < xs.length := fun j hj => h j (List.mem_cons_of_mem p hj)
    have ih := apply_permutation_getElem? xs ps
    unfold apply_permutation at ih ⊢
    rw [List.filterMap_cons, List.getElem?_eq_getElem hp]
    cases i with
    | zero => simp [List.getElem?_eq_getElem hp]
    | succ i => simpa using ih i hps

theorem apply_permutation_comp {α : Type} (order permutation : List Nat) (xs : List α)
    (h : ∀ j ∈ permutation, j < xs.length) :
    apply_permutation order (apply_permutation permutation xs)
      = apply_permutation (apply_permutation order permutation) xs := by
  have hf : (fun (j : Nat) => (apply_permutation permutation xs)[j]?)
      = fun (j : Nat) => permutation[j]?.bind (fun (i : Nat) => xs[i]?) := by
    funext j
    exact apply_permutation_getElem? xs permutation j h
  show List.filterMap (fun (j : Nat) => (apply_permutation permutation xs)[j]?) order
    = List.filterMap (fun (i : Nat) => xs[i]?)
        (List.filterMap (fun (j : Nat) => permutation[j]?) order)
  rw [hf, List.filterMap_filterMap]

theorem perm_range_lt {l : List Nat} {n : Nat} (h : l.Perm (List.range n)) :
    ∀ j ∈ l, j < n := fun _ hj => List.mem_range.mp (h.mem_iff.mp hj)

/-- The comparator on a permuted vector is the comparator on the vector at the permuted
indices. -/
theorem ins_less_apply_permutation (vin : List txin_v) (permutation : List Nat)
    (h : ∀ j ∈ permutation, j < vin.length) (a b i j : Nat)
    (ha : permutation[a]? = some i) (hb : permutation[b]? = some j) :
    ins_less (apply_permutation permutation vin) a b = ins_less vin i j := by
  unfold ins_less
  rw [apply_permutation_getElem? vin permutation a h,
    apply_permutation_getElem? vin permutation b h, ha, hb]
  rfl

/-- Distinct key images of 32 bytes are ordered one way or the other. -/
theorem ins_less_total (vin : List txin_v) (hnodup : (vin.map k_image_of).Nodup)
    (h32 : ∀ x ∈ vin, (k_image_of x).length = 32) (a b : Nat) (ha : a < vin.length)
    (hb : b < vin.length) (hab : a ≠ b) (h : ins_less vin b a = false) :
    ins_less vin a b = true := by
  unfold ins_less at h ⊢
  rw [List.getElem?_eq_getElem ha, List.getElem?_eq_getElem hb] at h ⊢
  simp only [decide_eq_false_iff_not, not_lt, decide_eq_true_eq, gt_iff_lt] at h ⊢
  have hne : k_image_of vin[a] ≠ k_image_of vin[b] := by
    intro he
    have ha' : a < (vin.map k_image_of).length := by simpa using ha
    have hb' : b < (vin.map k_image_of).length := by simpa using hb
    have he' : (vin.map k_image_of)[a] = (vin.map k_image_of)[b] := by
      simpa using he
    exact hab ((List.Nodup.getElem_inj_iff hnodup).mp he')
  have h0 : memcmp (k_image_of vin[a]) (k_image_of vin[b]) 32 ≠ 0 := fun h0 =>
    hne (memcmp_eq_zero _ _ 32 (h32 _ (List.getElem_mem ha)) (h32 _ (List.getElem_mem hb)) h0)
  have hanti := memcmp_antisymm (k_image_of vin[b]) (k_image_of vin[a]) 32
  omega

theorem ins_less_asymm (vin : List txin_v) (a b : Nat) (h : ins_less vin a b = true) :
    ins_less vin b a = false := by
  unfold ins_less at h ⊢
  cases ha : vin[a]? with
  | none => simp [ha] at h
  | some x =>
    cases hb : vin[b]? with
    | none => simp [ha, hb] at h
    | some y =>
      simp only [ha, hb, decide_eq_true_eq, gt_iff_lt, decide_eq_false_iff_not, not_lt] at h ⊢
      have hanti := memcmp_antisymm (k_image_of x) (k_image_of y) 32
      omega

/-- With distinct key images there is only one order of the indices that the contract of
`std::sort` allows. -/
theorem sorted_order_unique (vin : List txin_v) (hnodup : (vin.map k_image_of).Nodup)
    (h32 : ∀ x ∈ vin, (k_image_of x).length = 32) (l1 l2 : List Nat)
    (hp1 : l1.Perm (List.range vin.length)) (hp2 : l2.Perm (List.range vin.length))
    (hs1 : l1.Pairwise (fun a b => ins_less vin b a = false))
    (hs2 : l2.Pairwise (fun a b => ins_less vin b a = false)) : l1 = l2 := by
  have strict : ∀ l : List Nat, l.Perm (List.range vin.length) →
      l.Pairwise (fun a b => ins_less vin b a = false) →
      l.Pairwise (fun a b => ins_less vin a b = true) := by
    intro l hp hs
    have hnd : l.Nodup := hp.nodup_iff.mpr (List.nodup_range _)
    have hboth := List.Pairwise.and hs hnd
    refine List.Pairwise.imp_of_mem ?_ hboth
    intro a b ha hb hab
    exact ins_less_total vin hnodup h32 a b (perm_range_lt hp a ha) (perm_range_lt hp b hb)
      hab.2 hab.1
  haveI : IsAntisymm Nat (fun a b => ins_less vin a b = true) :=
    ⟨fun a b hab hba => by
      have := ins_less_asymm vin a b hab
      rw [this] at hba
      exact absurd hba (by simp)⟩
  exact List.eq_of_perm_of_sorted (hp1.trans hp2.symm) (strict l1 hp1 hs1) (strict l2 hp2 hs2)

/-- C30: when `std::sort` meets its contract, after the input-ordering step the inputs are in
non-increasing `memcmp` order of their key images and are a permutation of the inputs before the
step; one permutation `order` is applied to `tx.vin`, `in_contexts` and `sources`, so position
`i` of each of the three holds what position `order[i]` held before; and when the key images are
distinct (and 32 bytes long) the result is the same for every order in which the caller supplies
the sources. -/
theorem sort_inputs_spec {Ctx Src : Type} (sort : (Nat → Nat → Bool) → List Nat → List Nat)
    (st : inputs_state Ctx Src)
    (hvin : st.vin.length = st.sources.length)
    (hctx : st.in_contexts.length = st.sources.length)
    (hsort : sort_contract sort (ins_less st.vin) (List.range st.sources.length)) :
    (sort_inputs sort st).vin.Perm st.vin
    ∧ (sort_inputs sort st).vin.Pairwise
        (fun x y => 0 ≤ memcmp (k_image_of x) (k_image_of y) 32)
    ∧ (∃ order : List Nat, order.Perm (List.range st.sources.length)
        ∧ ∀ i, i < st.sources.length →
          ∃ j, j < st.sources.length ∧ order[i]? = some j
            ∧ (sort_inputs sort st).vin[i]? = st.vin[j]?
            ∧ (sort_inputs sort st).in_contexts[i]? = st.in_contexts[j]?
            ∧ (sort_inputs sort st).sources[i]? = st.sources[j]?)
    ∧ ((st.vin.map k_image_of).Nodup → (∀ x ∈ st.vin, (k_image_of x).length = 32) →
        ∀ (sort' : (Nat → Nat → Bool) → List Nat → List Nat) (supplied : List Nat),
          supplied.Perm (List.range st.sources.length) →
          sort_contract sort' (ins_less (apply_permutation supplied st.vin))
            (List.range st.sources.length) →
          sort_inputs sort' ⟨apply_permutation supplied st.vin,
              apply_permutation supplied st.in_contexts,
              apply_permutation supplied st.sources⟩
            = sort_inputs sort st) := by
  obtain ⟨hperm, hsorted⟩ := hsort
  have hlt := perm_range_lt hperm
  refine ⟨?_, ?_, ?_, ?_⟩
  · exact apply_permutation_perm _ _ (by rw [hvin]; exact hperm)
  · show (apply_permutation (sort (ins_less st.vin) (List.range st.sources.length))
      st.vin).Pairwise _
    unfold apply_permutation
    rw [List.pairwise_filterMap]
    refine List.Pairwise.imp_of_mem ?_ hsorted
    intro a b ha hb hab x hx y hy
    have ha' : a < st.vin.length := by rw [hvin]; exact hlt a ha
    have hb' : b < st.vin.length := by rw [hvin]; exact hlt b hb
    rw [Option.mem_def] at hx hy
    unfold ins_less at hab
    rw [hx, hy] at hab
    simp only [decide_eq_false_iff_not, not_lt, gt_iff_lt] at hab
    have hanti := memcmp_antisymm (k_image_of x) (k_image_of y) 32
    omega
  · refine ⟨sort (ins_less st.vin) (List.range st.sources.length), hperm, ?_⟩
    intro i hi
    have hlen : (sort (ins_less st.vin) (List.range st.sources.length)).length
        = st.sources.length := by
      rw [hperm.length_eq, List.length_range]
    have hi' : i < (sort (ins_less st.vin) (List.range st.sources.length)).length := by
      rw [hlen]; exact hi
    refine ⟨(sort (ins_less st.vin) (List.range st.sources.length))[i],
      hlt _ (List.getElem_mem hi'), List.getElem?_eq_getElem hi', ?_, ?_, ?_⟩
    · show (apply_permutation _ st.vin)[i]? = _
      rw [apply_permutation_getElem? _ _ _ (by rw [hvin]; exact hlt),
        List.getElem?_eq_getElem hi']
      rfl
    · show (apply_permutation _ st.in_contexts)[i]? = _
      rw [apply_permutation_getElem? _ _ _ (by rw [hctx]; exact hlt),
        List.getElem?_eq_getElem hi']
      rfl
    · show (apply_permutation _ st.sources)[i]? = _
      rw [apply_permutation_getElem? _ _ _ hlt, List.getElem?_eq_getElem hi']
      rfl
  · intro hnodup h32 sort' supplied hsup hsort'
    obtain ⟨hperm', hsorted'⟩ := hsort'
    have hsuplt := perm_range_lt hsup
    have hlt' := perm_range_lt hperm'
    have hsuplen : supplied.length = st.sources.length := by
      rw [hsup.length_eq, List.length_range]
    have hlen' : (apply_permutation supplied st.sources).length = st.sources.length :=
      (apply_permutation_perm _ _ hsup).length_eq
    -- the composed order is a permutation of the indices
    have hcomp_perm : (apply_permutation
        (sort' (ins_less (apply_permutation supplied st.vin)) (List.range st.sources.length))
        supplied).Perm (List.range st.vin.length) := by
      rw [hvin]
      exact (apply_permutation_perm _ _ (by rw [hsuplen]; exact hperm')).trans hsup
    -- and it is sorted for the comparator on the inputs before the step
    have hcomp_sorted : (apply_permutation
        (sort' (ins_less (apply_permutation supplied st.vin)) (List.range st.sources.length))
        supplied).Pairwise (fun a b => ins_less st.vin b a = false) := by
      unfold apply_permutation
      rw [List.pairwise_filterMap]
      refine List.Pairwise.imp ?_ hsorted'
      intro a b hab i hi j hj
      rw [Option.mem_def] at hi hj
      rw [← ins_less_apply_permutation st.vin supplied (by rw [hvin]; exact hsuplt) b a j i
        hj hi]
      exact hab
    have horder := sorted_order_unique st.vin hnodup h32 _ _ hcomp_perm
      (by rw [hvin]; exact hperm) hcomp_sorted hsorted
    unfold sort_inputs
    simp only [hlen']
    rw [apply_permutation_comp _ _ _ (by rw [hvin]; exact hsuplt),
      apply_permutation_comp _ _ _ (by rw [hctx]; exact hsuplt),
      apply_permutation_comp _ _ _ hsuplt, horder]

/-- Three inputs with distinct key images, supplied in two different orders, come out in the
same order, highest key image first, with their contexts and sources. -/
theorem sort_inputs_spec_witness :
    (sort_inputs insertion_sort (⟨[txin_v.txin_zephyr_key 1 "ZEPH" [] [1, 2],
        txin_v.txin_zephyr_key 2 "ZEPH" [] [3, 0], txin_v.txin_zephyr_key 3 "ZEPH" [] [1, 5]],
        ["a", "b", "c"], [10, 20, 30]⟩ : inputs_state String Nat)).vin.Perm
      [txin_v.txin_zephyr_key 1 "ZEPH" [] [1, 2],
        txin_v.txin_zephyr_key 2 "ZEPH" [] [3, 0], txin_v.txin_zephyr_key 3 "ZEPH" [] [1, 5]] :=
  (sort_inputs_spec insertion_sort (⟨[txin_v.txin_zephyr_key 1 "ZEPH" [] [1, 2],
        txin_v.txin_zephyr_key 2 "ZEPH" [] [3, 0], txin_v.txin_zephyr_key 3 "ZEPH" [] [1, 5]],
        ["a", "b", "c"], [10, 20, 30]⟩ : inputs_state String Nat) (by decide) (by decide)
    (by unfold sort_contract; decide)).1

/-! ## C34: resolved pairs without a transaction type -/

/-- C34. A transaction resolved with `is_miner_tx = false` whose inputs are all key inputs of
type ZEPHUSD and whose outputs carry exactly the types ZEPHUSD and ZEPHRSV resolves to
(ZEPHUSD, ZEPHRSV), and likewise with ZEPHRSV inputs to (ZEPHRSV, ZEPHUSD); `get_tx_type`
rejects both pairs. So a pair accepted by `get_tx_asset_types` need not have a transaction
type. -/
theorem get_tx_asset_types_without_tx_type :
    (∀ {Out : Type} (output_asset : Out → Option String) (vin : List txin_v) (vout : List Out),
      vin ≠ [] →
      (∀ i ∈ vin, ∃ am ko ki, i = txin_v.txin_zephyr_key am "ZEPHUSD" ko ki) →
      (∀ o ∈ vout, output_asset o = some "ZEPHUSD" ∨ output_asset o = some "ZEPHRSV") →
      (∃ o ∈ vout, output_asset o = some "ZEPHUSD") →
      (∃ o ∈ vout, output_asset o = some "ZEPHRSV") →
      get_tx_asset_types output_asset ⟨vin, vout⟩ false = some ("ZEPHUSD", "ZEPHRSV"))
    ∧ (∀ {Out : Type} (output_asset : Out → Option String) (vin : List txin_v)
        (vout : List Out),
      vin ≠ [] →
      (∀ i ∈ vin, ∃ am ko ki, i = txin_v.txin_zephyr_key am "ZEPHRSV" ko ki) →
      (∀ o ∈ vout, output_asset o = some "ZEPHRSV" ∨ output_asset o = some "ZEPHUSD") →
      (∃ o ∈ vout, output_asset o = some "ZEPHRSV") →
      (∃ o ∈ vout, output_asset o = some "ZEPHUSD") →
      get_tx_asset_types output_asset ⟨vin, vout⟩ false = some ("ZEPHRSV", "ZEPHUSD"))
    ∧ get_tx_type "ZEPHUSD" "ZEPHRSV" = none
    ∧ get_tx_type "ZEPHRSV" "ZEPHUSD" = none
    ∧ get_tx_asset_types some
        ⟨[txin_v.txin_zephyr_key 9 "ZEPHUSD" [] [1]], ["ZEPHUSD", "ZEPHRSV"]⟩ false
      = some ("ZEPHUSD", "ZEPHRSV")
    ∧ get_tx_asset_types some
        ⟨[txin_v.txin_zephyr_key 9 "ZEPHRSV" [] [1]], ["ZEPHRSV", "ZEPHUSD"]⟩ false
      = some ("ZEPHRSV", "ZEPHUSD") := by
  refine ⟨?_, ?_, by decide, by decide, by decide, by decide⟩
  · intro Out output_asset vin vout hne hin hout hos hod
    exact get_tx_asset_types_of_single_source output_asset "ZEPHUSD" "ZEPHRSV" vin vout
      (by decide) (by decide) hne hin hout hos hod
  · intro Out output_asset vin vout hne hin hout hos hod
    exact get_tx_asset_types_of_single_source output_asset "ZEPHRSV" "ZEPHUSD" vin vout
      (by decide) (by decide) hne hin hout hos hod

/-! ## C35: transactions with two input asset types -/

/-- What a successful resolution of a transaction with two distinct input asset types, outside a
miner transaction, has found. -/
theorem get_tx_asset_types_two_inputs_success {Out : Type} (output_asset : Out → Option String)
    (tx : transaction Out) (source destination : String)
    (h2 : (tx.vin.filterMap input_asset_type).dedup.length = 2)
    (hok : get_tx_asset_types output_asset tx false = some (source, destination)) :
    source = "ZEPHUSD" ∧ destination = "ZEPH"
    ∧ (∀ x, x ∈ tx.vout.filterMap output_asset ↔ x = "ZEPH" ∨ x = "ZEPHUSD")
    ∧ (tx.vout.filterMap output_asset).dedup.length = 2 := by
  obtain ⟨sat, dat, hsat, hsrc, hdat, hdst, _, _⟩ :=
    (get_tx_asset_types_eq_some_iff output_asset tx false source destination).mp hok
  obtain ⟨hasc, hmem⟩ := source_asset_types_of_eq_some false tx.vin [] sat hsat
    (by simp [ascending])
  have hlen : sat.length = 2 := by
    rw [ascending_length_eq_dedup sat (tx.vin.filterMap input_asset_type) hasc
      (fun x => by rw [hmem x]; simp)]
    exact h2
  obtain ⟨hdasc, hdmem⟩ := destination_asset_types_of_eq_some output_asset tx.vout [] dat hdat
    (by simp [ascending])
  have hdmem' : ∀ x, x ∈ dat ↔ x ∈ tx.vout.filterMap output_asset := fun x => by
    rw [hdmem x]; simp
  have hsource : source = "ZEPHUSD" := by
    rcases resolve_source_length sat source hsrc with ⟨h1, _⟩ | ⟨_, hs, _⟩
    · omega
    · exact hs
  subst hsource
  -- the destination set has two members, ZEPH and ZEPHUSD
  rcases dat with _ | ⟨a, _ | ⟨b, _ | ⟨c, rest⟩⟩⟩
  · simp [resolve_destination] at hdst
  · simp [resolve_destination, hlen] at hdst
  · have hnd := ascending_nodup _ hdasc
    simp only [resolve_destination, hlen, List.length_cons, List.length_nil,
      List.getD_cons_zero, List.getD_cons_succ, Bool.false_eq_true, if_false, true_and] at hdst
    norm_num at hdst
    obtain ⟨hp, hd⟩ := hdst
    have hlen2 : (tx.vout.filterMap output_asset).dedup.length = 2 := by
      rw [← ascending_length_eq_dedup _ _ hdasc hdmem']
      rfl
    have hpair : (a = "ZEPH" ∧ b = "ZEPHUSD") ∨ (a = "ZEPHUSD" ∧ b = "ZEPH") := by
      by_cases ha : a = "ZEPH"
      · by_cases hb : b = "ZEPHUSD"
        · exact Or.inl ⟨ha, hb⟩
        · exact Or.inr (hp (fun _ => hb))
      · exact Or.inr (hp (fun h => absurd h ha))
    rcases hpair with ⟨ha, hb⟩ | ⟨ha, hb⟩
    · subst ha hb
      have hdest : "ZEPH" = destination := by
        have h' : (if "ZEPH" = "ZEPHUSD" then some "ZEPHUSD"
            else if "ZEPHUSD" = "ZEPHUSD" then some "ZEPH" else none) = some "ZEPH" := by
          decide
        rw [h'] at hd
        exact Option.some.inj hd
      refine ⟨rfl, hdest.symm, ?_, hlen2⟩
      intro x
      rw [← hdmem' x]
      simp
    · subst ha hb
      have hdest : "ZEPH" = destination := by
        have h' : (if "ZEPHUSD" = "ZEPHUSD" then some "ZEPH"
            else if "ZEPH" = "ZEPHUSD" then some "ZEPHUSD" else none) = some "ZEPH" := by
          decide
        rw [h'] at hd
        exact Option.some.inj hd
      refine ⟨rfl, hdest.symm, ?_, hlen2⟩
      intro x
      rw [← hdmem' x]
      simp only [List.mem_cons, List.mem_singleton, List.not_mem_nil, or_false]
      tauto
  · simp [resolve_destination] at hdst

/-- C35. Whenever `get_tx_asset_types` succeeds with `is_miner_tx = false` on a transaction
whose inputs carry two distinct asset types, the output asset types are exactly ZEPH and ZEPHUSD
and the resolved pair is (ZEPHUSD, ZEPH), which `get_tx_type` classifies as REDEEM_STABLE; and
such a transaction whose outputs carry a single asset type is rejected. -/
theorem get_tx_asset_types_two_inputs {Out : Type} (output_asset : Out → Option String)
    (tx : transaction Out)
    (h2 : (tx.vin.filterMap input_asset_type).dedup.length = 2) :
    (∀ source destination,
      get_tx_asset_types output_asset tx false = some (source, destination) →
      source = "ZEPHUSD" ∧ destination = "ZEPH"
      ∧ (∀ x, x ∈ tx.vout.filterMap output_asset ↔ x = "ZEPH" ∨ x = "ZEPHUSD")
      ∧ get_tx_type source destination = some transaction_type.REDEEM_STABLE)
    ∧ ((tx.vout.filterMap output_asset).dedup.length = 1 →
        get_tx_asset_types output_asset tx false = none) := by
  constructor
  · intro source destination hok
    obtain ⟨hs, hd, hmem, _⟩ :=
      get_tx_asset_types_two_inputs_success output_asset tx source destination h2 hok
    refine ⟨hs, hd, hmem, ?_⟩
    rw [hs, hd]
    decide
  · intro h1
    cases hres : get_tx_asset_types output_asset tx false with
    | none => rfl
    | some p =>
      obtain ⟨source, destination⟩ := p
      have := (get_tx_asset_types_two_inputs_success output_asset tx source destination h2
        hres).2.2.2
      omega

/-- Inputs of types ZEPH and ZEPHUSD with outputs of types ZEPH and ZEPHUSD resolve to
(ZEPHUSD, ZEPH). -/
theorem get_tx_asset_types_two_inputs_witness :
    get_tx_asset_types some
        ⟨[txin_v.txin_zephyr_key 5 "ZEPH" [] [1], txin_v.txin_zephyr_key 7 "ZEPHUSD" [] [2]],
          ["ZEPH", "ZEPHUSD"]⟩ false = some ("ZEPHUSD", "ZEPH")
    ∧ get_tx_type "ZEPHUSD" "ZEPH" = some transaction_type.REDEEM_STABLE :=
  have hok : get_tx_asset_types some
        ⟨[txin_v.txin_zephyr_key 5 "ZEPH" [] [1], txin_v.txin_zephyr_key 7 "ZEPHUSD" [] [2]],
          ["ZEPH", "ZEPHUSD"]⟩ false = some ("ZEPHUSD", "ZEPH") := by decide
  ⟨hok, ((get_tx_asset_types_two_inputs some
      ⟨[txin_v.txin_zephyr_key 5 "ZEPH" [] [1], txin_v.txin_zephyr_key 7 "ZEPHUSD" [] [2]],
        ["ZEPH", "ZEPHUSD"]⟩ (by decide)).1 "ZEPHUSD" "ZEPH" hok).2.2.2⟩

/-! ## C36: zero liabilities with a positive reserve -/

/-- C36. With reserve coins outstanding, a positive exchange rate, a positive post-transaction
reserve `A = zeph_reserve + tally_zeph` (as computed in `uint64_t`) and post-transaction
liabilities `floor((num_stable + tally_stables) * COIN / rate) = 0`, the ratio is infinite:
`reserve_ratio_satisfied` rejects MINT_RESERVE and accepts MINT_STABLE and REDEEM_RESERVE. The
liabilities are zero in particular when no stable coin is outstanding and `tally_stables = 0`. -/
theorem reserve_ratio_satisfied_infinite_ratio (quot : Nat → Nat → ℚ) (to_string : dec_float → String)
    (circ_amounts : List (String × String)) (pr : pricing_record)
    (tally_zeph tally_stables tally_reserves : Int) (error_reason : String)
    (zeph_reserve num_reserve num_stable : Nat)
    (hzr : circ_lookup circ_amounts "ZEPH" = some zeph_reserve)
    (hnr : circ_lookup circ_amounts "ZEPHRSV" = some num_reserve)
    (hns : circ_lookup circ_amounts "ZEPHUSD" = some num_stable)
    (hnr0 : 0 < num_reserve) (hrate : 0 < pr.zEPHUSD)
    (hA : 0 < wrap64 (zeph_reserve + tally_zeph))
    (hL : wrap64 (num_stable + tally_stables) * COIN / pr.zEPHUSD = 0) :
    dec_div quot (wrap64 (zeph_reserve + tally_zeph))
        (wrap64 (num_stable + tally_stables) * COIN / pr.zEPHUSD) = dec_float.inf
    ∧ (reserve_ratio_satisfied quot to_string circ_amounts pr transaction_type.MINT_RESERVE
        tally_zeph tally_stables tally_reserves error_reason).map Prod.fst = some false
    ∧ (reserve_ratio_satisfied quot to_string circ_amounts pr transaction_type.MINT_STABLE
        tally_zeph tally_stables tally_reserves error_reason).map Prod.fst = some true
    ∧ (reserve_ratio_satisfied quot to_string circ_amounts pr transaction_type.REDEEM_RESERVE
        tally_zeph tally_stables tally_reserves error_reason).map Prod.fst = some true
    ∧ (num_stable = 0 → tally_stables = 0 →
        wrap64 (num_stable + tally_stables) * COIN / pr.zEPHUSD = 0) := by
  have hinf : dec_div quot (wrap64 (zeph_reserve + tally_zeph))
      (wrap64 (num_stable + tally_stables) * COIN / pr.zEPHUSD) = dec_float.inf := by
    rw [hL]
    simp [dec_div, Nat.pos_iff_ne_zero.mp hA]
  refine ⟨hinf, ?_, ?_, ?_, ?_⟩
  · rw [reserve_ratio_satisfied_eq_policy quot to_string circ_amounts pr _ tally_zeph tally_stables
      tally_reserves error_reason zeph_reserve num_reserve num_stable hzr hnr hns hnr0 hrate,
      hinf]
    simp [ratio_policy, dec_ge]
  · rw [reserve_ratio_satisfied_eq_policy quot to_string circ_amounts pr _ tally_zeph tally_stables
      tally_reserves error_reason zeph_reserve num_reserve num_stable hzr hnr hns hnr0 hrate,
      hinf]
    simp [ratio_policy, dec_lt]
  · rw [reserve_ratio_satisfied_eq_policy quot to_string circ_amounts pr _ tally_zeph tally_stables
      tally_reserves error_reason zeph_reserve num_reserve num_stable hzr hnr hns hnr0 hrate,
      hinf]
    simp [ratio_policy, dec_lt]
  · intro h0 ht
    rw [h0, ht]
    simp [wrap64]

/-- With 400 ZEPH in reserve, 5 reserve coins and no stable coin, a MINT_RESERVE that adds 10
ZEPH is rejected. -/
theorem reserve_ratio_satisfied_infinite_ratio_witness :
    (reserve_ratio_satisfied truncated_quotient (fun _ => "") [("ZEPH", "400"), ("ZEPHRSV", "5")]
        ⟨1000000000000, 0⟩ transaction_type.MINT_RESERVE 10 0 1 "").map Prod.fst = some false :=
  (reserve_ratio_satisfied_infinite_ratio truncated_quotient (fun _ => "") [("ZEPH", "400"), ("ZEPHRSV", "5")]
    ⟨1000000000000, 0⟩ 10 0 1 "" 400 5 0 (by decide) (by decide) (by decide) (by decide)
    (by decide) (by decide) (by decide)).2.1

/-! ## C37: the loss of the stable round trip -/

/-- The algebra of the round trip over the integers: from the four divisions with their
remainders `a`, `b`, `c`, `d`, the loss `x - y` is bounded. -/
theorem round_trip_loss_int (x r s q R y a b c d : Int)
    (e1 : x * r = 10 ^ 12 * s + a) (e2 : (10 : Int) ^ 24 = r * q + b) (e3 : q = R + c)
    (e4 : s * R = 10 ^ 12 * y + d)
    (hr : 0 < r) (hx0 : 0 ≤ x)
    (ha0 : 0 ≤ a) (hb0 : 0 ≤ b) (hc0 : 0 ≤ c) (hd0 : 0 ≤ d)
    (ha : a ≤ 10 ^ 12 - 1) (hb : b ≤ r - 1) (hc : c ≤ 10 ^ 8 - 1) (hd : d ≤ 10 ^ 12 - 1)
    (has : 0 ≤ s) :
    y ≤ x ∧ (x - y) * 10 ^ 16 * r < x * r ^ 2 + 10 ^ 28 + 10 ^ 16 * r := by
  have key : (10 : Int) ^ 24 * r * (x - y)
      = x * r * b + x * r ^ 2 * c + 10 ^ 24 * a - a * b - a * r * c + 10 ^ 12 * r * d := by
    linear_combination (10 ^ 24 - b - r * c) * e1 + 10 ^ 12 * s * e2
      + 10 ^ 12 * r * s * e3 + 10 ^ 12 * r * e4
  have hxr : 0 ≤ x * r := mul_nonneg hx0 hr.le
  have hr2 : 0 ≤ x * r ^ 2 := mul_nonneg hx0 (by positivity)
  have p1 : x * r * b ≤ x * r * (r - 1) := mul_le_mul_of_nonneg_left hb hxr
  have p2 : x * r ^ 2 * c ≤ x * r ^ 2 * (10 ^ 8 - 1) := mul_le_mul_of_nonneg_left hc hr2
  have p3 : 0 ≤ a * b := mul_nonneg ha0 hb0
  have p4 : 0 ≤ a * r * c := mul_nonneg (mul_nonneg ha0 hr.le) hc0
  have hr12 : (0 : Int) ≤ 10 ^ 12 * r := by positivity
  have p5 : 10 ^ 12 * r * d ≤ 10 ^ 12 * r * (10 ^ 12 - 1) := mul_le_mul_of_nonneg_left hd hr12
  have hpos : (0 : Int) < 10 ^ 24 * r := by positivity
  constructor
  · by_contra hlt
    have hlt' : x - y ≤ -1 := by
      have := not_le.mp hlt
      linarith
    have hneg : 10 ^ 24 * r * (x - y) ≤ 10 ^ 24 * r * (-1) :=
      mul_le_mul_of_nonneg_left hlt' hpos.le
    have har : a ≤ x * r := by
      have h0 : (0 : Int) ≤ 10 ^ 12 * s := by positivity
      linarith
    have q1 : a * b ≤ a * 10 ^ 24 := by
      have hb24 : b ≤ 10 ^ 24 := by
        have hrq : 0 ≤ r * q := by
          have hq0 : 0 ≤ q := by
            by_contra hq
            have hq' : q ≤ -1 := by
              have := not_le.mp hq
              linarith
            have h1 : r * q ≤ r * (-1) := mul_le_mul_of_nonneg_left hq' hr.le
            linarith
          exact mul_nonneg hr.le hq0
        linarith
      exact mul_le_mul_of_nonneg_left hb24 ha0
    have q2 : a * (r * c) ≤ x * r * (r * c) :=
      mul_le_mul_of_nonneg_right har (mul_nonneg hr.le hc0)
    have q3 : 0 ≤ x * r * b := mul_nonneg hxr hb0
    have q4 : (0 : Int) ≤ 10 ^ 12 * r * d := mul_nonneg hr12 hd0
    have e5 : a * (r * c) = a * r * c := by ring
    have e6 : x * r * (r * c) = x * r ^ 2 * c := by ring
    rw [e5, e6] at q2
    linarith
  · have e7 : (10 : Int) ^ 8 * ((x - y) * 10 ^ 16 * r) = 10 ^ 24 * r * (x - y) := by ring
    have e8 : (10 : Int) ^ 8 * (x * r ^ 2 + 10 ^ 28 + 10 ^ 16 * r)
        = x * r * (r - 1) + x * r ^ 2 * (10 ^ 8 - 1) + 10 ^ 24 * (10 ^ 12 - 1)
          + 10 ^ 12 * r * (10 ^ 12 - 1) + (x * r + 10 ^ 24 + 10 ^ 12 * r) := by ring
    have h24 : (10 : Int) ^ 24 * a ≤ 10 ^ 24 * (10 ^ 12 - 1) :=
      mul_le_mul_of_nonneg_left ha (by positivity)
    have hlt : (10 : Int) ^ 8 * ((x - y) * 10 ^ 16 * r)
        < 10 ^ 8 * (x * r ^ 2 + 10 ^ 28 + 10 ^ 16 * r) := by
      rw [e7, e8, key]
      have : (0 : Int) < 10 ^ 24 := by positivity
      linarith
    exact lt_of_mul_lt_mul_left hlt (by positivity)

/-- The arithmetic of the round trip: with `s = floor(x r / 10^12)`, `q = floor(10^24 / r)`,
`R = q - q mod 10^8` and `y = floor(s R / 10^12)`, the loss `x - y` is bounded. -/
theorem round_trip_loss (x r : Nat) (hr : 0 < r) :
    x * r / 10 ^ 12 * (10 ^ 24 / r - 10 ^ 24 / r % 10 ^ 8) / 10 ^ 12 ≤ x
    ∧ (x - x * r / 10 ^ 12 * (10 ^ 24 / r - 10 ^ 24 / r % 10 ^ 8) / 10 ^ 12) * 10 ^ 16 * r
        < x * r ^ 2 + 10 ^ 28 + 10 ^ 16 * r := by
  obtain ⟨s, hs⟩ : ∃ s, s = x * r / 10 ^ 12 := ⟨_, rfl⟩
  obtain ⟨q, hq⟩ : ∃ q, q = 10 ^ 24 / r := ⟨_, rfl⟩
  obtain ⟨R, hR⟩ : ∃ R, R = q - q % 10 ^ 8 := ⟨_, rfl⟩
  obtain ⟨y, hy⟩ : ∃ y, y = s * R / 10 ^ 12 := ⟨_, rfl⟩
  rw [← hs, ← hq, ← hR, ← hy]
  have h1 : x * r = 10 ^ 12 * s + x * r % 10 ^ 12 := by
    rw [hs]; exact (Nat.div_add_mod _ _).symm
  have ha : x * r % 10 ^ 12 < 10 ^ 12 := Nat.mod_lt _ (by norm_num)
  have h2 : 10 ^ 24 = r * q + 10 ^ 24 % r := by
    rw [hq]; exact (Nat.div_add_mod _ _).symm
  have hb : 10 ^ 24 % r < r := Nat.mod_lt _ hr
  have hc : q % 10 ^ 8 < 10 ^ 8 := Nat.mod_lt _ (by norm_num)
  have h3 : q = R + q % 10 ^ 8 := by
    have := Nat.mod_le q (10 ^ 8)
    omega
  have h4 : s * R = 10 ^ 12 * y + s * R % 10 ^ 12 := by
    rw [hy]; exact (Nat.div_add_mod _ _).symm
  have hd : s * R % 10 ^ 12 < 10 ^ 12 := Nat.mod_lt _ (by norm_num)
  generalize x * r % 10 ^ 12 = a at h1 ha
  generalize (10 : Nat) ^ 24 % r = b at h2 hb
  generalize q % 10 ^ 8 = c at h3 hc
  generalize s * R % 10 ^ 12 = d at h4 hd
  have hInt := round_trip_loss_int x r s q R y a b c d (by exact_mod_cast h1)
    (by exact_mod_cast h2) (by exact_mod_cast h3) (by exact_mod_cast h4)
    (by exact_mod_cast hr) (Int.ofNat_nonneg x) (Int.ofNat_nonneg a) (Int.ofNat_nonneg b)
    (Int.ofNat_nonneg c) (Int.ofNat_nonneg d)
    (by have : a + 1 ≤ 10 ^ 12 := ha
        have h := Int.ofNat_le.mpr this
        push_cast at h
        linarith)
    (by have : b + 1 ≤ r := hb
        have h := Int.ofNat_le.mpr this
        push_cast at h
        linarith)
    (by have : c + 1 ≤ 10 ^ 8 := hc
        have h := Int.ofNat_le.mpr this
        push_cast at h
        linarith)
    (by have : d + 1 ≤ 10 ^ 12 := hd
        have h := Int.ofNat_le.mpr this
        push_cast at h
        linarith)
    (Int.ofNat_nonneg s)
  have hle : y ≤ x := by exact_mod_cast hInt.1
  refine ⟨hle, ?_⟩
  have hcast : (((x - y) * 10 ^ 16 * r : Nat) : Int) = ((x : Int) - y) * 10 ^ 16 * r := by
    push_cast [Nat.cast_sub hle]
    ring
  have hfin : (((x - y) * 10 ^ 16 * r : Nat) : Int)
      < ((x * r ^ 2 + 10 ^ 28 + 10 ^ 16 * r : Nat) : Int) := by
    rw [hcast]
    push_cast
    exact hInt.2
  exact_mod_cast hfin

/-- The value of `get_zeph_amount` when the quotient fits in 64 bits. -/
theorem get_zeph_amount_eq_of_fit (a : Nat) (pr : pricing_record) (hrate : 0 < pr.zEPHUSD)
    (h : a * (10 ^ 24 / pr.zEPHUSD - 10 ^ 24 / pr.zEPHUSD % 10 ^ 8) / COIN < 2 ^ 64) :
    get_zeph_amount a pr
      = some (a * (10 ^ 24 / pr.zEPHUSD - 10 ^ 24 / pr.zEPHUSD % 10 ^ 8) / COIN) := by
  have hq : 1000000000000000000000000 / pr.zEPHUSD < 2 ^ 128 :=
    lt_of_le_of_lt (Nat.div_le_self _ _) (by norm_num)
  have hR : sub128 (1000000000000000000000000 / pr.zEPHUSD)
      (1000000000000000000000000 / pr.zEPHUSD % 100000000)
      = 10 ^ 24 / pr.zEPHUSD - 10 ^ 24 / pr.zEPHUSD % 10 ^ 8 := by
    rw [sub128_eq _ _ (Nat.mod_le _ _) hq]
    norm_num
  have hC : COIN = 1000000000000 := rfl
  have hprod : a * (10 ^ 24 / pr.zEPHUSD - 10 ^ 24 / pr.zEPHUSD % 10 ^ 8) < 2 ^ 128 := by
    have h1 := Nat.lt_mul_of_div_lt h (by decide : 0 < COIN)
    refine lt_trans h1 ?_
    rw [hC]
    norm_num
  rw [get_zeph_amount_of_pos a pr hrate, hR]
  unfold to_uint64 mul128
  rw [Nat.mod_eq_of_lt hprod, Nat.mod_eq_of_lt h]

/-- C37. For every 64-bit amount `x` and rate `r = pr.zEPHUSD > 0` with
`x * r / 10^12 < 2^64`, the round trip returns a value `y`, with `y ≤ x` and
`(x - y) * 10^16 * r < x * r^2 + 10^28 + 10^16 * r`. -/
theorem get_zeph_amount_get_stable_amount_loss (x : Nat) (pr : pricing_record)
    (hx : x < 2 ^ 64) (hrate : 0 < pr.zEPHUSD) (hfit : x * pr.zEPHUSD / 10 ^ 12 < 2 ^ 64) :
    ∃ y, get_zeph_amount (get_stable_amount x pr) pr = some y ∧ y ≤ x
      ∧ (x - y) * 10 ^ 16 * pr.zEPHUSD
          < x * pr.zEPHUSD ^ 2 + 10 ^ 28 + 10 ^ 16 * pr.zEPHUSD := by
  obtain ⟨hle, hloss⟩ := round_trip_loss x pr.zEPHUSD hrate
  -- the stable amount is exact
  have hprod : x * pr.zEPHUSD < 2 ^ 128 := by
    have h1 := Nat.lt_mul_of_div_lt hfit (by norm_num : 0 < 10 ^ 12)
    exact lt_trans h1 (by norm_num)
  have hs : get_stable_amount x pr = x * pr.zEPHUSD / 10 ^ 12 := by
    simp only [get_stable_amount, to_uint64, mul128, Nat.mod_eq_of_lt hprod]
    exact Nat.mod_eq_of_lt hfit
  -- the product of the way back fits in 128 bits, the quotient in 64
  have hy64 : x * pr.zEPHUSD / 10 ^ 12
      * (10 ^ 24 / pr.zEPHUSD - 10 ^ 24 / pr.zEPHUSD % 10 ^ 8) / 10 ^ 12 < 2 ^ 64 :=
    lt_of_le_of_lt hle hx
  have hC : COIN = 10 ^ 12 := by decide
  have hval := (get_zeph_amount_eq_of_fit (x * pr.zEPHUSD / 10 ^ 12) pr hrate
    (by rw [hC]; exact hy64))
  refine ⟨_, by rw [hs]; exact hval, by rw [hC]; exact hle, by rw [hC]; exact hloss⟩

/-- The round trip of `10^12` at the rate `2 * 10^12` returns `10^12`. -/
theorem get_zeph_amount_get_stable_amount_loss_witness :
    ∃ y, get_zeph_amount (get_stable_amount 1000000000000 ⟨2000000000000, 0⟩)
        ⟨2000000000000, 0⟩ = some y ∧ y ≤ 1000000000000 :=
  (get_zeph_amount_get_stable_amount_loss 1000000000000 ⟨2000000000000, 0⟩ (by norm_num)
    (by decide) (by norm_num)).imp (fun _ h => ⟨h.1, h.2.1⟩)

/-! ## C40: the assertion on `summary_amounts` -/

/-- C40. For every reward, fee map and height, `construct_miner_tx` returns true whenever none of
its other checks fails (the extra field is built and sorted, the emission curve returns a reward,
`max_outs` is at least 1 and the keys of the miner, governance and fee outputs are derived): the
assertion `summary_amounts == block_reward + governance_reward` never makes it return false,
the two sides being the same sum in `uint64_t`. -/
theorem construct_miner_tx_assertion {PK SK KD Extra : Type} (env : miner_env PK SK KD Extra)
    (txkey : keypair PK SK) (height median_weight already_generated_coins
      current_block_weight : Nat) (fee_map : List (String × Nat))
    (miner_address : account_public_address PK) (tx : transaction_prefix PK Extra)
    (extra_nonce : List Nat) (max_outs hard_fork_version : Nat)
    (extra1 extra2 : Extra) (R : Nat) (d0 : KD) (k0 : PK) (outs : List (tx_out PK))
    (hnonce : (if extra_nonce ≠ [] then
        env.eops.add_extra_nonce_to_tx_extra
          (env.eops.add_tx_pub_key_to_extra env.eops.empty txkey.pub) extra_nonce
        else some (env.eops.add_tx_pub_key_to_extra env.eops.empty txkey.pub)) = some extra1)
    (hsorted : env.eops.sort_tx_extra extra1 = some extra2)
    (hR : env.get_block_reward median_weight current_block_weight already_generated_coins
      hard_fork_version = some R)
    (hmax : 1 ≤ max_outs)
    (hd0 : env.ops.generate_key_derivation miner_address.m_view_public_key txkey.sec = some d0)
    (hk0 : env.ops.derive_public_key d0 0 miner_address.m_spend_public_key = some k0)
    (hgov : already_generated_coins ≠ 0 →
      ∃ k1 d1, get_deterministic_output_key env.ops
        (env.get_account_address_from_str network_type.MAINNET
          (get_governance_address env.config network_type.MAINNET))
        (get_deterministic_keypair_from_height env.ops height) 1 = some (k1, d1))
    (hfee : (if hard_fork_version ≥ env.HF_VERSION_DJED then
        fee_outputs env.ops miner_address txkey (map_insert_default "ZEPH" fee_map) 2
        else some []) = some outs) :
    ∃ tx', construct_miner_tx env txkey height median_weight already_generated_coins
      current_block_weight fee_map miner_address tx extra_nonce max_outs hard_fork_version
      = some tx' := by
  unfold construct_miner_tx
  simp only [hnonce, hsorted, hR, hmax, not_true_eq_false, if_false, hd0, hk0, hfee]
  by_cases h0 : already_generated_coins = 0
  · simp [h0]
  · obtain ⟨k1, d1, hk1⟩ := hgov h0
    simp [h0, hk1]

/-- In the toy environment no other check fails, so the construction at height 9 returns. -/
theorem construct_miner_tx_assertion_witness :
    ∃ tx', construct_miner_tx toy_env ⟨5, 6⟩ 9 0 1 0 [("ZEPH", 7), ("ZEPHUSD", 3)] ⟨11, 12⟩
      null_tx [] 1 3 = some tx' :=
  construct_miner_tx_assertion toy_env ⟨5, 6⟩ 9 0 1 0 [("ZEPH", 7), ("ZEPHUSD", 3)] ⟨11, 12⟩
    null_tx [] 1 3 [5] [5] 1000 6000012 6000155 [⟨3, "ZEPHUSD", 6000169, true, 142⟩]
    (by decide) (by decide) (by decide) (by decide) (by decide) (by decide)
    (fun _ => ⟨9000148, 9000011, by decide⟩) (by decide)

/-! ## C32: the view key of the single recipient -/

theorem recipients_cons {PK : Type} [DecidableEq PK] (d : tx_destination PK)
    (ds : List (tx_destination PK)) (change_addr : Option (account_public_address PK)) :
    recipients (d :: ds) change_addr
      = if d.amount ≠ 0 ∧ change_addr ≠ some d.addr then d.addr :: recipients ds change_addr
        else recipients ds change_addr := by
  unfold recipients
  by_cases h : d.amount ≠ 0 ∧ change_addr ≠ some d.addr
  · simp [List.filter_cons, h]
  · rw [if_neg h]
    have hf : decide (d.amount ≠ 0 ∧ change_addr ≠ some d.addr) = false := decide_eq_false h
    simp only [List.filter_cons, hf, Bool.false_eq_true, if_false]

/-- The loop once a recipient has been found: it completes when every further recipient is the
same address, and returns the null key otherwise. -/
theorem get_destination_view_key_pub_loop_pos {PK : Type} [DecidableEq PK]
    (change_addr : Option (account_public_address PK)) :
    ∀ (destinations : List (tx_destination PK)) (addr : account_public_address PK) (count : Nat),
      count > 0 →
      ((∀ x ∈ recipients destinations change_addr, x = addr) →
        get_destination_view_key_pub_loop change_addr destinations addr count
          = some (addr, count))
      ∧ ((∃ x ∈ recipients destinations change_addr, x ≠ addr) →
        get_destination_view_key_pub_loop change_addr destinations addr count = none)
  | [], addr, count, _ => by
    constructor
    · intro _; rfl
    · rintro ⟨x, hx, _⟩
      simp [recipients] at hx
  | d :: ds, addr, count, hc => by
    have ih := get_destination_view_key_pub_loop_pos change_addr ds addr count hc
    unfold get_destination_view_key_pub_loop
    rw [recipients_cons]
    by_cases h0 : d.amount = 0
    · simp only [h0, ne_eq, not_true_eq_false, false_and, if_false, if_true]
      exact ih
    · by_cases hch : change_addr = some d.addr
      · have hfail : ¬ (d.amount ≠ 0 ∧ change_addr ≠ some d.addr) := fun h => h.2 hch
        rw [if_neg hfail, if_neg h0, if_pos hch]
        exact ih
      · have hpass : d.amount ≠ 0 ∧ change_addr ≠ some d.addr := ⟨h0, hch⟩
        rw [if_pos hpass, if_neg h0, if_neg hch]
        by_cases hsame : d.addr = addr
        · rw [if_pos hsame]
          constructor
          · intro hall
            exact ih.1 (fun x hx => hall x (List.mem_cons_of_mem _ hx))
          · rintro ⟨x, hx, hne⟩
            rcases List.mem_cons.mp hx with rfl | hx
            · exact absurd hsame hne
            · exact ih.2 ⟨x, hx, hne⟩
        · rw [if_neg hsame, if_pos hc]
          constructor
          · intro hall
            exact absurd (hall d.addr (List.mem_cons_self _ _)) hsame
          · intro _; rfl

/-- The loop from the start, when no recipient has the initial address: it completes with
`count = 0` when there is no recipient, with the first recipient when all recipients are the same
address, and returns the null key otherwise. -/
theorem get_destination_view_key_pub_loop_zero {PK : Type} [DecidableEq PK]
    (change_addr : Option (account_public_address PK)) (addr : account_public_address PK) :
    ∀ (destinations : List (tx_destination PK)),
      (∀ x ∈ recipients destinations change_addr, x ≠ addr) →
      (recipients destinations change_addr = [] →
        get_destination_view_key_pub_loop change_addr destinations addr 0 = some (addr, 0))
      ∧ (∀ a, a ∈ recipients destinations change_addr →
          (∀ x ∈ recipients destinations change_addr, x = a) →
          get_destination_view_key_pub_loop change_addr destinations addr 0 = some (a, 1))
      ∧ ((∃ x ∈ recipients destinations change_addr,
            ∃ y ∈ recipients destinations change_addr, x ≠ y) →
          get_destination_view_key_pub_loop change_addr destinations addr 0 = none)
  | [], _ => by
    refine ⟨fun _ => rfl, ?_, ?_⟩
    · intro a ha
      simp [recipients] at ha
    · rintro ⟨x, hx, _⟩
      simp [recipients] at hx
  | d :: ds, hnn => by
    unfold get_destination_view_key_pub_loop
    rw [recipients_cons] at hnn ⊢
    by_cases h0 : d.amount = 0
    · simp only [h0, ne_eq, not_true_eq_false, false_and, if_false, if_true] at hnn ⊢
      exact get_destination_view_key_pub_loop_zero change_addr addr ds hnn
    · by_cases hch : change_addr = some d.addr
      · have hfail : ¬ (d.amount ≠ 0 ∧ change_addr ≠ some d.addr) := fun h => h.2 hch
        rw [if_neg hfail] at hnn ⊢
        rw [if_neg h0, if_pos hch]
        exact get_destination_view_key_pub_loop_zero change_addr addr ds hnn
      · have hpass : d.amount ≠ 0 ∧ change_addr ≠ some d.addr := ⟨h0, hch⟩
        rw [if_pos hpass] at hnn ⊢
        have hne : d.addr ≠ addr := hnn d.addr (List.mem_cons_self _ _)
        rw [if_neg h0, if_neg hch, if_neg hne, if_neg (Nat.lt_irrefl 0)]
        have hpos := get_destination_view_key_pub_loop_pos change_addr ds d.addr (0 + 1)
          (Nat.succ_pos 0)
        refine ⟨fun h => absurd h (List.cons_ne_nil _ _), ?_, ?_⟩
        · intro a _ hall
          have ha : d.addr = a := hall d.addr (List.mem_cons_self _ _)
          rw [← ha]
          exact hpos.1 (fun x hx => (hall x (List.mem_cons_of_mem _ hx)).trans ha.symm)
        · rintro ⟨x, hx, y, hy, hxy⟩
          apply hpos.2
          by_cases hxd : x = d.addr
          · have hyd : y ≠ d.addr := fun h => hxy (hxd.trans h.symm)
            rcases List.mem_cons.mp hy with rfl | hy
            · exact absurd rfl hyd
            · exact ⟨y, hy, hyd⟩
          · rcases List.mem_cons.mp hx with rfl | hx
            · exact absurd rfl hxd
            · exact ⟨x, hx, hxd⟩

/-- C32 as stated fails: with no recipient at all and a change address whose view key (8) is not
the null key (0), `get_destination_view_key_pub` returns the view key of the change address; so
it does with a single destination that is the change address itself. -/
theorem get_destination_view_key_pub_change_only :
    get_destination_view_key_pub (0 : Nat) [] (some ⟨7, 8⟩) = 8
    ∧ get_destination_view_key_pub (0 : Nat) [⟨⟨5, 5, "ZEPH"⟩, ⟨7, 8⟩, false⟩] (some ⟨7, 8⟩) = 8
    ∧ recipients ([⟨⟨5, 5, "ZEPH"⟩, ⟨7, 8⟩, false⟩] : List (tx_destination Nat)) (some ⟨7, 8⟩)
      = [] := by
  decide

/-- C32 (amended). For destinations none of which has the all-null address, with the recipients
being the destinations of non-zero amount other than the change address:
`get_destination_view_key_pub` returns the null key when there are two distinct recipients, the
view key of the recipient when all recipients are one address, and, when there is no recipient,
the view key of the change address if one is given and the null key otherwise. -/
theorem get_destination_view_key_pub_spec {PK : Type} [DecidableEq PK] (null_pkey : PK)
    (destinations : List (tx_destination PK))
    (change_addr : Option (account_public_address PK))
    (hnn : ∀ d ∈ destinations, d.addr ≠ ⟨null_pkey, null_pkey⟩) :
    ((∃ x ∈ recipients destinations change_addr,
        ∃ y ∈ recipients destinations change_addr, x ≠ y) →
      get_destination_view_key_pub null_pkey destinations change_addr = null_pkey)
    ∧ (∀ a, a ∈ recipients destinations change_addr →
        (∀ x ∈ recipients destinations change_addr, x = a) →
        get_destination_view_key_pub null_pkey destinations change_addr = a.m_view_public_key)
    ∧ (recipients destinations change_addr = [] →
        (∀ change, change_addr = some change →
          get_destination_view_key_pub null_pkey destinations change_addr
            = change.m_view_public_key)
        ∧ (change_addr = none →
          get_destination_view_key_pub null_pkey destinations change_addr = null_pkey)) := by
  have hnn' : ∀ x ∈ recipients destinations change_addr, x ≠ ⟨null_pkey, null_pkey⟩ := by
    intro x hx
    unfold recipients at hx
    obtain ⟨d, hd, rfl⟩ := List.mem_map.mp hx
    exact hnn d (List.mem_filter.mp hd).1
  obtain ⟨h0, h1, h2⟩ := get_destination_view_key_pub_loop_zero change_addr
    ⟨null_pkey, null_pkey⟩ destinations hnn'
  refine ⟨?_, ?_, ?_⟩
  · intro h
    unfold get_destination_view_key_pub
    rw [h2 h]
  · intro a ha hall
    unfold get_destination_view_key_pub
    rw [h1 a ha hall]
    cases change_addr <;> simp
  · intro hnil
    unfold get_destination_view_key_pub
    rw [h0 hnil]
    constructor
    · intro change hc
      rw [hc]
      simp
    · intro hc
      rw [hc]

/-- Two destinations of one recipient and a change output resolve to the view key of the
recipient. -/
theorem get_destination_view_key_pub_spec_witness :
    get_destination_view_key_pub (0 : Nat)
      [⟨⟨5, 5, "ZEPH"⟩, ⟨3, 4⟩, false⟩, ⟨⟨2, 2, "ZEPH"⟩, ⟨7, 8⟩, false⟩,
        ⟨⟨1, 1, "ZEPH"⟩, ⟨3, 4⟩, false⟩] (some ⟨7, 8⟩) = 4 :=
  (get_destination_view_key_pub_spec (0 : Nat)
    [⟨⟨5, 5, "ZEPH"⟩, ⟨3, 4⟩, false⟩, ⟨⟨2, 2, "ZEPH"⟩, ⟨7, 8⟩, false⟩,
      ⟨⟨1, 1, "ZEPH"⟩, ⟨3, 4⟩, false⟩] (some ⟨7, 8⟩) (by decide)).2.1 ⟨3, 4⟩ (by decide)
    (by decide)

/-! ## The stages of `construct_tx_with_tx_key` -/

theorem next_eq_done {T S S' : Type} (r : stage_result T S) (f : S → stage_result T S')
    (s' : S') :
    r.next f = stage_result.done s' ↔ ∃ s, r = stage_result.done s ∧ f s = stage_result.done s' := by
  cases r with
  | returned_false tx => simp [stage_result.next]
  | threw => simp [stage_result.next]
  | done s => simp [stage_result.next]

theorem next_eq_returned_false {T S S' : Type} (r : stage_result T S)
    (f : S → stage_result T S') (t : T) :
    r.next f = stage_result.returned_false t
      ↔ r = stage_result.returned_false t
        ∨ ∃ s, r = stage_result.done s ∧ f s = stage_result.returned_false t := by
  cases r with
  | returned_false tx => simp [stage_result.next]
  | threw => simp [stage_result.next]
  | done s => simp [stage_result.next]

/-- The state the first stage leaves when it completes. -/
theorem init_stage_eq_done {PK SK Extra Sig : Type} (env : tx_env PK SK Extra Sig)
    (sources : List (tx_source_entry PK)) (destinations : List (tx_destination PK))
    (extra : Extra) (tx : tx_draft PK Extra Sig) (source_asset dest_asset : String)
    (current_height hf_version unlock_time : Nat) (st : build_state PK SK Extra Sig)
    (h : init_stage env sources destinations extra tx source_asset dest_asset current_height
      hf_version unlock_time = stage_result.done st) :
    sources ≠ []
    ∧ st = ⟨⟨⟨if hf_version ≥ env.HF_VERSION_DJED then 3 else 2, unlock_time, [], [], extra,
          if source_asset ≠ dest_asset then current_height else 0, 0, 0⟩, [], none⟩,
        sources, destinations, [], 0, 0, transaction_type.UNSET, false⟩ := by
  unfold init_stage at h
  by_cases h1 : sources.isEmpty = true
  · rw [if_pos h1] at h
    exact stage_result.noConfusion h
  · rw [if_neg h1] at h
    by_cases h2 : source_asset ∈ ASSET_TYPES
    · by_cases h3 : dest_asset ∈ ASSET_TYPES
      · simp only [h2, h3, not_true_eq_false, if_false] at h
        refine ⟨fun he => h1 (by rw [he]; rfl), ?_⟩
        rw [← stage_result.done.inj h]
        rfl
      · simp only [h2, h3, not_true_eq_false, not_false_eq_true, if_false, if_true] at h
        exact stage_result.noConfusion h
    · simp only [h2, not_false_eq_true, if_true] at h
      exact stage_result.noConfusion h

/-- What the first stage leaves in the transaction when it returns false. -/
theorem init_stage_eq_returned_false {PK SK Extra Sig : Type} (env : tx_env PK SK Extra Sig)
    (sources : List (tx_source_entry PK)) (destinations : List (tx_destination PK))
    (extra : Extra) (tx : tx_draft PK Extra Sig) (source_asset dest_asset : String)
    (current_height hf_version unlock_time : Nat) (t : tx_draft PK Extra Sig)
    (h : init_stage env sources destinations extra tx source_asset dest_asset current_height
      hf_version unlock_time = stage_result.returned_false t) :
    (sources = [] ∧ t = tx) ∨ (sources ≠ [] ∧ t.tx.vin = [] ∧ t.tx.vout = []) := by
  unfold init_stage at h
  by_cases h1 : sources.isEmpty = true
  · rw [if_pos h1] at h
    left
    exact ⟨List.isEmpty_iff.mp h1, (stage_result.returned_false.inj h).symm⟩
  · rw [if_neg h1] at h
    right
    refine ⟨fun he => h1 (by rw [he]; rfl), ?_⟩
    by_cases h2 : source_asset ∈ ASSET_TYPES
    · by_cases h3 : dest_asset ∈ ASSET_TYPES
      · simp only [h2, h3, not_true_eq_false, if_false] at h
        exact stage_result.noConfusion h
      · simp only [h2, h3, not_true_eq_false, not_false_eq_true, if_false, if_true] at h
        rw [← stage_result.returned_false.inj h]
        exact ⟨rfl, rfl⟩
    · simp only [h2, not_false_eq_true, if_true] at h
      rw [← stage_result.returned_false.inj h]
      exact ⟨rfl, rfl⟩

/-- The input loop, when it completes: it has appended one input per source, one context per
source, and has added the amounts of the sources to the total in `uint64_t`. -/
theorem fill_inputs_eq_done {PK SK Extra Sig : Type} [DecidableEq PK]
    (env : tx_env PK SK Extra Sig) :
    ∀ (sources : List (tx_source_entry PK)) (tx : tx_draft PK Extra Sig)
      (in_contexts : List (keypair PK SK)) (summary_inputs_money : Nat)
      (r : tx_draft PK Extra Sig × List (keypair PK SK) × Nat),
      fill_inputs env sources tx in_contexts summary_inputs_money = stage_result.done r →
      ∃ inputs, r.1 = { tx with tx := { tx.tx with vin := tx.tx.vin ++ inputs } }
        ∧ inputs.length = sources.length
        ∧ r.2.1.length = in_contexts.length + sources.length
        ∧ r.2.2 % 2 ^ 64
          = (summary_inputs_money + (sources.map (fun s => s.amount)).sum) % 2 ^ 64
        ∧ (summary_inputs_money < 2 ^ 64 → r.2.2 < 2 ^ 64)
  | [], tx, in_contexts, summary_inputs_money, r, h => by
    have e := stage_result.done.inj h
    rw [← e]
    exact ⟨[], by simp, rfl, rfl, by simp, id⟩
  | src :: rest, tx, in_contexts, summary_inputs_money, r, h => by
    unfold fill_inputs at h
    by_cases h1 : src.real_output ≥ src.outputs.length
    · rw [if_pos h1] at h
      exact stage_result.noConfusion h
    · rw [if_neg h1] at h
      simp only at h
      split at h
      · exact stage_result.noConfusion h
      · rename_i in_ephemeral img hkey
        by_cases h2 : ¬ (some in_ephemeral.pub
            = (src.outputs[src.real_output]?).map Prod.snd)
        · rw [if_pos h2] at h
          exact stage_result.noConfusion h
        · rw [if_neg h2] at h
          obtain ⟨inputs, hr, hlen, hctx, hsum, hlt⟩ :=
            fill_inputs_eq_done env rest _ _ _ r h
          refine ⟨txin_v.txin_zephyr_key src.amount src.asset_type
            (env.absolute_output_offsets_to_relative (src.outputs.map Prod.fst)) img :: inputs,
            ?_, ?_, ?_, ?_, ?_⟩
          · rw [hr]
            simp
          · simp [hlen]
          · rw [hctx]
            simp only [List.length_append, List.length_cons, List.length_nil]
            omega
          · rw [hsum]
            simp only [List.map_cons, List.sum_cons]
            omega
          · intro _
            exact hlt (Nat.mod_lt _ (by norm_num))

theorem fill_output_vout {PK : Type}
    (generate_output_ephemeral_keys : tx_destination_entry → Nat → PK × Nat)
    (source_asset dest_asset : String) (use_view_tags : Bool)
    (d : tx_destination_entry) (output_index : Nat) (st : outputs_state PK) :
    ((fill_output generate_output_ephemeral_keys source_asset dest_asset use_view_tags d
        output_index st).vout.map (fun o => o.amount))
      = st.vout.map (fun o => o.amount) ++ [d.amount] := by
  unfold fill_output
  by_cases hne : source_asset ≠ dest_asset <;> by_cases hd : d.dest_asset_type = dest_asset
    <;> simp [hne, hd]

/-- The output loop, when it completes: it has appended one output per destination, carrying
the amount of the destination, and has added these amounts to the total in `uint64_t`. -/
theorem fill_outputs_eq_some {PK : Type}
    (generate_output_ephemeral_keys : tx_destination_entry → Nat → PK × Nat)
    (version : Nat) (source_asset dest_asset : String) (use_view_tags : Bool) :
    ∀ (destinations : List tx_destination_entry) (output_index : Nat)
      (st st' : outputs_state PK),
      fill_outputs generate_output_ephemeral_keys version source_asset dest_asset use_view_tags
        destinations output_index st = some st' →
      st'.vout.map (fun o => o.amount)
        = st.vout.map (fun o => o.amount) ++ destinations.map (fun d => d.amount)
      ∧ st'.summary_outs_money % 2 ^ 64
        = (st.summary_outs_money + (destinations.map (fun d => d.amount)).sum) % 2 ^ 64
      ∧ (st.summary_outs_money < 2 ^ 64 → st'.summary_outs_money < 2 ^ 64)
  | [], _, st, st', h => by
    have e : st = st' := Option.some.inj h
    subst e
    simp
  | d :: rest, output_index, st, st', h => by
    unfold fill_outputs at h
    by_cases hc : ¬ (d.dest_amount > 0 ∨ version > 1)
    · rw [if_pos hc] at h
      exact Option.noConfusion h
    · rw [if_neg hc] at h
      obtain ⟨hv, hs, hlt⟩ := fill_outputs_eq_some generate_output_ephemeral_keys version
        source_asset dest_asset use_view_tags rest (output_index + 1) _ st' h
      rw [fill_output_vout] at hv
      rw [fill_output_summary] at hs hlt
      refine ⟨?_, ?_, ?_⟩
      · rw [hv]
        simp
      · rw [hs]
        simp only [List.map_cons, List.sum_cons]
        omega
      · intro _
        exact hlt (Nat.mod_lt _ (by norm_num))

/-- With a version above 1 the output stage does not return false. -/
theorem outputs_stage_of_version {PK SK Extra Sig : Type} (env : tx_env PK SK Extra Sig)
    (source_asset dest_asset : String) (use_view_tags : Bool)
    (st : build_state PK SK Extra Sig) (hv : st.draft.tx.version > 1) :
    ∃ o, outputs_stage env source_asset dest_asset use_view_tags st = stage_result.done o := by
  unfold outputs_stage
  simp only
  by_cases hne : source_asset ≠ dest_asset
  · obtain ⟨o, ho, _⟩ := fill_outputs_conversion (output_keys env st.destinations)
      st.draft.tx.version source_asset dest_asset use_view_tags hv hne
      (st.destinations.map (fun d => d.totx_destination_entry)) 0 ⟨st.draft.tx.vout, 0, 0, 0⟩
    unfold fill_outputs_step
    rw [ho]
    exact ⟨o, rfl⟩
  · obtain ⟨o, ho, _⟩ := fill_outputs_transfer (output_keys env st.destinations)
      st.draft.tx.version source_asset dest_asset use_view_tags hv (not_not.mp hne)
      (st.destinations.map (fun d => d.totx_destination_entry)) 0 ⟨st.draft.tx.vout, 0, 0, 0⟩
    unfold fill_outputs_step
    rw [ho]
    exact ⟨o, rfl⟩

/-- The output stage, when it completes, completes with what the output loop returns. -/
theorem outputs_stage_eq_done {PK SK Extra Sig : Type} (env : tx_env PK SK Extra Sig)
    (source_asset dest_asset : String) (use_view_tags : Bool)
    (st : build_state PK SK Extra Sig) (o : outputs_state PK)
    (h : outputs_stage env source_asset dest_asset use_view_tags st = stage_result.done o) :
    fill_outputs_step (output_keys env st.destinations) st.draft.tx.version source_asset
      dest_asset use_view_tags st.draft.tx.vout
      (st.destinations.map (fun d => d.totx_destination_entry)) = some o := by
  unfold outputs_stage at h
  simp only at h
  split at h
  · rename_i o' ho'
    rw [ho', stage_result.done.inj h]
  · split at h <;> exact stage_result.noConfusion h

/-- The order stage, when it completes. -/
theorem order_stage_eq_done {PK SK Extra Sig : Type} (env : tx_env PK SK Extra Sig)
    (source_asset dest_asset : String) (shuffle_outs : Bool)
    (st st' : build_state PK SK Extra Sig)
    (h : order_stage env source_asset dest_asset shuffle_outs st = stage_result.done st') :
    ∃ tx_type, get_tx_type source_asset dest_asset = some tx_type
      ∧ st' = { st with
          draft := { st.draft with tx := { st.draft.tx with
            vin := (sort_inputs env.sort ⟨st.draft.tx.vin, st.in_contexts, st.sources⟩).vin } }
          in_contexts :=
            (sort_inputs env.sort ⟨st.draft.tx.vin, st.in_contexts, st.sources⟩).in_contexts
          sources := (sort_inputs env.sort ⟨st.draft.tx.vin, st.in_contexts, st.sources⟩).sources
          destinations := if shuffle_outs then env.shuffle st.destinations else st.destinations
          tx_type := tx_type } := by
  unfold order_stage at h
  split at h
  · exact stage_result.noConfusion h
  · rename_i tx_type ht
    exact ⟨tx_type, ht, (stage_result.done.inj h).symm⟩

theorem foldl_add_mod {α : Type} (f : α → Nat) :
    ∀ (l : List α) (acc : Nat),
      List.foldl (fun (a : Nat) x => (a + f x) % 2 ^ 64) acc l % 2 ^ 64
        = (acc + (l.map f).sum) % 2 ^ 64
  | [], acc => by simp
  | x :: xs, acc => by
    simp only [List.foldl_cons, List.map_cons, List.sum_cons]
    rw [foldl_add_mod f xs]
    omega

theorem foldl_add_mod_lt {α : Type} (f : α → Nat) :
    ∀ (l : List α) (acc : Nat), acc < 2 ^ 64 →
      List.foldl (fun (a : Nat) x => (a + f x) % 2 ^ 64) acc l < 2 ^ 64
  | [], _, h => h
  | x :: xs, acc, _ => by
    simp only [List.foldl_cons]
    exact foldl_add_mod_lt f xs _ (Nat.mod_lt _ (by norm_num))

theorem foldl_add_mod_of_lt {α : Type} (f : α → Nat) (l : List α)
    (h : (l.map f).sum < 2 ^ 64) :
    List.foldl (fun (a : Nat) x => (a + f x) % 2 ^ 64) 0 l = (l.map f).sum := by
  have h1 := foldl_add_mod f l 0
  have h2 := foldl_add_mod_lt f l 0 (by norm_num)
  rw [Nat.mod_eq_of_lt h2, Nat.zero_add, Nat.mod_eq_of_lt h] at h1
  exact h1

/-- The amounts of the confidential layout when the totals do not overflow 64 bits and the
outputs do not exceed the inputs. -/
theorem rct_amounts_eq_some {PK SK Extra Sig : Type} (env : tx_env PK SK Extra Sig)
    (simple : Bool) (sources : List (tx_source_entry PK)) (vout : List (tx_out PK))
    (call : rct_call)
    (hin : (sources.map (fun s => s.amount)).sum < 2 ^ 64)
    (hout : (vout.map (fun o => o.amount)).sum < 2 ^ 64)
    (hle : (vout.map (fun o => o.amount)).sum ≤ (sources.map (fun s => s.amount)).sum)
    (h : rct_amounts env simple sources vout (sources.map (fun s => s.amount)).sum
      (vout.map (fun o => o.amount)).sum = some call) :
    call.simple = simple
    ∧ call.inamounts = sources.map (fun s => s.amount)
    ∧ (simple = true →
        call.outamounts = vout.map (fun o => o.amount)
        ∧ call.fee = (sources.map (fun s => s.amount)).sum - (vout.map (fun o => o.amount)).sum)
    ∧ (simple = false →
        call.fee = 0
        ∧ call.outamounts.sum = (sources.map (fun s => s.amount)).sum
        ∧ ((vout.map (fun o => o.amount)).sum < (sources.map (fun s => s.amount)).sum →
            call.outamounts = vout.map (fun o => o.amount)
              ++ [(sources.map (fun s => s.amount)).sum - (vout.map (fun o => o.amount)).sum])
        ∧ ((vout.map (fun o => o.amount)).sum = (sources.map (fun s => s.amount)).sum →
            call.outamounts = vout.map (fun o => o.amount))) := by
  unfold rct_amounts at h
  rw [foldl_add_mod_of_lt (fun (s : tx_source_entry PK) => s.amount) sources hin,
    foldl_add_mod_of_lt (fun (o : tx_out PK) => o.amount) vout hout] at h
  simp only at h
  have hw : ∀ A B : Nat, A < 2 ^ 64 → B ≤ A → wrap64 ((A : Int) - (B : Int)) = A - B := by
    intro A B hA hB
    rw [wrap64_of_range _ (by omega) (by omega)]
    omega
  rw [hw _ _ hin hle] at h
  split at h
  · exact Option.noConfusion h
  · rename_i features _
    by_cases hb : ¬ simple = true ∧ (sources.map (fun s => s.amount)).sum
        > (vout.map (fun o => o.amount)).sum
    · rw [if_pos hb] at h
      rw [← Option.some.inj h]
      refine ⟨rfl, rfl, ?_, ?_⟩
      · intro hs
        exact absurd hs hb.1
      · intro _
        refine ⟨rfl, ?_, fun _ => rfl, ?_⟩
        · simp only [List.sum_append, List.sum_cons, List.sum_nil]
          omega
        · intro he
          omega
    · rw [if_neg hb] at h
      rw [← Option.some.inj h]
      refine ⟨rfl, rfl, fun _ => ⟨rfl, rfl⟩, ?_⟩
      intro hs
      have heq : (vout.map (fun o => o.amount)).sum = (sources.map (fun s => s.amount)).sum := by
        by_contra hne
        apply hb
        refine ⟨by rw [hs]; exact Bool.false_ne_true, ?_⟩
        omega
      refine ⟨?_, ?_, ?_, fun _ => rfl⟩
      · show (sources.map (fun s => s.amount)).sum - (vout.map (fun o => o.amount)).sum = 0
        omega
      · exact heq
      · intro hlt
        omega

/-- The signing stage, when it completes on a transaction whose version is not 1: the
confidential layout has been signed with the amounts of `rct_amounts`. -/
theorem sign_stage_eq_done {PK SK Extra Sig : Type} (env : tx_env PK SK Extra Sig)
    (zero_secret_key borromean : Bool) (st : build_state PK SK Extra Sig)
    (t : tx_draft PK Extra Sig) (hv : st.draft.tx.version ≠ 1)
    (h : sign_stage env zero_secret_key borromean st = stage_result.done t) :
    ∃ call, rct_amounts env (use_simple_rct st.sources borromean) st.sources st.draft.tx.vout
        st.summary_inputs_money st.summary_outs_money = some call
      ∧ t.rct_signatures = some call
      ∧ t.signatures = st.draft.signatures
      ∧ t.tx = zero_amounts (st.sources.map (fun s => s.rct)) st.draft.tx := by
  unfold sign_stage at h
  simp only [hv, if_false] at h
  split_ifs at h with h1
  split at h
  · exact stage_result.noConfusion h
  · rename_i call hcall
    split_ifs at h with h2
    refine ⟨call, hcall, ?_, ?_, ?_⟩
    · rw [← stage_result.done.inj h]
    · rw [← stage_result.done.inj h]
    · rw [← stage_result.done.inj h]

/-- What the stages before the output loop leave when they complete: the version set from the
hard fork, one input per source ordered by `sort_inputs`, no output, the destinations as
shuffled, and the total of the inputs in `uint64_t`. -/
theorem input_stages_eq_done {PK SK Extra Sig : Type} [DecidableEq PK]
    (env : tx_env PK SK Extra Sig)
    (sources : List (tx_source_entry PK)) (destinations : List (tx_destination PK))
    (change_addr : Option (account_public_address PK)) (extra : Extra)
    (tx : tx_draft PK Extra Sig) (source_asset dest_asset : String)
    (current_height hf_version : Nat) (unlock_time : Nat)
    (additional_tx_keys : List SK) (shuffle_outs : Bool)
    (st : build_state PK SK Extra Sig)
    (h : input_stages env sources destinations change_addr extra tx source_asset dest_asset
      current_height hf_version unlock_time additional_tx_keys shuffle_outs
      = stage_result.done st) :
    sources ≠ []
    ∧ st.draft.tx.version = (if hf_version ≥ env.HF_VERSION_DJED then 3 else 2)
    ∧ (∃ inputs ctxs, inputs.length = sources.length ∧ ctxs.length = sources.length
        ∧ st.draft.tx.vin = (sort_inputs env.sort ⟨inputs, ctxs, sources⟩).vin
        ∧ st.in_contexts = (sort_inputs env.sort ⟨inputs, ctxs, sources⟩).in_contexts
        ∧ st.sources = (sort_inputs env.sort ⟨inputs, ctxs, sources⟩).sources)
    ∧ st.destinations = (if shuffle_outs then env.shuffle destinations else destinations)
    ∧ st.draft.tx.vout = []
    ∧ st.summary_inputs_money % 2 ^ 64 = (sources.map (fun s => s.amount)).sum % 2 ^ 64
    ∧ st.summary_inputs_money < 2 ^ 64
    ∧ st.draft.signatures = [] ∧ st.draft.rct_signatures = none
    ∧ get_tx_type source_asset dest_asset = some st.tx_type := by
  unfold input_stages at h
  obtain ⟨s0, h0, h⟩ := (next_eq_done _ _ _).mp h
  obtain ⟨hne, hs0⟩ := init_stage_eq_done env sources destinations extra tx source_asset
    dest_asset current_height hf_version unlock_time s0 h0
  subst hs0
  obtain ⟨extra1, _, h⟩ := (next_eq_done _ _ _).mp h
  obtain ⟨⟨r1, r2, r3⟩, hr, h⟩ := (next_eq_done _ _ _).mp h
  obtain ⟨inputs, hr1, hlen, hctx, hsum, hlt⟩ := fill_inputs_eq_done env _ _ _ _ _ hr
  simp only [List.nil_append, List.length_nil, Nat.zero_add] at hr1 hctx hsum
  subst hr1
  obtain ⟨s3, h3, h⟩ := (next_eq_done _ _ _).mp h
  obtain ⟨tx_type, htype, hs3⟩ := order_stage_eq_done env source_asset dest_asset shuffle_outs
    _ s3 h3
  subst hs3
  obtain ⟨k, _, h⟩ := (next_eq_done _ _ _).mp h
  have hst := (stage_result.done.inj h).symm
  subst hst
  exact ⟨hne, rfl, ⟨inputs, r2, hlen, hctx, rfl, rfl, rfl⟩, rfl, rfl, hsum,
    hlt (by norm_num), rfl, rfl, htype⟩

/-- What the building stages leave when they complete: in addition to what the stages before
the output loop leave, one output per destination carrying its amount, and the total of the
outputs in `uint64_t`. -/
theorem build_stages_eq_done {PK SK Extra Sig : Type} [DecidableEq PK]
    (env : tx_env PK SK Extra Sig)
    (sources : List (tx_source_entry PK)) (destinations : List (tx_destination PK))
    (change_addr : Option (account_public_address PK)) (extra : Extra)
    (tx : tx_draft PK Extra Sig) (source_asset dest_asset : String)
    (current_height hf_version : Nat) (unlock_time : Nat)
    (additional_tx_keys : List SK) (shuffle_outs use_view_tags : Bool)
    (st : build_state PK SK Extra Sig)
    (h : build_stages env sources destinations change_addr extra tx source_asset dest_asset
      current_height hf_version unlock_time additional_tx_keys shuffle_outs use_view_tags
      = stage_result.done st) :
    sources ≠ []
    ∧ st.draft.tx.version = (if hf_version ≥ env.HF_VERSION_DJED then 3 else 2)
    ∧ (∃ inputs ctxs, inputs.length = sources.length ∧ ctxs.length = sources.length
        ∧ st.draft.tx.vin = (sort_inputs env.sort ⟨inputs, ctxs, sources⟩).vin
        ∧ st.in_contexts = (sort_inputs env.sort ⟨inputs, ctxs, sources⟩).in_contexts
        ∧ st.sources = (sort_inputs env.sort ⟨inputs, ctxs, sources⟩).sources)
    ∧ st.destinations = (if shuffle_outs then env.shuffle destinations else destinations)
    ∧ st.draft.tx.vout.map (fun o => o.amount) = st.destinations.map (fun d => d.amount)
    ∧ st.summary_inputs_money % 2 ^ 64 = (sources.map (fun s => s.amount)).sum % 2 ^ 64
    ∧ st.summary_inputs_money < 2 ^ 64
    ∧ st.summary_outs_money % 2 ^ 64 = (st.destinations.map (fun d => d.amount)).sum % 2 ^ 64
    ∧ st.summary_outs_money < 2 ^ 64
    ∧ st.draft.signatures = [] ∧ st.draft.rct_signatures = none
    ∧ get_tx_type source_asset dest_asset = some st.tx_type := by
  unfold build_stages at h
  obtain ⟨s, hs, h⟩ := (next_eq_done _ _ _).mp h
  obtain ⟨hne, hver, hin, hdest, hvout, hsum, hlt, hsig, hrct, htype⟩ :=
    input_stages_eq_done env sources destinations change_addr extra tx source_asset dest_asset
      current_height hf_version unlock_time additional_tx_keys shuffle_outs s hs
  obtain ⟨o, ho, h⟩ := (next_eq_done _ _ _).mp h
  have ho' := outputs_stage_eq_done env source_asset dest_asset use_view_tags _ o ho
  unfold fill_outputs_step at ho'
  obtain ⟨hv, hos, holt⟩ := fill_outputs_eq_some _ _ _ _ _ _ _ _ o ho'
  rw [hvout] at hv
  simp only [List.map_nil, List.nil_append, List.map_map, Nat.zero_add] at hv hos holt
  have hst := (stage_result.done.inj h).symm
  subst hst
  refine ⟨hne, hver, hin, hdest, ?_, hsum, hlt, ?_, holt (by norm_num), hsig, hrct, htype⟩
  · simp only [commit_outputs]
    rw [hv]
    rfl
  · simp only
    rw [hos]
    rfl

theorem zero_amounts_length {PK Extra : Type} (sources_rct : List Bool)
    (tx : transaction_prefix PK Extra) :
    (zero_amounts sources_rct tx).vin.length = tx.vin.length
    ∧ (zero_amounts sources_rct tx).vout.length = tx.vout.length
    ∧ (zero_amounts sources_rct tx).version = tx.version := by
  unfold zero_amounts
  simp

/-- The checking stages, when they complete: the money check has passed and the signing stage
has completed on the state with the final extra field. -/
theorem check_stages_eq_done {PK SK Extra Sig : Type} (env : tx_env PK SK Extra Sig)
    (zero_secret_key : Bool) (source_asset dest_asset : String) (pr : pricing_record)
    (circ_amounts : List (String × String)) (additional_tx_keys : List SK) (borromean : Bool)
    (st : build_state PK SK Extra Sig) (t : tx_draft PK Extra Sig)
    (h : check_stages env zero_secret_key source_asset dest_asset pr circ_amounts
      additional_tx_keys borromean st = stage_result.done t) :
    st.summary_outs_money ≤ st.summary_inputs_money
    ∧ ∃ extra, sign_stage env zero_secret_key borromean
        { st with draft := { st.draft with tx := { st.draft.tx with extra := extra } } }
        = stage_result.done t := by
  unfold check_stages at h
  obtain ⟨_, _, h⟩ := (next_eq_done _ _ _).mp h
  obtain ⟨extra, _, h⟩ := (next_eq_done _ _ _).mp h
  obtain ⟨_, hm, h⟩ := (next_eq_done _ _ _).mp h
  unfold money_stage at hm
  simp only at hm
  by_cases hgt : st.summary_outs_money > st.summary_inputs_money
  · rw [if_pos hgt] at hm
    exact stage_result.noConfusion hm
  · exact ⟨Nat.le_of_not_lt hgt, extra, h⟩

/-- The signing stage, when it returns false, leaves the inputs and outputs in the
transaction. -/
theorem sign_stage_eq_returned_false {PK SK Extra Sig : Type} (env : tx_env PK SK Extra Sig)
    (zero_secret_key borromean : Bool) (st : build_state PK SK Extra Sig)
    (t : tx_draft PK Extra Sig)
    (h : sign_stage env zero_secret_key borromean st = stage_result.returned_false t) :
    t.tx.vin.length = st.draft.tx.vin.length ∧ t.tx.vout.length = st.draft.tx.vout.length := by
  unfold sign_stage at h
  simp only at h
  by_cases hv : st.draft.tx.version = 1
  · rw [if_pos hv] at h
    exact stage_result.noConfusion h
  · rw [if_neg hv] at h
    by_cases h1 : ¬ use_simple_rct st.sources borromean = true ∧ ¬ non_simple_checks st.sources = true
    · rw [if_pos h1] at h
      rw [← stage_result.returned_false.inj h]
      exact ⟨rfl, rfl⟩
    · rw [if_neg h1] at h
      split at h
      · rw [← stage_result.returned_false.inj h]
        exact ⟨rfl, rfl⟩
      · rename_i call _
        by_cases h2 : ¬ ((zero_amounts (st.sources.map (fun s => s.rct)) st.draft.tx).vout.length
            = env.outSk_size call)
        · rw [if_pos h2] at h
          rw [← stage_result.returned_false.inj h]
          exact ⟨(zero_amounts_length _ _).1, (zero_amounts_length _ _).2.1⟩
        · rw [if_neg h2] at h
          exact stage_result.noConfusion h

/-- The checking stages, when they return false, leave the inputs and outputs in the
transaction. -/
theorem check_stages_eq_returned_false {PK SK Extra Sig : Type} (env : tx_env PK SK Extra Sig)
    (zero_secret_key : Bool) (source_asset dest_asset : String) (pr : pricing_record)
    (circ_amounts : List (String × String)) (additional_tx_keys : List SK) (borromean : Bool)
    (st : build_state PK SK Extra Sig) (t : tx_draft PK Extra Sig)
    (h : check_stages env zero_secret_key source_asset dest_asset pr circ_amounts
      additional_tx_keys borromean st = stage_result.returned_false t) :
    t.tx.vin.length = st.draft.tx.vin.length ∧ t.tx.vout.length = st.draft.tx.vout.length := by
  unfold check_stages at h
  rcases (next_eq_returned_false _ _ _).mp h with hg | ⟨_, _, h⟩
  · unfold guard_stage at hg
    split at hg
    · exact stage_result.noConfusion hg
    · rw [← stage_result.returned_false.inj hg]
      exact ⟨rfl, rfl⟩
    · exact stage_result.noConfusion hg
  · rcases (next_eq_returned_false _ _ _).mp h with he | ⟨extra, _, h⟩
    · unfold extra_stage at he
      simp only at he
      by_cases h1 : ¬ ((env.additional_tx_public_keys st.need_additional_txkeys
          st.destinations).length = additional_tx_keys.length)
      · rw [if_pos h1] at he
        rw [← stage_result.returned_false.inj he]
        exact ⟨rfl, rfl⟩
      · rw [if_neg h1] at he
        split at he
        · rw [← stage_result.returned_false.inj he]
          exact ⟨rfl, rfl⟩
        · rename_i sorted _
          by_cases h2 : ¬ (env.extra_size sorted ≤ env.MAX_TX_EXTRA_SIZE)
          · rw [if_pos h2] at he
            rw [← stage_result.returned_false.inj he]
            exact ⟨rfl, rfl⟩
          · rw [if_neg h2] at he
            exact stage_result.noConfusion he
    · rcases (next_eq_returned_false _ _ _).mp h with hm | ⟨_, _, h⟩
      · unfold money_stage at hm
        split_ifs at hm with h1
        rw [← stage_result.returned_false.inj hm]
        exact ⟨rfl, rfl⟩
      · have hs := sign_stage_eq_returned_false env zero_secret_key borromean _ t h
        exact hs

/-- The ordering of the inputs keeps their number when `std::sort` returns a permutation. -/
theorem sort_inputs_perm {Ctx Src : Type} (sort : (Nat → Nat → Bool) → List Nat → List Nat)
    (st : inputs_state Ctx Src) (hsort : ∀ comp l, (sort comp l).Perm l)
    (hvin : st.vin.length = st.sources.length) :
    (sort_inputs sort st).vin.Perm st.vin ∧ (sort_inputs sort st).sources.Perm st.sources := by
  unfold sort_inputs
  exact ⟨apply_permutation_perm _ _ (by rw [hvin]; exact hsort _ _),
    apply_permutation_perm _ _ (hsort _ _)⟩

/-! ## C31: the balance of a successful construction -/

/-- C31. Whenever `construct_tx_with_tx_key` returns true, with `std::shuffle` and `std::sort`
returning permutations and the totals of the source and of the destination amounts below `2^64`:
the destination total is at most the source total; the confidential layout has been signed; the
input amounts handed to the signer are those of the sources; in the simple layout the output
amounts are those of the destinations, the fee is the source total minus the destination total,
and inputs equal outputs plus fee; in the non-simple layout the fee is 0 and the output amounts,
with the difference appended when it is positive, sum to the input amounts. -/
theorem construct_tx_with_tx_key_balance {PK SK Extra Sig : Type} [DecidableEq PK]
    (env : tx_env PK SK Extra Sig) (zero_secret_key : Bool)
    (sources : List (tx_source_entry PK)) (destinations : List (tx_destination PK))
    (change_addr : Option (account_public_address PK)) (extra : Extra)
    (tx : tx_draft PK Extra Sig) (source_asset dest_asset : String)
    (current_height hf_version : Nat) (pr : pricing_record)
    (circ_amounts : List (String × String)) (unlock_time : Nat)
    (additional_tx_keys : List SK) (borromean shuffle_outs use_view_tags : Bool)
    (t : tx_draft PK Extra Sig)
    (hshuffle : ∀ l, (env.shuffle l).Perm l)
    (hsort : ∀ comp l, (env.sort comp l).Perm l)
    (hin : (sources.map (fun s => s.amount)).sum < 2 ^ 64)
    (hout : (destinations.map (fun d => d.amount)).sum < 2 ^ 64)
    (hok : construct_tx_with_tx_key env zero_secret_key sources destinations change_addr extra
      tx source_asset dest_asset current_height hf_version pr circ_amounts unlock_time
      additional_tx_keys borromean shuffle_outs use_view_tags = stage_result.done t) :
    (destinations.map (fun d => d.amount)).sum ≤ (sources.map (fun s => s.amount)).sum
    ∧ ∃ call, t.rct_signatures = some call
      ∧ call.inamounts.Perm (sources.map (fun s => s.amount))
      ∧ (call.simple = true →
          call.outamounts.Perm (destinations.map (fun d => d.amount))
          ∧ call.fee = (sources.map (fun s => s.amount)).sum
              - (destinations.map (fun d => d.amount)).sum
          ∧ call.inamounts.sum = call.outamounts.sum + call.fee)
      ∧ (call.simple = false →
          call.fee = 0
          ∧ call.inamounts.sum = call.outamounts.sum
          ∧ ((destinations.map (fun d => d.amount)).sum
                < (sources.map (fun s => s.amount)).sum →
              call.outamounts.Perm (destinations.map (fun d => d.amount)
                ++ [(sources.map (fun s => s.amount)).sum
                  - (destinations.map (fun d => d.amount)).sum]))) := by
  unfold construct_tx_with_tx_key at hok
  obtain ⟨st, hbuild, hcheck⟩ := (next_eq_done _ _ _).mp hok
  obtain ⟨_, hver, ⟨inputs, ctxs, hlen, _, _, _, hsrc⟩, hdest, hvout, hsin, hsinlt, hsout,
    hsoutlt, _, _, _⟩ := build_stages_eq_done env sources destinations change_addr extra tx
      source_asset dest_asset current_height hf_version unlock_time additional_tx_keys
      shuffle_outs use_view_tags st hbuild
  obtain ⟨hmoney, extra', hsign⟩ := check_stages_eq_done env zero_secret_key source_asset
    dest_asset pr circ_amounts additional_tx_keys borromean st t hcheck
  -- the sources and destinations of the state are permutations of those of the caller
  have hsperm : st.sources.Perm sources := by
    rw [hsrc]
    exact (sort_inputs_perm env.sort ⟨inputs, ctxs, sources⟩ hsort hlen).2
  have hdperm : st.destinations.Perm destinations := by
    rw [hdest]
    by_cases hs : shuffle_outs = true
    · rw [if_pos hs]
      exact hshuffle _
    · rw [if_neg hs]
  have hsa : (st.sources.map (fun s => s.amount)).Perm (sources.map (fun s => s.amount)) :=
    hsperm.map _
  have hda : (st.destinations.map (fun d => d.amount)).Perm
      (destinations.map (fun d => d.amount)) := hdperm.map _
  have hssum : (st.sources.map (fun s => s.amount)).sum = (sources.map (fun s => s.amount)).sum :=
    hsa.sum_eq
  have hdsum : (st.destinations.map (fun d => d.amount)).sum
      = (destinations.map (fun d => d.amount)).sum := hda.sum_eq
  -- the two totals are exact
  rw [Nat.mod_eq_of_lt hsinlt, Nat.mod_eq_of_lt hin] at hsin
  rw [Nat.mod_eq_of_lt hsoutlt, hdsum, Nat.mod_eq_of_lt hout] at hsout
  rw [hsin, hsout] at hmoney
  refine ⟨hmoney, ?_⟩
  -- the signing stage
  have hv1 : st.draft.tx.version ≠ 1 := by
    rw [hver]
    split_ifs <;> decide
  obtain ⟨call, hcall, hrct, _, _⟩ := sign_stage_eq_done env zero_secret_key borromean
    { st with draft := { st.draft with tx := { st.draft.tx with extra := extra' } } } t hv1
    hsign
  simp only at hcall
  rw [hsin, hsout, ← hssum] at hcall
  have hvsum : (st.draft.tx.vout.map (fun o => o.amount)).sum
      = (destinations.map (fun d => d.amount)).sum := by rw [hvout, hdsum]
  rw [← hvsum] at hcall
  obtain ⟨hsimple, hina, hs1, hs0⟩ := rct_amounts_eq_some env _ st.sources st.draft.tx.vout call
    (by rw [hssum]; exact hin) (by rw [hvsum]; exact hout)
    (by rw [hvsum, hssum]; exact hmoney) hcall
  rw [hssum, hvsum] at hs1 hs0
  refine ⟨call, hrct, by rw [hina]; exact hsa, ?_, ?_⟩
  · intro hs
    obtain ⟨ho, hf⟩ := hs1 (by rw [← hsimple]; exact hs)
    refine ⟨by rw [ho, hvout]; exact hda, hf, ?_⟩
    rw [hina, hssum, ho, hvsum, hf]
    omega
  · intro hs
    obtain ⟨hf, hos, hlt, _⟩ := hs0 (by rw [← hsimple]; exact hs)
    refine ⟨hf, by rw [hina, hssum, hos], ?_⟩
    intro hlt'
    rw [hlt hlt', hvout]
    exact List.Perm.append_right _ hda

/-- Two sources of 10 and 15 pay destinations of 20 and 3 in the simple layout: the fee handed
to the signer is 2. -/
theorem construct_tx_with_tx_key_balance_witness :
    ∃ call : rct_call, call.simple = true ∧ call.fee = 2
      ∧ call.inamounts.sum = call.outamounts.sum + call.fee := by
  obtain ⟨_, call, hcall, _, hsimple, _⟩ :=
    construct_tx_with_tx_key_balance toy_tx_env false
      [⟨[(0, 50)], 0, 10, "ZEPH", true⟩, ⟨[(5, 60), (6, 61)], 1, 15, "ZEPH", true⟩]
      [⟨⟨20, 20, "ZEPH"⟩, ⟨3, 4⟩, false⟩, ⟨⟨3, 3, "ZEPH"⟩, ⟨7, 8⟩, false⟩] (some ⟨7, 8⟩) []
      stale_tx "ZEPH" "ZEPH" 100 3 ⟨0, 0⟩ [] 0 [] false true true
      ⟨⟨3, 0, [txin_v.txin_zephyr_key 0 "ZEPH" [5, 6] [61],
            txin_v.txin_zephyr_key 0 "ZEPH" [0] [50]],
          [⟨0, "ZEPH", 10007, true, 0⟩, ⟨0, "ZEPH", 10004, true, 1⟩], [1, 4, 3000], 0, 0, 0⟩,
        [], some ⟨true, [15, 10], [3, 20], ["ZEPH", "ZEPH"], 2, [1, 0]⟩⟩
      (fun l => List.reverse_perm l) (fun _ l => List.perm_insertionSort _ l)
      (by decide) (by decide) (by decide)
  have hc : call = ⟨true, [15, 10], [3, 20], ["ZEPH", "ZEPH"], 2, [1, 0]⟩ :=
    (Option.some.inj hcall).symm
  have hs : call.simple = true := by rw [hc]
  exact ⟨call, hs, (hsimple hs).2.1, (hsimple hs).2.2⟩

/-! ## C33: the transaction left by a failed construction -/

/-- C33 as stated fails: when the money check fails (one source of 10, one destination of 20)
the function returns false and the transaction holds the input and the output that were built;
so it does when the reserve-ratio guard rejects a conversion (here a MINT_STABLE with no
reserve coin in circulation). -/
theorem construct_tx_with_tx_key_leaves_partial :
    construct_tx_with_tx_key toy_tx_env false [⟨[(0, 50)], 0, 10, "ZEPH", true⟩]
        [⟨⟨20, 20, "ZEPH"⟩, ⟨3, 4⟩, false⟩] none [] stale_tx "ZEPH" "ZEPH" 100 3 ⟨0, 0⟩ [] 0 []
        false true true
      = stage_result.returned_false
          ⟨⟨3, 0, [txin_v.txin_zephyr_key 10 "ZEPH" [0] [50]],
            [⟨20, "ZEPH", 10003, true, 0⟩], [1, 4, 3000], 0, 0, 0⟩, [], none⟩
    ∧ construct_tx_with_tx_key toy_tx_env false [⟨[(0, 50)], 0, 10, "ZEPH", true⟩]
        [⟨⟨7, 7, "ZEPHUSD"⟩, ⟨3, 4⟩, false⟩] none [] stale_tx "ZEPH" "ZEPHUSD" 100 3
        ⟨1000000000000, 0⟩ [] 0 [] false true true
      = stage_result.returned_false
          ⟨⟨3, 0, [txin_v.txin_zephyr_key 10 "ZEPH" [0] [50]],
            [⟨7, "ZEPHUSD", 10003, true, 0⟩], [1, 4, 3000], 100, 7, 7⟩, [], none⟩ := by
  constructor <;> decide

/-- C33 (amended). When `construct_tx_with_tx_key` returns false the transaction is left as it
stood at the failing check: with no sources it is the transaction of the caller, untouched; with
an unsupported asset type it holds no inputs and no outputs; and once the inputs and outputs
have been built (with `std::shuffle` and `std::sort` returning permutations), a failure of any
later check (the reserve-ratio guard, the checks on the extra field, the money check, the checks
of the signing stage) leaves it holding one input per source and one output per destination. -/
theorem construct_tx_with_tx_key_failure {PK SK Extra Sig : Type} [DecidableEq PK]
    (env : tx_env PK SK Extra Sig) (zero_secret_key : Bool)
    (sources : List (tx_source_entry PK)) (destinations : List (tx_destination PK))
    (change_addr : Option (account_public_address PK)) (extra : Extra)
    (tx : tx_draft PK Extra Sig) (source_asset dest_asset : String)
    (current_height hf_version : Nat) (pr : pricing_record)
    (circ_amounts : List (String × String)) (unlock_time : Nat)
    (additional_tx_keys : List SK) (borromean shuffle_outs use_view_tags : Bool)
    (hshuffle : ∀ l, (env.shuffle l).Perm l)
    (hsort : ∀ comp l, (env.sort comp l).Perm l) :
    (sources = [] →
      construct_tx_with_tx_key env zero_secret_key sources destinations change_addr extra
        tx source_asset dest_asset current_height hf_version pr circ_amounts unlock_time
        additional_tx_keys borromean shuffle_outs use_view_tags = stage_result.returned_false tx)
    ∧ (sources ≠ [] → source_asset ∉ ASSET_TYPES ∨ dest_asset ∉ ASSET_TYPES →
      ∃ t, construct_tx_with_tx_key env zero_secret_key sources destinations change_addr extra
          tx source_asset dest_asset current_height hf_version pr circ_amounts unlock_time
          additional_tx_keys borromean shuffle_outs use_view_tags
          = stage_result.returned_false t
        ∧ t.tx.vin = [] ∧ t.tx.vout = [])
    ∧ (∀ st t,
      build_stages env sources destinations change_addr extra tx source_asset dest_asset
        current_height hf_version unlock_time additional_tx_keys shuffle_outs use_view_tags
        = stage_result.done st →
      construct_tx_with_tx_key env zero_secret_key sources destinations change_addr extra
        tx source_asset dest_asset current_height hf_version pr circ_amounts unlock_time
        additional_tx_keys borromean shuffle_outs use_view_tags
        = stage_result.returned_false t →
      t.tx.vin.length = sources.length ∧ t.tx.vout.length = destinations.length) := by
  refine ⟨?_, ?_, ?_⟩
  · intro he
    have hinit : init_stage env sources destinations extra tx source_asset dest_asset
        current_height hf_version unlock_time = stage_result.returned_false tx := by
      unfold init_stage
      rw [he]
      rfl
    simp only [construct_tx_with_tx_key, build_stages, input_stages, hinit, stage_result.next]
  · intro hne hbad
    have hemp : sources.isEmpty = false := by
      cases sources with
      | nil => exact absurd rfl hne
      | cons _ _ => rfl
    cases hinit : init_stage env sources destinations extra tx source_asset dest_asset
        current_height hf_version unlock_time with
    | returned_false t =>
      refine ⟨t, ?_, ?_⟩
      · simp only [construct_tx_with_tx_key, build_stages, input_stages, hinit,
          stage_result.next]
      · rcases init_stage_eq_returned_false env sources destinations extra tx source_asset
          dest_asset current_height hf_version unlock_time t hinit with ⟨he, _⟩ | ⟨_, h⟩
        · exact absurd he hne
        · exact h
    | threw =>
      unfold init_stage at hinit
      simp only [hemp, Bool.false_eq_true, if_false] at hinit
      split_ifs at hinit
    | done st =>
      unfold init_stage at hinit
      simp only [hemp, Bool.false_eq_true, if_false] at hinit
      rcases hbad with hb | hb
      · simp only [hb, not_false_eq_true, if_true] at hinit
        exact stage_result.noConfusion hinit
      · by_cases hs : source_asset ∈ ASSET_TYPES
        · simp only [hs, hb, not_true_eq_false, not_false_eq_true, if_false, if_true] at hinit
          exact stage_result.noConfusion hinit
        · simp only [hs, not_false_eq_true, if_true] at hinit
          exact stage_result.noConfusion hinit
  · intro st t hbuild hfail
    unfold construct_tx_with_tx_key at hfail
    rw [hbuild] at hfail
    obtain ⟨hvin, hvout⟩ := check_stages_eq_returned_false env zero_secret_key source_asset
      dest_asset pr circ_amounts additional_tx_keys borromean st t hfail
    obtain ⟨_, _, ⟨inputs, ctxs, hlen, _, hv, _, _⟩, hdest, hvo, _⟩ :=
      build_stages_eq_done env sources destinations change_addr extra tx
        source_asset dest_asset current_height hf_version unlock_time additional_tx_keys
        shuffle_outs use_view_tags st hbuild
    constructor
    · rw [hvin, hv, (sort_inputs_perm env.sort ⟨inputs, ctxs, sources⟩ hsort hlen).1.length_eq]
      exact hlen
    · rw [hvout]
      have h1 : (st.draft.tx.vout.map (fun o => o.amount)).length
          = (st.destinations.map (fun d => d.amount)).length := by rw [hvo]
      simp only [List.length_map] at h1
      rw [h1, hdest]
      by_cases hs : shuffle_outs = true
      · rw [if_pos hs]
        exact (hshuffle _).length_eq
      · rw [if_neg hs]

/-- With no sources the transaction of the caller comes back as it was, stale output and all. -/
theorem construct_tx_with_tx_key_failure_witness :
    construct_tx_with_tx_key toy_tx_env false [] [⟨⟨7, 7, "ZEPH"⟩, ⟨3, 4⟩, false⟩] none []
      stale_tx "ZEPH" "ZEPH" 100 2 ⟨0, 0⟩ [] 0 [] true true true
      = stage_result.returned_false stale_tx :=
  (construct_tx_with_tx_key_failure toy_tx_env false [] [⟨⟨7, 7, "ZEPH"⟩, ⟨3, 4⟩, false⟩]
    none [] stale_tx "ZEPH" "ZEPH" 100 2 ⟨0, 0⟩ [] 0 [] true true true
    (fun l => List.reverse_perm l) (fun _ l => List.perm_insertionSort _ l)).1 rfl

/-! ## C38: the transaction version -/

/-- The input loop does not call the legacy signing loop. -/
theorem fill_inputs_congr {PK SK Extra Sig : Type} [DecidableEq PK]
    (env : tx_env PK SK Extra Sig)
    (g : Bool → transaction_prefix PK Extra → List (tx_source_entry PK) →
      List (keypair PK SK) → List Sig) :
    ∀ (sources : List (tx_source_entry PK)) (tx : tx_draft PK Extra Sig)
      (in_contexts : List (keypair PK SK)) (summary_inputs_money : Nat),
      fill_inputs { env with generate_ring_signatures := g } sources tx in_contexts
          summary_inputs_money
        = fill_inputs env sources tx in_contexts summary_inputs_money
  | [], _, _, _ => rfl
  | src :: rest, tx, in_contexts, summary_inputs_money => by
    unfold fill_inputs
    simp only [fill_inputs_congr env g rest]

/-- The signing stage on a transaction whose version is not 1 does not call the legacy signing
loop. -/
theorem sign_stage_congr {PK SK Extra Sig : Type} (env : tx_env PK SK Extra Sig)
    (g : Bool → transaction_prefix PK Extra → List (tx_source_entry PK) →
      List (keypair PK SK) → List Sig)
    (zero_secret_key borromean : Bool) (st : build_state PK SK Extra Sig)
    (hv : st.draft.tx.version ≠ 1) :
    sign_stage { env with generate_ring_signatures := g } zero_secret_key borromean st
      = sign_stage env zero_secret_key borromean st := by
  unfold sign_stage
  simp only [hv, if_false]
  rfl

/-- C38. For every `hf_version`, the state that reaches the output loop of
`construct_tx_with_tx_key` has version 3 (from `HF_VERSION_DJED` on) or 2 (before), never 1, so
the check `dest_amount > 0 || tx.version > 1` does not fail there: the output stage completes;
a transaction returned with true has that version; and the result of the function does not
depend on the signing loop of the legacy layout (`tx.version == 1`), which is never entered. -/
theorem construct_tx_with_tx_key_version {PK SK Extra Sig : Type} [DecidableEq PK]
    (env : tx_env PK SK Extra Sig) (zero_secret_key : Bool)
    (sources : List (tx_source_entry PK)) (destinations : List (tx_destination PK))
    (change_addr : Option (account_public_address PK)) (extra : Extra)
    (tx : tx_draft PK Extra Sig) (source_asset dest_asset : String)
    (current_height hf_version : Nat) (pr : pricing_record)
    (circ_amounts : List (String × String)) (unlock_time : Nat)
    (additional_tx_keys : List SK) (borromean shuffle_outs use_view_tags : Bool) :
    (∀ st, input_stages env sources destinations change_addr extra tx source_asset dest_asset
        current_height hf_version unlock_time additional_tx_keys shuffle_outs
        = stage_result.done st →
      st.draft.tx.version = (if hf_version ≥ env.HF_VERSION_DJED then 3 else 2)
      ∧ st.draft.tx.version ≠ 1
      ∧ ∃ o, outputs_stage env source_asset dest_asset use_view_tags st = stage_result.done o)
    ∧ (∀ t, construct_tx_with_tx_key env zero_secret_key sources destinations change_addr extra
        tx source_asset dest_asset current_height hf_version pr circ_amounts unlock_time
        additional_tx_keys borromean shuffle_outs use_view_tags = stage_result.done t →
      t.tx.version = (if hf_version ≥ env.HF_VERSION_DJED then 3 else 2) ∧ t.tx.version ≠ 1
      ∧ t.signatures = [])
    ∧ (∀ g, construct_tx_with_tx_key { env with generate_ring_signatures := g }
        zero_secret_key sources destinations change_addr extra
        tx source_asset dest_asset current_height hf_version pr circ_amounts unlock_time
        additional_tx_keys borromean shuffle_outs use_view_tags
      = construct_tx_with_tx_key env zero_secret_key sources destinations change_addr extra
        tx source_asset dest_asset current_height hf_version pr circ_amounts unlock_time
        additional_tx_keys borromean shuffle_outs use_view_tags) := by
  have hne1 : (if hf_version ≥ env.HF_VERSION_DJED then 3 else 2) ≠ 1 := by
    split_ifs <;> decide
  have hgt1 : (if hf_version ≥ env.HF_VERSION_DJED then 3 else 2) > 1 := by
    split_ifs <;> decide
  refine ⟨?_, ?_, ?_⟩
  · intro st hst
    obtain ⟨_, hver, _⟩ := input_stages_eq_done env sources destinations change_addr extra tx
      source_asset dest_asset current_height hf_version unlock_time additional_tx_keys
      shuffle_outs st hst
    refine ⟨hver, by rw [hver]; exact hne1, ?_⟩
    exact outputs_stage_of_version env source_asset dest_asset use_view_tags st
      (by rw [hver]; exact hgt1)
  · intro t hok
    unfold construct_tx_with_tx_key at hok
    obtain ⟨st, hbuild, hcheck⟩ := (next_eq_done _ _ _).mp hok
    obtain ⟨_, hver, _, _, _, _, _, _, _, hsig, _, _⟩ :=
      build_stages_eq_done env sources destinations change_addr extra tx
        source_asset dest_asset current_height hf_version unlock_time additional_tx_keys
        shuffle_outs use_view_tags st hbuild
    obtain ⟨_, extra', hsign⟩ := check_stages_eq_done env zero_secret_key source_asset
      dest_asset pr circ_amounts additional_tx_keys borromean st t hcheck
    have hv1 : st.draft.tx.version ≠ 1 := by rw [hver]; exact hne1
    obtain ⟨call, _, _, hs, htx⟩ := sign_stage_eq_done env zero_secret_key borromean
      { st with draft := { st.draft with tx := { st.draft.tx with extra := extra' } } } t hv1
      hsign
    have hv : t.tx.version = st.draft.tx.version := by
      rw [htx]
      exact (zero_amounts_length _ _).2.2
    rw [hv, hver]
    exact ⟨rfl, hne1, by rw [hs]; exact hsig⟩
  · intro g
    unfold construct_tx_with_tx_key
    have hb : build_stages { env with generate_ring_signatures := g } sources destinations
        change_addr extra tx source_asset dest_asset current_height hf_version unlock_time
        additional_tx_keys shuffle_outs use_view_tags
        = build_stages env sources destinations change_addr extra tx source_asset dest_asset
          current_height hf_version unlock_time additional_tx_keys shuffle_outs
          use_view_tags := by
      unfold build_stages input_stages
      simp only [fill_inputs_congr]
      rfl
    rw [hb]
    cases hbuild : build_stages env sources destinations change_addr extra tx source_asset
        dest_asset current_height hf_version unlock_time additional_tx_keys shuffle_outs
        use_view_tags with
    | returned_false t => rfl
    | threw => rfl
    | done st =>
      obtain ⟨_, hver, _⟩ := build_stages_eq_done env sources destinations change_addr extra tx
        source_asset dest_asset current_height hf_version unlock_time additional_tx_keys
        shuffle_outs use_view_tags st hbuild
      have hv1 : st.draft.tx.version ≠ 1 := by rw [hver]; exact hne1
      simp only [stage_result.next, check_stages]
      have hg : guard_stage { env with generate_ring_signatures := g } source_asset dest_asset
          pr circ_amounts st = guard_stage env source_asset dest_asset pr circ_amounts st := rfl
      have he : extra_stage { env with generate_ring_signatures := g } additional_tx_keys st
          = extra_stage env additional_tx_keys st := rfl
      rw [hg, he]
      cases guard_stage env source_asset dest_asset pr circ_amounts st with
      | returned_false t => rfl
      | threw => rfl
      | done u =>
        cases extra_stage env additional_tx_keys st with
        | returned_false t => rfl
        | threw => rfl
        | done e =>
          simp only
          cases money_stage
              { st with draft := { st.draft with tx := { st.draft.tx with extra := e } } } with
          | returned_false t => rfl
          | threw => rfl
          | done u' =>
            exact sign_stage_congr env g zero_secret_key borromean
              { st with draft := { st.draft with tx := { st.draft.tx with extra := e } } } hv1

/-! ## C39: the non-simple layout has one source -/

/-- With at most one source the two checks of the non-simple layout pass. -/
theorem non_simple_checks_of_length_le_one {PK : Type} (sources : List (tx_source_entry PK))
    (h : sources.length ≤ 1) : non_simple_checks sources = true := by
  rcases sources with _ | ⟨a, _ | ⟨b, rest⟩⟩
  · rfl
  · simp [non_simple_checks]
  · simp at h

/-- C39. In `construct_tx_with_tx_key`, with `std::sort` returning a permutation: when the stages
before the signature complete and `use_simple_rct` is false on the sources they leave, there is
exactly one source (before and after the sort), the range proof type is Borromean, and the two
checks of the non-simple layout ("same index" and "varying ring size") pass, so the signing
stage does not return false because of them. -/
theorem construct_tx_with_tx_key_non_simple {PK SK Extra Sig : Type} [DecidableEq PK]
    (env : tx_env PK SK Extra Sig)
    (sources : List (tx_source_entry PK)) (destinations : List (tx_destination PK))
    (change_addr : Option (account_public_address PK)) (extra : Extra)
    (tx : tx_draft PK Extra Sig) (source_asset dest_asset : String)
    (current_height hf_version : Nat) (unlock_time : Nat)
    (additional_tx_keys : List SK) (borromean shuffle_outs use_view_tags : Bool)
    (st : build_state PK SK Extra Sig)
    (hsort : ∀ comp l, (env.sort comp l).Perm l)
    (hst : build_stages env sources destinations change_addr extra tx source_asset dest_asset
      current_height hf_version unlock_time additional_tx_keys shuffle_outs use_view_tags
      = stage_result.done st)
    (hns : use_simple_rct st.sources borromean = false) :
    sources.length = 1 ∧ st.sources.length = 1 ∧ borromean = true
      ∧ non_simple_checks st.sources = true
      ∧ ¬ (¬ use_simple_rct st.sources borromean = true ∧ ¬ non_simple_checks st.sources = true) := by
  obtain ⟨hne, _, ⟨inputs, ctxs, hlen, _, _, _, hsrc⟩, _⟩ :=
    build_stages_eq_done env sources destinations change_addr extra tx source_asset dest_asset
      current_height hf_version unlock_time additional_tx_keys shuffle_outs use_view_tags st hst
  have hperm := (sort_inputs_perm env.sort ⟨inputs, ctxs, sources⟩ hsort hlen).2
  rw [← hsrc] at hperm
  have hl : st.sources.length = sources.length := hperm.length_eq
  unfold use_simple_rct at hns
  simp only [Bool.or_eq_false_iff, decide_eq_false_iff_not, Bool.not_eq_false_eq_eq_true,
    Bool.not_eq_eq_eq_not, Bool.not_false] at hns
  obtain ⟨hle, hb⟩ := hns
  have hpos : 0 < sources.length := List.length_pos.mpr hne
  have h1 : st.sources.length = 1 := by omega
  have hc : non_simple_checks st.sources = true :=
    non_simple_checks_of_length_le_one st.sources (by omega)
  exact ⟨by omega, h1, hb, hc, fun h => h.2 hc⟩

/-- One source with a Borromean range proof: the non-simple layout is chosen and its checks
pass. -/
theorem construct_tx_with_tx_key_non_simple_witness :
    use_simple_rct [(⟨[(0, 50)], 0, 10, "ZEPH", true⟩ : tx_source_entry Nat)] true = false
      ∧ non_simple_checks [(⟨[(0, 50)], 0, 10, "ZEPH", true⟩ : tx_source_entry Nat)] = true :=
  ⟨by decide,
    (construct_tx_with_tx_key_non_simple toy_tx_env [⟨[(0, 50)], 0, 10, "ZEPH", true⟩]
      [⟨⟨7, 7, "ZEPH"⟩, ⟨3, 4⟩, false⟩] none [] stale_tx "ZEPH" "ZEPH" 100 3 0 [] true true true
      ⟨⟨⟨3, 0, [txin_v.txin_zephyr_key 10 "ZEPH" [0] [50]],
          [⟨7, "ZEPH", 10003, true, 0⟩], [1, 4, 3000], 0, 0, 0⟩, [], none⟩,
        [⟨[(0, 50)], 0, 10, "ZEPH", true⟩], [⟨⟨7, 7, "ZEPH"⟩, ⟨3, 4⟩, false⟩], [⟨50, 10⟩],
        10, 7, transaction_type.TRANSFER, false⟩
      (fun _ l => List.perm_insertionSort _ l) (by decide) (by decide)).2.2.2.1⟩

end Zephyr
